import Mathlib

/-!
# weather-query: the command-language interpreter of the front end

A shallow embedding of `src/frontend/index.js` (tokenizer `getArgs`, validator
`validateInput`, `sendRequest`, the form and the autocomplete), of the registry `queries`
of `src/frontend/query-constants.js` and of the request handling of `src/server.js`.

JavaScript strings are modelled as lists of characters (`JSString`).  The source only
ever inspects the characters space, double quote, back-tick, ASCII digits and `-`,
all of which are single UTF-16 code units, so character-wise and code-unit-wise
`split`, `startsWith`, `endsWith` and `==` agree; `.length` is modelled by `jsLength`,
which counts UTF-16 code units.
-/

namespace WeatherQuery

/-- A JavaScript string, as its sequence of characters. -/
abbrev JSString := List Char

/-- The `.length` of a JavaScript string: the number of UTF-16 code units. -/
def jsLength : JSString → Nat
  | [] => 0
  | c :: cs => (if c.toNat < 65536 then 1 else 2) + jsLength cs

/-- The method `s.split(sep)` for a one-character separator: every occurrence of the
separator ends a segment, so the result always has at least one segment. -/
def split (sep : Char) : JSString → List JSString
  | [] => [[]]
  | c :: cs =>
    if c = sep then [] :: split sep cs
    else
      match split sep cs with
      | [] => [[c]]
      | s :: ss => (c :: s) :: ss

/-- The method `s.startsWith(c)` for a one-character pattern. -/
def startsWith (s : JSString) (c : Char) : Bool :=
  match s with
  | [] => false
  | x :: _ => x == c

/-- The method `s.endsWith(c)` for a one-character pattern. -/
def endsWith (s : JSString) (c : Char) : Bool :=
  s.getLast? == some c

/-- The method `xs.join(sep)` for a one-character separator. -/
def join (sep : Char) : List JSString → JSString
  | [] => []
  | [x] => x
  | x :: y :: rest => x ++ sep :: join sep (y :: rest)

/-- The statement `resultValue[resultValue.length - 1] += suffix`.  On an empty array the
assignment writes the property `-1`, which is not an element: the array stays empty. -/
def appendToLast : List JSString → JSString → List JSString
  | [], _ => []
  | [t], suffix => [t ++ suffix]
  | t :: u :: rest, suffix => t :: appendToLast (u :: rest) suffix

/-- The loop state of `getArgs`: the array `resultValue` and the flag `quoteOpen`. -/
structure ArgsState where
  resultValue : List JSString
  quoteOpen : Bool
deriving DecidableEq, Repr

/-- The value of `quoteOpen` after the two `if` statements at the end of the loop body. -/
def quoteAfter (quoteOpen : Bool) (possibleArg : JSString) : Bool :=
  let q := if startsWith possibleArg '"' then true else quoteOpen
  if endsWith possibleArg '"' then false else q

/-- One iteration of the `for ... of inpValue.split(" ")` loop of `getArgs`. -/
def getArgsStep (st : ArgsState) (possibleArg : JSString) : ArgsState :=
  { resultValue :=
      if st.quoteOpen then appendToLast st.resultValue (' ' :: possibleArg)
      else st.resultValue ++ [possibleArg]
    quoteOpen := quoteAfter st.quoteOpen possibleArg }

/-- The whole loop of `getArgs`, before the final filter. -/
def getArgsLoop (inpValue : JSString) : ArgsState :=
  (split ' ' inpValue).foldl getArgsStep { resultValue := [], quoteOpen := false }

/-- The function `getArgs(inpValue)` of `index.js`. -/
def getArgs (inpValue : JSString) : List JSString :=
  (getArgsLoop inpValue).resultValue.filter (fun arg => arg ≠ [])

/-! ## `Number(str)` -/

/-- The characters of `StrWhiteSpaceChar` (ECMAScript `WhiteSpace` and `LineTerminator`):
TAB, LF, VT, FF, CR, the space separators (category Zs), LS, PS and ZWNBSP. -/
def isStrWhiteSpaceChar (c : Char) : Bool :=
  c.toNat ∈ [0x9, 0xA, 0xB, 0xC, 0xD, 0x20, 0xA0, 0x1680, 0x2000, 0x2001, 0x2002, 0x2003,
    0x2004, 0x2005, 0x2006, 0x2007, 0x2008, 0x2009, 0x200A, 0x2028, 0x2029, 0x202F, 0x205F,
    0x3000, 0xFEFF]

/-- Removes the trailing `StrWhiteSpace` of a string. -/
def trimEnd : JSString → JSString
  | [] => []
  | c :: cs =>
    match trimEnd cs with
    | [] => if isStrWhiteSpaceChar c then [] else [c]
    | r :: rs => c :: r :: rs

/-- Removes the leading and the trailing `StrWhiteSpace` of a string. -/
def trim (s : JSString) : JSString :=
  trimEnd (s.dropWhile isStrWhiteSpaceChar)

/-- The value of a digit character in a base up to 16 (`none` when it is not one). -/
def digitValue (base : Nat) (c : Char) : Option Nat :=
  let v :=
    if '0' ≤ c ∧ c ≤ '9' then c.toNat - '0'.toNat
    else if 'a' ≤ c ∧ c ≤ 'f' then c.toNat - 'a'.toNat + 10
    else if 'A' ≤ c ∧ c ≤ 'F' then c.toNat - 'A'.toNat + 10
    else 16
  if v < base then some v else none

/-- Whether a string is a non-empty run of digits of the base. -/
def isDigits (base : Nat) (s : JSString) : Bool :=
  s ≠ [] && s.all (fun c => (digitValue base c).isSome)

/-- The mathematical value of a run of digits of the base. -/
def digitsValue (base : Nat) (s : JSString) : Nat :=
  s.foldl (fun acc c => acc * base + (digitValue base c).getD 0) 0

/-- The result of `Number(str)`.  A finite result carries the mathematical value of the
literal, `(-1)^negative * mantissa * 10^exponent`; the double that JavaScript rounds it to
is `JSNumber.toDouble` of it.  The validator only uses the value of strings of length 1 or
2, which is an integer or a multiple of 1/10 between 0 and 1, and only compares it with
integers, for which the rounded and the mathematical value agree. -/
inductive JSNumber where
  | nan
  | infinity (negative : Bool)
  | finite (negative : Bool) (mantissa : Nat) (exponent : Int)
deriving DecidableEq, Repr

/-- The test `Number.isNaN(x)`. -/
def JSNumber.isNaN : JSNumber → Bool
  | .nan => true
  | _ => false

/-- The comparison `x < n` of a number with an integer (false on NaN). -/
def JSNumber.ltInt : JSNumber → Int → Bool
  | .nan, _ => false
  | .infinity negative, _ => negative
  | .finite negative mantissa exponent, n =>
    let m : Int := if negative then -(mantissa : Int) else mantissa
    if 0 ≤ exponent then m * 10 ^ exponent.toNat < n else m < n * 10 ^ (-exponent).toNat

/-- The comparison `x > n` of a number with an integer (false on NaN). -/
def JSNumber.gtInt : JSNumber → Int → Bool
  | .nan, _ => false
  | .infinity negative, _ => !negative
  | .finite negative mantissa exponent, n =>
    let m : Int := if negative then -(mantissa : Int) else mantissa
    if 0 ≤ exponent then n < m * 10 ^ exponent.toNat else n * 10 ^ (-exponent).toNat < m

/-- The production `SignedInteger` of an exponent: digits with an optional sign. -/
def parseSignedInteger (s : JSString) : Option Int :=
  match s with
  | [] => none
  | c :: rest =>
    if c = '+' then (if isDigits 10 rest then some (digitsValue 10 rest : Int) else none)
    else if c = '-' then (if isDigits 10 rest then some (-(digitsValue 10 rest : Int)) else none)
    else if isDigits 10 s then some (digitsValue 10 s : Int) else none

/-- The optional `ExponentPart` that ends a decimal literal: nothing, or `e`/`E` and a
signed integer. -/
def parseExponentPart (s : JSString) : Option Int :=
  match s with
  | [] => some 0
  | c :: rest => if c = 'e' ∨ c = 'E' then parseSignedInteger rest else none

/-- The production `StrUnsignedDecimalLiteral`. -/
def parseUnsignedDecimal (negative : Bool) (s : JSString) : JSNumber :=
  if s = "Infinity".toList then .infinity negative
  else
    let intPart := s.takeWhile (fun c => (digitValue 10 c).isSome)
    let afterInt := s.dropWhile (fun c => (digitValue 10 c).isSome)
    match afterInt with
    | [] => if intPart = [] then .nan else .finite negative (digitsValue 10 intPart) 0
    | c :: rest =>
      if c = '.' then
        let fracPart := rest.takeWhile (fun c => (digitValue 10 c).isSome)
        let afterFrac := rest.dropWhile (fun c => (digitValue 10 c).isSome)
        if intPart = [] ∧ fracPart = [] then .nan
        else
          match parseExponentPart afterFrac with
          | none => .nan
          | some e =>
            .finite negative (digitsValue 10 (intPart ++ fracPart)) (e - (fracPart.length : Int))
      else if intPart = [] then .nan
      else
        match parseExponentPart afterInt with
        | none => .nan
        | some e => .finite negative (digitsValue 10 intPart) e

/-- The production `NonDecimalIntegerLiteral`: `0b`, `0o` or `0x` (either case) and digits
of that base; `none` when the string does not start with such a marker. -/
def parseNonDecimal (s : JSString) : Option JSNumber :=
  match s with
  | z :: m :: ds =>
    if z = '0' then
      let base : Nat :=
        if m = 'b' ∨ m = 'B' then 2 else if m = 'o' ∨ m = 'O' then 8
        else if m = 'x' ∨ m = 'X' then 16 else 0
      if base = 0 then none
      else if isDigits base ds then some (.finite false (digitsValue base ds) 0) else some .nan
    else none
  | _ => none

/-- The production `StrNumericLiteral`. -/
def parseStrNumericLiteral (s : JSString) : JSNumber :=
  match parseNonDecimal s with
  | some r => r
  | none =>
    match s with
    | [] => .nan
    | c :: rest =>
      if c = '+' then parseUnsignedDecimal false rest
      else if c = '-' then parseUnsignedDecimal true rest
      else parseUnsignedDecimal false s

/-- The conversion `Number(str)` of a string (`StringToNumber`): white space is trimmed, the
empty string is `0`, a `StrNumericLiteral` has its value, anything else is `NaN`. -/
def Number (str : JSString) : JSNumber :=
  let t := trim str
  if t = [] then .finite false 0 0 else parseStrNumericLiteral t

/-! ## The registry `queries` -/

/-- The `type` of a parameter.  The registry only uses the first seven; `other` stands for
any other string, which the validator sends to the `default` branch of its switch. -/
inductive ParamType where
  | int | number | row | string | date | enum | subquery
  | other (type : String)
deriving DecidableEq, Repr

/-- One entry of `params`; `value` is the fixed value of an enum parameter (absent on the
other parameters). -/
structure Param where
  name : String
  type : ParamType
  optional : Bool
  value : Option JSString
deriving DecidableEq, Repr

/-- One entry of `queries` (the `description` text plays no part in validation). -/
structure Query where
  name : JSString
  canSubQuery : Bool
  params : List Param
deriving DecidableEq, Repr

/-- The parameters `row`, `start`, `end` shared by `min`, `max`, `avg` and `histogram`. -/
def rangeParams : List Param :=
  [ { name := "row", type := .row, optional := false, value := none },
    { name := "start", type := .date, optional := true, value := none },
    { name := "end", type := .date, optional := true, value := none } ]

/-- The enum parameter `location type` of a `compare` overload. -/
def locationType (value : String) : Param :=
  { name := "location type", type := .enum, optional := false, value := some value.toList }

/-- The entry `value <row> <day>`. -/
def valueQuery : Query :=
  { name := "value".toList, canSubQuery := true, params :=
      [ { name := "row", type := .row, optional := false, value := none },
        { name := "day", type := .date, optional := false, value := none } ] }

/-- The overload `compare coord <latitude> <longitude> <subquery>`. -/
def compareCoord : Query :=
  { name := "compare".toList, canSubQuery := false, params :=
      [ locationType "coord",
        { name := "latitude", type := .number, optional := false, value := none },
        { name := "longitude", type := .number, optional := false, value := none },
        { name := "subquery", type := .subquery, optional := false, value := none } ] }

/-- The overload `compare dataset <1st query> <2nd query>`. -/
def compareDataset : Query :=
  { name := "compare".toList, canSubQuery := false, params :=
      [ locationType "dataset",
        { name := "1st query", type := .subquery, optional := false, value := none },
        { name := "2nd query", type := .subquery, optional := false, value := none } ] }

/-- The overload `compare zip <zip code> <subquery>`. -/
def compareZip : Query :=
  { name := "compare".toList, canSubQuery := false, params :=
      [ locationType "zip",
        { name := "zip code", type := .int, optional := false, value := none },
        { name := "subquery", type := .subquery, optional := false, value := none } ] }

/-- The overload `compare city <city name> <subquery>`. -/
def compareCity : Query :=
  { name := "compare".toList, canSubQuery := false, params :=
      [ locationType "city",
        { name := "city name", type := .string, optional := false, value := none },
        { name := "subquery", type := .subquery, optional := false, value := none } ] }

/-- The constant `queries` of `query-constants.js`, in its order. -/
def queries : List Query :=
  [ { name := "help".toList, canSubQuery := false, params := [] },
    { name := "input".toList, canSubQuery := false, params := [] },
    { name := "clear".toList, canSubQuery := false, params := [] },
    { name := "min".toList, canSubQuery := true, params := rangeParams },
    { name := "max".toList, canSubQuery := true, params := rangeParams },
    { name := "avg".toList, canSubQuery := true, params := rangeParams },
    valueQuery,
    { name := "table".toList, canSubQuery := false, params := [] },
    compareCoord, compareDataset, compareZip, compareCity,
    { name := "histogram".toList, canSubQuery := false, params := rangeParams } ]

/-! ## Array helpers -/

/-- The method `xs.findLastIndex(p)`: the last index whose element satisfies `p`, or `-1`. -/
def findLastIndex {α : Type} (p : α → Bool) : List α → Int
  | [] => -1
  | x :: xs =>
    let r := findLastIndex p xs
    if 0 ≤ r then r + 1 else if p x then 0 else -1

/-- How `slice` reads one of its arguments on an array of the given length: a negative
index counts from the end, and the result is clamped to `0 .. len`. -/
def sliceIndex (len : Nat) (i : Int) : Nat :=
  if i < 0 then (len + i).toNat else min i.toNat len

/-- The method `xs.slice(start, stop)`; `stop = none` is an omitted second argument. -/
def slice {α : Type} (xs : List α) (start : Int) (stop : Option Int) : List α :=
  let final :=
    match stop with
    | none => xs.length
    | some e => sliceIndex xs.length e
  (xs.take final).drop (sliceIndex xs.length start)

/-! ## `validateInput` -/

/-- The diagnostics `validateInput` hands to `addErrorResponse`, one constructor for each
message template, with the values the template interpolates: whether the line is a
sub-query, the command token `args[0]`, and the parameter name and argument. -/
inductive Diag where
  /-- The message "Given (sub-)query ... doesn't exist." -/
  | unknownQuery (isSubQuery : Bool) (query : Option JSString)
  /-- The message "... expected at least n arguments, but only received m". -/
  | tooFewArguments (isSubQuery : Bool) (query : Option JSString) (atLeast : Nat)
      (received : Int)
  /-- The message "... expected at most n (...) arguments, but received m". -/
  | tooManyArguments (isSubQuery : Bool) (query : Option JSString) (atMost : Nat)
      (received : Int)
  /-- The message "... expected to be type number but received ... (type NaN)". -/
  | notNumber (isSubQuery : Bool) (query : Option JSString) (param : String) (arg : JSString)
  /-- The message "... expected to be type row but received ... (type string)". -/
  | notRow (isSubQuery : Bool) (query : Option JSString) (param : String) (arg : JSString)
  /-- The message of the `string` case, "... expected to be type row but received ...". -/
  | notString (isSubQuery : Bool) (query : Option JSString) (param : String) (arg : JSString)
  /-- The message "... expected to be type date (as number) but received ... (type NaN)". -/
  | dateNotNumber (isSubQuery : Bool) (query : Option JSString) (param : String)
      (arg : JSString)
  /-- The message "... has a date index that is out of range ...". -/
  | dateIndexOutOfRange (isSubQuery : Bool) (query : Option JSString) (param : String)
      (arg : JSString) (length : Nat)
  /-- The message "... expected to be type date (as format YYYY-MM-DD) but received ...". -/
  | dateNotISO (isSubQuery : Bool) (query : Option JSString) (param : String) (arg : JSString)
  /-- The message "... expected to have a length of 1, 2, or 10, but received n". -/
  | dateBadLength (isSubQuery : Bool) (query : Option JSString) (param : String)
      (arg : JSString) (length : Nat)
  /-- The message "Unexpected argument type ... was not implemented". -/
  | unimplementedType (isSubQuery : Bool) (query : Option JSString) (param : String)
      (type : ParamType) (arg : JSString)
deriving DecidableEq, Repr

/-- The predicate of `queries.find(...)` at the head of `validateInput`:
`query.name == args[0] && (!isSubQuery || query.canSubQuery == true) &&
(query.params[0]?.value ?? args[1]) == args[1]`. -/
def selects (args : List JSString) (isSubQuery : Bool) (query : Query) : Bool :=
  (args[0]? == some query.name) &&
  (!isSubQuery || query.canSubQuery) &&
  (match query.params.head?.bind (fun p => p.value) with
   | some v => args[1]? == some v
   | none => true)

/-- The test `new RegExp("^\\d{4}-\\d{2}-\\d{2}$").test(arg)`. -/
def isISODate (arg : JSString) : Bool :=
  match arg with
  | [y1, y2, y3, y4, d1, m1, m2, d2, t1, t2] =>
    y1.isDigit && y2.isDigit && y3.isDigit && y4.isDigit && d1 == '-' &&
    m1.isDigit && m2.isDigit && d2 == '-' && t1.isDigit && t2.isDigit
  | _ => false

/-- The body of the `case "date":` branch for one argument; `none` when it passes. -/
def checkDate (dateValues : List JSString) (isSubQuery : Bool) (query : Option JSString)
    (param : String) (arg : JSString) : Option Diag :=
  if jsLength arg = 1 ∨ jsLength arg = 2 then
    if (Number arg).isNaN then some (.dateNotNumber isSubQuery query param arg)
    else if !((Number arg).gtInt (-1 * (dateValues.length : Int)) &&
              (Number arg).ltInt (dateValues.length : Int)) then
      some (.dateIndexOutOfRange isSubQuery query param arg dateValues.length)
    else none
  else if jsLength arg = 10 then
    if !isISODate arg then some (.dateNotISO isSubQuery query param arg) else none
  else some (.dateBadLength isSubQuery query param arg (jsLength arg))

/-- The `switch (param.type)` of the type check for one argument; `none` when it passes. -/
def checkArg (dateValues : List JSString) (isSubQuery : Bool) (query : Option JSString)
    (param : Param) (arg : JSString) : Option Diag :=
  match param.type with
  | .int | .number =>
    if (Number arg).isNaN then some (.notNumber isSubQuery query param.name arg) else none
  | .row =>
    if !startsWith arg '`' || !endsWith arg '`' then
      some (.notRow isSubQuery query param.name arg)
    else none
  | .string =>
    if !startsWith arg '"' || !endsWith arg '"' then
      some (.notString isSubQuery query param.name arg)
    else none
  | .date => checkDate dateValues isSubQuery query param.name arg
  | .enum | .subquery => none
  | .other t => some (.unimplementedType isSubQuery query param.name (.other t) arg)

/-- The loop `args.slice(1).forEach((arg, idx) => ...)`, from index `idx` on: an argument
with no parameter at its index is skipped, and the first failing argument ends the checks
(`hasError`).  The result is the diagnostic of that argument, `none` when all pass. -/
def forEachArg (dateValues : List JSString) (isSubQuery : Bool) (query : Option JSString)
    (params : List Param) : List JSString → Nat → Option Diag
  | [], _ => none
  | arg :: rest, idx =>
    match params[idx]? with
    | none => forEachArg dateValues isSubQuery query params rest (idx + 1)
    | some param =>
      match checkArg dateValues isSubQuery query param arg with
      | some d => some d
      | none => forEachArg dateValues isSubQuery query params rest (idx + 1)

/-- The predicate `(arg) => queries.find((query) => query.name == arg)` of the split. -/
def isQueryName (arg : JSString) : Bool :=
  (queries.find? (fun query => query.name == arg)).isSome

/-- The line `firstSubQuery` of the two-sub-query branch. -/
def firstSubQuery (query : Query) (inpValue : JSString) : JSString :=
  join ' ' (slice (getArgs inpValue) ((query.params.length : Int) - 1)
    (some (findLastIndex isQueryName (getArgs inpValue))))

/-- The line `secondSubQuery` of the two-sub-query branch. -/
def secondSubQuery (inpValue : JSString) : JSString :=
  join ' ' (slice (getArgs inpValue) (findLastIndex isQueryName (getArgs inpValue)) none)

/-- The line `subQueryInput` of the one-sub-query branch. -/
def subQueryInput (query : Query) (inpValue : JSString) : JSString :=
  join ' ' (slice (getArgs inpValue) (query.params.length : Int) none)

/-- What a call of `validateInput` does: the boolean it returns and the diagnostics it
passed to `addErrorResponse`, in order. -/
abbrev Outcome := Bool × List Diag

/-- The lines that the sub-query branch of `validateInput` passes to its recursive calls
for the selected `query`: `firstSubQuery` and `secondSubQuery` when the query has two
sub-query parameters, `subQueryInput` otherwise. -/
def subQueryLines (query : Query) (inpValue : JSString) : List JSString :=
  if (query.params.filter (fun param => param.type = .subquery)).length = 2 then
    [firstSubQuery query inpValue, secondSubQuery inpValue]
  else [subQueryInput query inpValue]

/-- The body of `validateInput(inpValue, isSubQuery)`, in which `validateSub line` stands
for the recursive call `validateInput(line, true)`.  `dateValues` is the module variable
of that name, the dates of the loaded dataset.  The result is `none` only when a recursive
call gives `none`. -/
def validateInputBody (dateValues : List JSString) (validateSub : JSString → Option Outcome)
    (inpValue : JSString) (isSubQuery : Bool) : Option Outcome :=
  let args := getArgs inpValue
  match queries.find? (selects args isSubQuery) with
  | none => some (false, [.unknownQuery isSubQuery args[0]?])
  | some query =>
    let requiredArgs := query.params.filter (fun param => !param.optional)
    let possibleArgs := query.params
    if (args.length : Int) - 1 < requiredArgs.length then
      some (false, [.tooFewArguments isSubQuery args[0]? requiredArgs.length
        ((args.length : Int) - 1)])
    else
      -- the `forEach` type check that ends the function
      let typeChecks : Outcome :=
        match forEachArg dateValues isSubQuery args[0]? query.params (slice args 1 none) 0 with
        | some d => (false, [d])
        | none => (true, [])
      if (query.params.getLast?.map (fun param => param.type)) = some .subquery then
        if (query.params.filter (fun param => param.type = .subquery)).length = 2 then
          match validateSub (firstSubQuery query inpValue) with
          | none => none
          | some (false, errors) => some (false, errors)
          | some (true, errors1) =>
            match validateSub (secondSubQuery inpValue) with
            | none => none
            | some (false, errors2) => some (false, errors1 ++ errors2)
            | some (true, errors2) => some (typeChecks.1, errors1 ++ errors2 ++ typeChecks.2)
        else
          match validateSub (subQueryInput query inpValue) with
          | none => none
          | some (false, errors) => some (false, errors)
          | some (true, errors) => some (typeChecks.1, errors ++ typeChecks.2)
      else if (args.length : Int) - 1 > possibleArgs.length then
        some (false, [.tooManyArguments isSubQuery args[0]? possibleArgs.length
          ((args.length : Int) - 1)])
      else some typeChecks

/-- The function `validateInput(inpValue, isSubQuery)` with a bound on the depth of its
recursion: `none` when the bound is reached. -/
def validateInputFuel (dateValues : List JSString) : Nat → JSString → Bool → Option Outcome
  | 0, _, _ => none
  | fuel + 1, inpValue, isSubQuery =>
    validateInputBody dateValues (fun line => validateInputFuel dateValues fuel line true)
      inpValue isSubQuery

/-- The function `validateInput(inpValue, isSubQuery)`.  A sub-query line must select a
query with `canSubQuery`, none of which has a sub-query parameter in `queries`, so the
recursion is never deeper than two calls: `validateInput_isSome` proves that the bound is
never reached and `validateInput_eq_body` that the function satisfies its own recursion. -/
def validateInput (dateValues : List JSString) (inpValue : JSString) (isSubQuery : Bool) :
    Option Outcome :=
  validateInputFuel dateValues 2 inpValue isSubQuery

/-- The `isSubQuery` flag a diagnostic was built with (the "sub-" of its message). -/
def Diag.isSubQuery : Diag → Bool
  | .unknownQuery b _ | .tooFewArguments b _ _ _ | .tooManyArguments b _ _ _
  | .notNumber b _ _ _ | .notRow b _ _ _ | .notString b _ _ _ | .dateNotNumber b _ _ _
  | .dateIndexOutOfRange b _ _ _ _ | .dateNotISO b _ _ _ | .dateBadLength b _ _ _ _
  | .unimplementedType b _ _ _ _ => b

/-- Whether a diagnostic is one of the three about the command and its arity (unknown
query, too few, too many arguments) rather than about one argument. -/
def Diag.isArity : Diag → Bool
  | .unknownQuery _ _ | .tooFewArguments _ _ _ _ | .tooManyArguments _ _ _ _ => true
  | _ => false

/-- The conversion `String(n)` of a non-negative integer below `10^21` (every array
length is one): its decimal digits. -/
def natToString (n : Nat) : JSString := Nat.toDigits 10 n

/-- A dataset of two dates, those of the specification's end-to-end example. -/
def twoDates : List JSString := ["2024-04-24".toList, "2024-04-25".toList]

/-! ## The loop of `getArgs`, read off recursively

`scanFrom` is the array `resultValue` that the loop of `getArgs` appends to its earlier
content, as a function of the segments still to come: `none` is the state with
`quoteOpen = false`, `some cur` the state with `quoteOpen = true` whose last array element
is `cur`.  `getArgsLoop_eq_scanFrom` proves that it is what the loop computes. -/

/-- The elements the loop of `getArgs` produces from the segments still to come. -/
def scanFrom : Option JSString → List JSString → List JSString
  | none, [] => []
  | some cur, [] => [cur]
  | none, s :: rest =>
    if quoteAfter false s then scanFrom (some s) rest else s :: scanFrom none rest
  | some cur, s :: rest =>
    if quoteAfter true s then scanFrom (some (cur ++ ' ' :: s)) rest
    else (cur ++ ' ' :: s) :: scanFrom none rest

/-- Scanning the segments of an open token again leads back to the state in which that
token is open. -/
def Reopens (cur : JSString) : Prop :=
  cur ≠ [] ∧ ∀ rest, scanFrom none (split ' ' cur ++ rest) = scanFrom (some cur) rest

/-! ## JavaScript values and their comparison -/

/-- The integer `(-1)^negative * mantissa`. -/
def JSNumber.signed (negative : Bool) (mantissa : Nat) : Int :=
  if negative then -(mantissa : Int) else mantissa

/-- The order of two numbers, `none` when one of them is `NaN`.  Two finite numbers are
compared by their mathematical values, brought to the smaller of the two exponents.
JavaScript compares the doubles they round to: the comparison of the server's `min` and
`max`, `numberLe`, applies `JSNumber.toDouble` first. -/
def JSNumber.compare : JSNumber → JSNumber → Option Ordering
  | .nan, _ => none
  | _, .nan => none
  | .infinity n1, .infinity n2 => some (if n1 = n2 then .eq else if n1 then .lt else .gt)
  | .infinity n1, .finite _ _ _ => some (if n1 then .lt else .gt)
  | .finite _ _ _, .infinity n2 => some (if n2 then .gt else .lt)
  | .finite n1 m1 e1, .finite n2 m2 e2 =>
    let e := min e1 e2
    some (Ord.compare (JSNumber.signed n1 m1 * 10 ^ (e1 - e).toNat)
      (JSNumber.signed n2 m2 * 10 ^ (e2 - e).toNat))

/-- The comparison `x <= y` of two numbers (false when one is `NaN`). -/
def JSNumber.le (x y : JSNumber) : Bool :=
  match x.compare y with
  | some .lt | some .eq => true
  | _ => false

/-- The comparison `x < y` of two numbers (false when one is `NaN`). -/
def JSNumber.lt (x y : JSNumber) : Bool :=
  x.compare y == some .lt

/-- The comparison `x == y` of two numbers (false when one is `NaN`). -/
def JSNumber.eq (x y : JSNumber) : Bool :=
  x.compare y == some .eq

/-! ## The doubles that numbers are rounded to -/

/-- The number of binary digits of `n`, the least `k` with `n < 2^k`.  The first argument
bounds the recursion; `n` itself is enough. -/
def bitLength : Nat → Nat → Nat
  | 0, _ => 0
  | fuel + 1, n => if n = 0 then 0 else bitLength fuel (n / 2) + 1

/-- The binary logarithm of the positive rational `num / den`, rounded down: the `k` with
`2^k <= num / den < 2^(k + 1)`. -/
def floorLog2 (num den : Nat) : Int :=
  let k : Int := (bitLength num num : Int) - (bitLength den den : Int)
  if den * 2 ^ k.toNat ≤ num * 2 ^ (-k).toNat then k else k - 1

/-- The integer nearest to `n / d`, a tie going to the even one. -/
def roundHalfEven (n d : Nat) : Nat :=
  if d < 2 * (n % d) ∨ (2 * (n % d) = d ∧ n / d % 2 = 1) then n / d + 1 else n / d

/-- The double nearest to the positive rational `num / den`, a tie going to the even
significand (`roundTiesToEven` of IEEE 754 binary64, the "Number value for" a mathematical
value).  `some (q, e)` is the double `q * 2^e`, with `q <= 2^53` and `-1074 <= e <= 971`;
`none` is the overflow to `Infinity`, from `2^1024 - 2^970` on. -/
def roundToDouble (num den : Nat) : Option (Nat × Int) :=
  let e : Int := max (floorLog2 num den - 52) (-1074)
  let q := roundHalfEven (num * 2 ^ (-e).toNat) (den * 2 ^ e.toNat)
  if 971 < e ∨ (e = 971 ∧ q = 2 ^ 53) then none else some (q, e)

/-- The double that a number is rounded to, again with its mathematical value:
`q * 2^e` is `q * 5^(-e) * 10^e` when `e` is negative.  A zero keeps its sign. -/
def JSNumber.toDouble : JSNumber → JSNumber
  | .nan => .nan
  | .infinity negative => .infinity negative
  | .finite negative mantissa exponent =>
    if mantissa = 0 then .finite negative 0 0
    else
      match roundToDouble (mantissa * 10 ^ exponent.toNat) (10 ^ (-exponent).toNat) with
      | none => .infinity negative
      | some (q, e) =>
        if 0 ≤ e then .finite negative (q * 2 ^ e.toNat) 0
        else .finite negative (q * 5 ^ (-e).toNat) e

/-! ## Strings and values -/

/-- The UTF-16 code units of a string. -/
def utf16 : JSString → List Nat
  | [] => []
  | c :: cs =>
    if c.toNat < 65536 then c.toNat :: utf16 cs
    else (0xD800 + (c.toNat - 0x10000) / 0x400) :: (0xDC00 + (c.toNat - 0x10000) % 0x400)
      :: utf16 cs

/-- The order `x < y` of two strings: lexicographic on code units, a proper start of a
string being less than the string. -/
def codeUnitsLt : List Nat → List Nat → Bool
  | _, [] => false
  | [], _ :: _ => true
  | a :: x, b :: y => if a < b then true else if b < a then false else codeUnitsLt x y

/-- The values a response of the server can hold once parsed: `undefined` (no `result`
field), a string or a number. -/
inductive JSValue where
  | undefined
  | str (s : JSString)
  | num (n : JSNumber)
deriving DecidableEq, Repr

/-- The conversion `ToNumber` of a value. -/
def JSValue.toNumber : JSValue → JSNumber
  | .undefined => .nan
  | .str s => Number s
  | .num n => n

/-- The loose equality `a == b`: two strings are compared as strings, a string and a
number as numbers, and `undefined` only equals `undefined`. -/
def looseEq : JSValue → JSValue → Bool
  | .undefined, .undefined => true
  | .str a, .str b => a == b
  | .num a, .num b => a.eq b
  | .str a, .num b => (Number a).eq b
  | .num a, .str b => a.eq (Number b)
  | _, _ => false

/-- The comparison `a > b`: two strings are compared as strings, by code units; in every
other case both sides are converted to numbers. -/
def greaterThan : JSValue → JSValue → Bool
  | .str a, .str b => codeUnitsLt (utf16 b) (utf16 a)
  | a, b => b.toNumber.lt a.toNumber

/-- The relation word of the sentence of `compare`: the function
`(() => { if (a == b) return "equal to"; else if (a > b) return "greater than";
else return "less than"; })()`, with `a` the result of the (first) sub-query and `b` the
result of the external source or of the second sub-query. -/
def relationWord (a b : JSValue) : String :=
  if looseEq a b then "equal to"
  else if greaterThan a b then "greater than"
  else "less than"

/-! ## The server: `server.js` -/

/-- A record of the dataset: an object whose keys and values are strings, as the list of
its entries (an object holds a key once). -/
abbrev Record := List (JSString × JSString)

/-- The property access `row[key]` on a record: `none` is `undefined`. -/
def Record.get (row : Record) (key : JSString) : Option JSString :=
  (row.find? (fun entry => entry.1 == key)).map (fun entry => entry.2)

/-- The type `Dataset` of `server.js`: an array of records. -/
abbrev Dataset := List Record

/-- Whether a string or `undefined` is truthy: it is a non-empty string. -/
def truthy : Option JSString → Bool
  | some (_ :: _) => true
  | _ => false

/-- The conversion `ToIntegerOrInfinity`: `NaN` is `0`, a finite number is truncated
towards zero, and `none` stands for an infinity. -/
def toIntegerOrInfinity : JSNumber → Option Int
  | .nan => some 0
  | .infinity _ => none
  | .finite negative mantissa exponent =>
    let magnitude : Nat :=
      if 0 ≤ exponent then mantissa * 10 ^ exponent.toNat
      else mantissa / 10 ^ (-exponent).toNat
    some (JSNumber.signed negative magnitude)

/-- The method `xs.at(index)` for an integer index: a negative index counts from the end,
and an index outside the array gives `undefined`. -/
def arrayAt {α : Type} (xs : List α) (index : Int) : Option α :=
  let k := if 0 ≤ index then index else (xs.length : Int) + index
  if k < 0 then none else xs[k.toNat]?

/-- The method `xs.at(index)` for a number. -/
def arrayAtNumber {α : Type} (xs : List α) (index : JSNumber) : Option α :=
  match toIntegerOrInfinity index with
  | none => none
  | some i => arrayAt xs i

/-- The method `xs.findIndex(p)`: the first index whose element satisfies `p`, or `-1`. -/
def findIndex {α : Type} (p : α → Bool) : List α → Int
  | [] => -1
  | x :: xs =>
    if p x then 0
    else
      let r := findIndex p xs
      if 0 ≤ r then r + 1 else -1

/-- The method `xs.reduce(f)` without an initial value: `none` is the `TypeError` on an
empty array. -/
def reduce {α : Type} (f : α → α → α) : List α → Option α
  | [] => none
  | x :: xs => some (xs.foldl f x)

/-- What a handler of the API does: a response `{ result }`, a response 400 with an error
message, or an exception that leaves the handler. -/
inductive Response where
  | ok (result : JSValue)
  | badRequest (error : String)
  | thrown
deriving DecidableEq, Repr

namespace Server

/-- The function `parseDate(date, data)`; `none` is the thrown `Error`, `some none` the
value `undefined`. -/
def parseDate (date : JSString) (data : Dataset) : Option (Option JSString) :=
  if jsLength date = 10 then some (some date)
  else if jsLength date = 1 ∨ jsLength date = 2 ∨
      (jsLength date = 3 ∧ startsWith date '-' = true) then
    some ((arrayAtNumber data (Number date)).bind (fun row => row.get "date".toList))
  else none

/-- The function `min(data)`, `data.reduce((a, b) => (Number(a) <= Number(b) ? a : b))`,
on an array of cells (strings or `undefined`) or of numbers.  `numLe a b` stands for the
comparison `Number(a) <= Number(b)`. -/
def min {α : Type} (numLe : α → α → Bool) (data : List α) : Option α :=
  reduce (fun a b => if numLe a b then a else b) data

/-- The function `max(data)`, `data.reduce((a, b) => (Number(a) >= Number(b) ? a : b))`;
`Number(a) >= Number(b)` is `Number(b) <= Number(a)`. -/
def max {α : Type} (numLe : α → α → Bool) (data : List α) : Option α :=
  reduce (fun a b => if numLe b a then a else b) data

/-- The function `avg(data)`, `data.reduce((a, b) => Number(a) + Number(b)) / data.length`:
`add a b` stands for `Number(a) + Number(b)` and `divide s n` for `s / n`. -/
def avg {α : Type} (add : α → α → α) (divide : α → Nat → α) (data : List α) : Option α :=
  (reduce add data).map (fun s => divide s data.length)

/-- The guard of `handleAPI` that answers "No row provided": `args[1]` is `undefined` or
the empty string. -/
def noRow (args : List JSString) : Bool :=
  !truthy args[1]?

/-- The records `range` of the cases `min`, `max`, `avg` and `histogram` of `handleAPI`:
`data.slice(startIdx, endIdx)`; `none` when `parseDate` throws. -/
def dateRange (data : Dataset) (args : List JSString) : Option (List Record) :=
  match (if truthy args[2]? then parseDate (args[2]?.getD []) data else some none) with
  | none => none
  | some startDate =>
    match (if truthy args[3]? then parseDate (args[3]?.getD []) data else some none) with
    | none => none
    | some endDate =>
      let startIdx : Int :=
        if truthy startDate then findIndex (fun row => row.get "date".toList == startDate) data
        else 0
      let endIdx : Int :=
        if truthy endDate then
          findIndex (fun row => row.get "date".toList == endDate) data + 1
        else data.length
      some (slice data startIdx (some endIdx))

/-- The answer of a case that reduces the cells of the range: the reduction throws on an
empty range, and the result `undefined` is answered with "Row not found". -/
def reduced (result : Option (Option JSString)) : Response :=
  match result with
  | none => .thrown
  | some none => .badRequest "Row not found"
  | some (some cell) => .ok (.str cell)

/-- The case `min` of `handleAPI` on the path `/api/min/<row>/<start>/<end>`, whose
segments after `/api/` are `args`. -/
def handleMin (numLe : Option JSString → Option JSString → Bool) (data : Dataset)
    (args : List JSString) : Response :=
  if noRow args then .badRequest "No row provided"
  else
    match dateRange data args with
    | none => .thrown
    | some range => reduced (min numLe (range.map (fun row => row.get (args[1]?.getD []))))

/-- The case `max` of `handleAPI`. -/
def handleMax (numLe : Option JSString → Option JSString → Bool) (data : Dataset)
    (args : List JSString) : Response :=
  if noRow args then .badRequest "No row provided"
  else
    match dateRange data args with
    | none => .thrown
    | some range => reduced (max numLe (range.map (fun row => row.get (args[1]?.getD []))))

/-- The case `value` of `handleAPI`: `data.at(startIdx)?.[args[1]] ?? -1`. -/
def handleValue (data : Dataset) (args : List JSString) : Response :=
  if noRow args then .badRequest "No row provided"
  else
    match (if truthy args[2]? then parseDate (args[2]?.getD []) data else some none) with
    | none => .thrown
    | some startDate =>
      let startIdx : Int :=
        if truthy startDate then findIndex (fun row => row.get "date".toList == startDate) data
        else 0
      match (arrayAt data startIdx).bind (fun row => row.get (args[1]?.getD [])) with
      | some cell => .ok (.str cell)
      | none => .ok (.num (.finite true 1 0))

end Server

/-- The comparison `Number(a) <= Number(b)` of two cells, `undefined` being `NaN`: the
comparison of the doubles that the two values are rounded to. -/
def numberLe (a b : Option JSString) : Bool :=
  JSNumber.le ((a.map Number).getD .nan).toDouble ((b.map Number).getD .nan).toDouble

/-- The dataset of the specification's end-to-end example. -/
def exampleData : Dataset :=
  [ [("date".toList, "2024-04-24".toList), ("temperature_max".toList, "70".toList)],
    [("date".toList, "2024-04-25".toList), ("temperature_max".toList, "75".toList)] ]

/-! ## The path of a request: `new URL(req.url).pathname` -/

namespace Server

/-- The path percent-encode set of the URL standard: the C0 controls, the code points above
`~`, and space, `"`, `#`, `<`, `>`, `?`, `^`, the back-tick and the two braces. -/
def inPathPercentEncodeSet (c : Char) : Bool :=
  c.toNat < 0x20 || 0x7E < c.toNat ||
    c.toNat ∈ [0x20, 0x22, 0x23, 0x3C, 0x3E, 0x3F, 0x5E, 0x60, 0x7B, 0x7D]

/-- The bytes of the UTF-8 encoding of a character. -/
def utf8Bytes (c : Char) : List Nat :=
  let n := c.toNat
  if n < 0x80 then [n]
  else if n < 0x800 then [0xC0 + n / 0x40, 0x80 + n % 0x40]
  else if n < 0x10000 then [0xE0 + n / 0x1000, 0x80 + n / 0x40 % 0x40, 0x80 + n % 0x40]
  else [0xF0 + n / 0x40000, 0x80 + n / 0x1000 % 0x40, 0x80 + n / 0x40 % 0x40,
    0x80 + n % 0x40]

/-- A byte percent-encoded: `%` and two upper-case hexadecimal digits. -/
def percentEncodeByte (b : Nat) : JSString :=
  ['%', "0123456789ABCDEF".toList.getD (b / 16) '0',
    "0123456789ABCDEF".toList.getD (b % 16) '0']

/-- A character of a path, UTF-8 percent-encoded with the path percent-encode set. -/
def percentEncode (c : Char) : JSString :=
  if inPathPercentEncodeSet c then (utf8Bytes c).flatMap percentEncodeByte else [c]

/-- A single-dot path segment: `.` or `%2e`, in either case. -/
def isSingleDotSegment (seg : JSString) : Bool :=
  seg ∈ [".".toList, "%2e".toList, "%2E".toList]

/-- A double-dot path segment: `..`, with either dot possibly written `%2e`. -/
def isDoubleDotSegment (seg : JSString) : Bool :=
  seg ∈ ["..".toList, ".%2e".toList, ".%2E".toList, "%2e.".toList, "%2E.".toList,
    "%2e%2e".toList, "%2e%2E".toList, "%2E%2e".toList, "%2E%2E".toList]

/-- The path state of the URL parser over the segments between the slashes, `path` being
the segments kept so far: a double-dot segment removes the last segment kept, a single-dot
segment adds none, and either adds an empty segment when it is the last one. -/
def pathState : List JSString → List JSString → List JSString
  | path, [] => path
  | path, [seg] =>
    if isDoubleDotSegment seg then path.dropLast ++ [[]]
    else if isSingleDotSegment seg then path ++ [[]]
    else path ++ [seg]
  | path, seg :: next :: rest =>
    if isDoubleDotSegment seg then pathState path.dropLast (next :: rest)
    else if isSingleDotSegment seg then pathState path (next :: rest)
    else pathState (path ++ [seg]) (next :: rest)

/-- The value `new URL(req.url).pathname` of `fetch`, for a request whose URL has `target`
after the host (a path that starts with a slash, then possibly a query).  The URL parser
strips the trailing C0 controls and spaces, removes every tab and newline, ends the path at
the first `?` or `#`, reads `\` as `/`, percent-encodes the characters of each segment,
resolves the dot segments, and the path is serialised with a slash before each segment.
The server decodes nothing afterwards. -/
def pathname (target : JSString) : JSString :=
  let stripped := (target.reverse.dropWhile (fun c => c.toNat ≤ 0x20)).reverse
  let input := stripped.filter (fun c => c ≠ '\t' ∧ c ≠ '\n' ∧ c ≠ '\r')
  let path := (input.takeWhile (fun c => c ≠ '?' ∧ c ≠ '#')).map
    (fun c => if c = '\\' then '/' else c)
  let buffers := (split '/' (path.drop 1)).map (fun seg => seg.flatMap percentEncode)
  (pathState [] buffers).flatMap (fun seg => '/' :: seg)

/-- The array `args` of `handleAPI`: `path.split("/").slice(2)`. -/
def apiArgs (path : JSString) : List JSString :=
  (split '/' path).drop 2

/-- The array `args` that `handleAPI` gets for the request of the URL
`/api/<segments joined by />`, the URL that `sendRequest` fetches for the tokens of a line
(with the back-ticks removed). -/
def requestArgs (segments : List JSString) : List JSString :=
  apiArgs (pathname ("/api/".toList ++ join '/' segments))

/-- Whether a path segment reaches `args` as it is written in the URL: it holds no slash,
no backslash and no character of the path percent-encode set, and is no dot segment. -/
def isPlainSegment (seg : JSString) : Bool :=
  seg.all (fun c => !inPathPercentEncodeSet c && c != '/' && c != '\\') &&
    !isSingleDotSegment seg && !isDoubleDotSegment seg

end Server

/-! ## The head of `sendRequest` -/

/-- The predicate of `queries.find(...)` at the head of `sendRequest`:
`query.name == args[0] && (query.params[0]?.value ?? args[1]) == args[1]`. -/
def sendRequestSelects (args : List JSString) (query : Query) : Bool :=
  (args[0]? == some query.name) &&
  (match query.params.head?.bind (fun p => p.value) with
   | some v => args[1]? == some v
   | none => true)

/-- The branches of `sendRequest`: the early return "type checking passed, but no query
was found", and the cases of `switch (query.name)`, of which `notImplemented` is the
`default` one and `aggregate` the shared case of `min`, `max`, `avg` and `value`. -/
inductive Branch where
  | noQuery
  | notImplemented
  | help
  | input
  | clear
  | table
  | aggregate
  | histogram
  | compare
deriving DecidableEq, Repr

/-- The statement `switch (query.name)` of `sendRequest`. -/
def dispatch (name : JSString) : Branch :=
  if name = "help".toList then .help
  else if name = "input".toList then .input
  else if name = "clear".toList then .clear
  else if name = "table".toList then .table
  else if name = "min".toList ∨ name = "max".toList ∨ name = "avg".toList ∨
      name = "value".toList then .aggregate
  else if name = "histogram".toList then .histogram
  else if name = "compare".toList then .compare
  else .notImplemented

/-- The branch `sendRequest(inpValue, ...)` takes. -/
def sendRequestBranch (inpValue : JSString) : Branch :=
  match queries.find? (sendRequestSelects (getArgs inpValue)) with
  | none => .noQuery
  | some query => dispatch query.name

/-- A dataset whose cells of `temperature_max` are `9` and `10`. -/
def nineTen : Dataset :=
  [ [("date".toList, "2024-04-24".toList), ("temperature_max".toList, "9".toList)],
    [("date".toList, "2024-04-25".toList), ("temperature_max".toList, "10".toList)] ]

/-! ## What the range requests are expected to return -/

/-- The cells `data.map((row) => row[c])` of a column. -/
def column (data : Dataset) (c : JSString) : List (Option JSString) :=
  data.map (fun row => row.get c)

/-- The response is a cell of column `c` in one of the records `lo .. hi`, and `numLe`
puts every cell of the column in these records below it. -/
def IsMaxOfRows (numLe : Option JSString → Option JSString → Bool) (data : Dataset)
    (c : JSString) (lo hi : Nat) (r : Response) : Prop :=
  ∃ i v, lo ≤ i ∧ i ≤ hi ∧ (column data c)[i]? = some (some v) ∧ r = .ok (.str v) ∧
    ∀ j w, lo ≤ j → j ≤ hi → (column data c)[j]? = some w → numLe w (some v) = true

/-- The response is a cell of column `c` in one of the records `lo .. hi`, and `numLe`
puts it below every cell of the column in these records. -/
def IsMinOfRows (numLe : Option JSString → Option JSString → Bool) (data : Dataset)
    (c : JSString) (lo hi : Nat) (r : Response) : Prop :=
  ∃ i v, lo ≤ i ∧ i ≤ hi ∧ (column data c)[i]? = some (some v) ∧ r = .ok (.str v) ∧
    ∀ j w, lo ≤ j → j ≤ hi → (column data c)[j]? = some w → numLe (some v) w = true

/-- A dataset of 101 records, of the days `2000-01-01`, `2001-01-01`, ..., `2100-01-01`,
whose cell of `temperature_max` in record `i` is `i`. -/
def centuryData : Dataset :=
  (List.range 101).map (fun i =>
    [("date".toList, natToString (2000 + i) ++ "-01-01".toList),
     ("temperature_max".toList, natToString i)])

/-! ## The form: `submitForm` -/

/-- A callback handed to `setTimeout`; `submitForm` schedules one kind only, the callback
`() => { input.value = ""; input.blur(); }`. -/
inductive Timer where
  | clearInput
deriving DecidableEq, Repr

/-- An entry `{ input, output }` of `savedResponses`. -/
structure SavedResponse where
  input : JSString
  output : JSValue
deriving DecidableEq, Repr

/-- What `submitForm` reads and writes: the text `input.value` of the input box, the array
`savedResponses`, the requests that `displayRequest` has echoed on the page (each with an
edit button), the diagnostics shown by `addErrorResponse`, and the callbacks that
`setTimeout` holds. -/
structure Page where
  inputValue : JSString
  savedResponses : List SavedResponse
  requests : List JSString
  errors : List Diag
  timers : List Timer
deriving DecidableEq, Repr

/-- The method `s.startsWith(p)` for a string pattern. -/
def startsWithString (s p : JSString) : Bool :=
  p.isPrefixOf s

/-- The function `submitForm`, once the wait on `isClearBlocking` is over.  `sendRequest`
stands for the value that `await sendRequest(queryValue, true)` yields.  The call of
`validateInput` always returns (`validateInput_isSome`), so the last case is never
taken. -/
def submitForm (dateValues : List JSString) (sendRequest : JSString → JSValue)
    (page : Page) : Page :=
  let queryValue := page.inputValue
  if trim queryValue = [] then page
  else
    -- displayRequest(queryValue)
    let page := { page with requests := page.requests ++ [queryValue] }
    match validateInput dateValues page.inputValue false with
    | some (false, errs) =>
      { page with errors := page.errors ++ errs, timers := page.timers ++ [Timer.clearInput] }
    | some (true, errs) =>
      let page :=
        { page with errors := page.errors ++ errs,
                    timers := page.timers ++ [Timer.clearInput] }
      let responseVal := sendRequest queryValue
      if startsWithString queryValue "clear".toList then { page with savedResponses := [] }
      else
        { page with
          savedResponses := page.savedResponses ++ [{ input := queryValue, output := responseVal }] }
    | none => page

/-- Runs one callback of `setTimeout`. -/
def Timer.fire : Timer → Page → Page
  | .clearInput, page => { page with inputValue := [] }

/-- Runs the callbacks that `setTimeout` holds, in the order they were scheduled. -/
def runTimers (page : Page) : Page :=
  { page.timers.foldl (fun p t => t.fire p) page with timers := [] }

/-- The click listener of the edit button that `displayRequest(inpVal)` adds to the echoed
request: `input.value = inpVal`. -/
def clickEdit (inpVal : JSString) (page : Page) : Page :=
  { page with inputValue := inpVal }

/-! ## The autocomplete: `handleAutoComplete` -/

/-- The element access `xs[i]` for an integer `i`: `undefined` outside the array. -/
def arrayIndex {α : Type} (xs : List α) (i : Int) : Option α :=
  if i < 0 then none else xs[i.toNat]?

/-- The statement `switch (evt.key)` that `handleAutoComplete` runs on a keydown, as far as
`selectedAutoCompleteIdx` goes.  The function has three copies of it, over the candidates
`closeQueryNames`, `filteredenumedQueries` and `possibleParameterValues`; `count` is the
length of that array.  The case `Tab` reads the index and leaves it as it is. -/
def keySwitch (key : String) (count : Nat) (selectedAutoCompleteIdx : Int) : Int :=
  if key = "ArrowDown" then
    if selectedAutoCompleteIdx + 1 ≥ (count : Int) then 0 else selectedAutoCompleteIdx + 1
  else if key = "ArrowUp" then
    if selectedAutoCompleteIdx - 1 < 0 then (count : Int) - 1 else selectedAutoCompleteIdx - 1
  else if key = "Tab" then selectedAutoCompleteIdx
  else 0

/-- The statement `if (evtName == "keydown") { switch (evt.key) ... } else
selectedAutoCompleteIdx = 0`. -/
def selectIndex (evtName key : String) (count : Nat) (selectedAutoCompleteIdx : Int) : Int :=
  if evtName = "keydown" then keySwitch key count selectedAutoCompleteIdx else 0

/-- What the case `Tab` read from the candidates at `selectedAutoCompleteIdx`: nothing
(`notRead`), an element of `closeQueryNames` (`query`) or of `filteredenumedQueries`
(`enum`), whose property is read next, so that `undefined` there is a `TypeError`, or an
element of `possibleParameterValues` (`value`). -/
inductive TabLookup where
  | notRead
  | query (candidate : Option Query)
  | enum (candidate : Option Query)
  | value (candidate : Option JSString)
deriving DecidableEq, Repr

/-- What a call of `handleAutoComplete` shows, branch by branch. -/
inductive View where
  /-- The event is a blur that moved the focus into the autocomplete: nothing is done. -/
  | ignored
  /-- The input is not active: the autocomplete is hidden. -/
  | hidden
  /-- The key is `Escape`: the input loses the focus. -/
  | escaped
  /-- The command-name slot, with the candidates `closeQueryNames`. -/
  | queryNames (closeQueryNames : List Query)
  /-- No query has the name `args[0]`: "No completions could be found". -/
  | noQuery
  /-- The enum slot of a name that several queries share, with `filteredenumedQueries`. -/
  | enumValues (filteredenumedQueries : List Query)
  /-- No query of that name has the enum value `args[1]`. -/
  | noEnum
  /-- The current parameter is a string, an int or a number: a format hint. -/
  | noValues (type : ParamType)
  /-- A parameter slot, with the candidates `possibleParameterValues`. -/
  | parameterValues (possibleParameterValues : List JSString)
  /-- The sub-query slot: the nested autocomplete of the line `subQueryInput`. -/
  | subQuery (subQueryInput : JSString) (inner : View)
deriving DecidableEq, Repr

/-- The outcome of a call of `handleAutoComplete`: the module variable
`selectedAutoCompleteIdx` after the call, what is shown, and what `Tab` read. -/
structure AutoComplete where
  selectedAutoCompleteIdx : Int
  view : View
  tabLookup : TabLookup
deriving DecidableEq, Repr

/-- The constant `hasTwoQueries`. -/
def hasTwoQueries (query : Query) : Bool :=
  (query.params.filter (fun param => param.type = .subquery)).length == 2

/-- The constant `isSecondQuery`. -/
def isSecondQuery (args : List JSString) : Bool :=
  decide ((args.filter isQueryName).length ≥ 3)

/-- The constant `inQuotes`: the line has an odd number of double quotes. -/
def inQuotes (inpValue : JSString) : Bool :=
  (inpValue.filter (fun c => c == '"')).length % 2 == 1

/-- The variable `currentIdx` when `currentArg` is read for the last time. -/
def currentIdx (query : Query) (args : List JSString) (inpValue : JSString) : Int :=
  let currentIdx : Int :=
    (args.length : Int) - (if endsWith inpValue ' ' && !inQuotes inpValue then 1 else 2)
  if hasTwoQueries query = true ∧
      currentIdx ≥ findIndex (fun param => param.type = .subquery) query.params then
    (query.params.length : Int) - (if isSecondQuery args then 1 else 2)
  else currentIdx

/-- The array `possibleParameterValues` after `switch (currentArg?.type)`; `none` stands
for the three cases that return (string, int, number).  `typed` is
`args[currentIdx + 1] ?? ""`. -/
def possibleParameterValues (rowValues dateValues : List JSString)
    (currentArg : Option Param) (typed : JSString) : Option (List JSString) :=
  match currentArg with
  | none => some []
  | some param =>
    match param.type with
    | .row =>
      some ((rowValues.filter (fun val => startsWithString ('`' :: val) typed)).map
        (fun val => '`' :: val ++ ['`']))
    | .date => some (dateValues.filter (fun val => startsWithString val typed))
    | .string => none
    | .int => none
    | .number => none
    | _ => some []

/-- The line `subQueryInput` that `handleAutoComplete` passes to its recursive call. -/
def autoCompleteSubQueryInput (query : Query) (inpValue : JSString) : JSString :=
  let args := getArgs inpValue
  let rest :=
    slice
      (slice (getArgs inpValue)
        (if hasTwoQueries query then (query.params.length : Int) - 1
         else (query.params.length : Int)) none)
      (if hasTwoQueries query && isSecondQuery args then findLastIndex isQueryName args - 2
       else 0) none
  join ' ' rest ++ (if rest.length > 0 ∧ endsWith inpValue ' ' = true then [' '] else [])

/-- The part of `handleAutoComplete` that follows the choice of `query`: the parameter
slot, or the recursive call on the sub-query line. -/
def parameterSlot (rowValues dateValues : List JSString)
    (sub : JSString → Option AutoComplete) (evtName key : String)
    (selectedAutoCompleteIdx : Int) (inpValue : JSString) (query : Query) :
    Option AutoComplete :=
  let args := getArgs inpValue
  let currentIdx := currentIdx query args inpValue
  let currentArg := arrayIndex query.params currentIdx
  match possibleParameterValues rowValues dateValues currentArg
      ((arrayIndex args (currentIdx + 1)).getD []) with
  | none =>
    some { selectedAutoCompleteIdx := selectedAutoCompleteIdx,
           view := .noValues ((currentArg.map (fun param => param.type)).getD .string),
           tabLookup := .notRead }
  | some possibleParameterValues =>
    if currentArg.map (fun param => param.type) = some .subquery ∨
        (currentArg = none ∧
          query.params.getLast?.map (fun param => param.type) = some .subquery) then
      (sub (autoCompleteSubQueryInput query inpValue)).map (fun inner =>
        { inner with view := .subQuery (autoCompleteSubQueryInput query inpValue) inner.view })
    else
      some { selectedAutoCompleteIdx :=
               selectIndex evtName key possibleParameterValues.length selectedAutoCompleteIdx,
             view := .parameterValues possibleParameterValues,
             tabLookup :=
               if evtName = "keydown" ∧ key = "Tab" then
                 .value (arrayIndex possibleParameterValues selectedAutoCompleteIdx)
               else .notRead }

/-- How the part of `handleAutoComplete` that precedes the parameter slot ends: with a
`return` (`done`, the outcome of the call), or with the variable `query` set (`parameter`),
the function going on to the parameter slot. -/
inductive Choice where
  | done (outcome : AutoComplete)
  | parameter (query : Query)
deriving DecidableEq, Repr

/-- The part of `handleAutoComplete` that precedes the parameter slot: the guards on the
event, the command-name slot, and the choice of `query` with the enum slot.  `inputActive`
is `document.activeElement == input`, `autocompleteActive` is
`autocomplete.contains(document.activeElement)`, `key` is `inpEvt.key`, and
`selectedAutoCompleteIdx` is the module variable when the call starts.  Every query of
`queries` that shares its name with another one has a first parameter, so
`query.params[0].value` reads no property of `undefined`. -/
def chooseSlot (inputActive autocompleteActive : Bool) (evtName key : String)
    (selectedAutoCompleteIdx : Int) (inpValue : JSString) (isSubQuery : Bool) : Choice :=
  if evtName = "blur" ∧ autocompleteActive = true then
    .done { selectedAutoCompleteIdx := selectedAutoCompleteIdx, view := .ignored,
            tabLookup := .notRead }
  else if inputActive = true ∨ evtName = "keydown" then
    if evtName = "keydown" ∧ key = "Escape" then
      .done { selectedAutoCompleteIdx := selectedAutoCompleteIdx, view := .escaped,
              tabLookup := .notRead }
    else
      let args := getArgs inpValue
      if inpValue = [] ∨ (args.length = 1 ∧ endsWith inpValue ' ' = false) then
        let closeQueryNames :=
          (queries.filter (fun query => query.canSubQuery || !isSubQuery)).filter
            (fun query => startsWithString query.name (args[0]?.getD []))
        .done { selectedAutoCompleteIdx :=
                  selectIndex evtName key closeQueryNames.length selectedAutoCompleteIdx,
                view := .queryNames closeQueryNames,
                tabLookup :=
                  if evtName = "keydown" ∧ key = "Tab" then
                    .query (arrayIndex closeQueryNames selectedAutoCompleteIdx)
                  else .notRead }
      else
        let enumedQuery :=
          (queries.filter (fun query => query.canSubQuery || !isSubQuery)).filter
            (fun query => some query.name == args[0]?)
        match enumedQuery with
        | [] =>
          .done { selectedAutoCompleteIdx := selectedAutoCompleteIdx, view := .noQuery,
                  tabLookup := .notRead }
        | first :: _ =>
          if enumedQuery.length > 1 then
            if (args.length = 1 ∧ endsWith inpValue ' ' = true) ∨
                (args.length = 2 ∧ endsWith inpValue ' ' = false) then
              let filteredenumedQueries :=
                enumedQuery.filter (fun query =>
                  match query.params.head?.bind (fun param => param.value) with
                  | some value => startsWithString value (args[1]?.getD [])
                  | none => false)
              .done { selectedAutoCompleteIdx :=
                        selectIndex evtName key filteredenumedQueries.length
                          selectedAutoCompleteIdx,
                      view := .enumValues filteredenumedQueries,
                      tabLookup :=
                        if evtName = "keydown" ∧ key = "Tab" then
                          .enum (arrayIndex filteredenumedQueries selectedAutoCompleteIdx)
                        else .notRead }
            else
              match enumedQuery.find? (fun query =>
                  query.params.head?.bind (fun param => param.value) == args[1]?) with
              | none =>
                .done { selectedAutoCompleteIdx := selectedAutoCompleteIdx, view := .noEnum,
                        tabLookup := .notRead }
              | some actualQuery => .parameter actualQuery
          else .parameter first
  else
    .done { selectedAutoCompleteIdx := selectedAutoCompleteIdx, view := .hidden,
            tabLookup := .notRead }

/-- The body of `handleAutoComplete(inpValue, autocomplete, evtName, inpEvt, isSubQuery)`,
in which `sub line` stands for the recursive call
`handleAutoComplete(line, subQueryAutocomplete, evtName, inpEvt, true)`.  `rowValues` and
`dateValues` are the module variables of these names.  The result is `none` only when the
recursive call gives `none`. -/
def handleAutoCompleteBody (rowValues dateValues : List JSString)
    (sub : JSString → Option AutoComplete) (inputActive autocompleteActive : Bool)
    (evtName key : String) (selectedAutoCompleteIdx : Int) (inpValue : JSString)
    (isSubQuery : Bool) : Option AutoComplete :=
  match chooseSlot inputActive autocompleteActive evtName key selectedAutoCompleteIdx inpValue
      isSubQuery with
  | .done outcome => some outcome
  | .parameter query =>
    parameterSlot rowValues dateValues sub evtName key selectedAutoCompleteIdx inpValue query

/-- The function `handleAutoComplete` with a bound on the depth of its recursion.  The
recursive call is made for the fresh element `subQueryAutocomplete`, which holds no
element yet, so `autocomplete.contains(document.activeElement)` is false in it. -/
def handleAutoCompleteFuel (rowValues dateValues : List JSString) (inputActive : Bool)
    (evtName key : String) (selectedAutoCompleteIdx : Int) :
    Nat → Bool → JSString → Bool → Option AutoComplete
  | 0, _, _, _ => none
  | fuel + 1, autocompleteActive, inpValue, isSubQuery =>
    handleAutoCompleteBody rowValues dateValues
      (fun line => handleAutoCompleteFuel rowValues dateValues inputActive evtName key
        selectedAutoCompleteIdx fuel false line true)
      inputActive autocompleteActive evtName key selectedAutoCompleteIdx inpValue isSubQuery

/-- The function `handleAutoComplete`.  A sub-query line only selects queries with
`canSubQuery`, none of which has a sub-query parameter in `queries`, so the recursion is
never deeper than two calls: `handleAutoComplete_isSome` proves that the bound is never
reached and `handleAutoComplete_eq_body` that the function satisfies its own recursion. -/
def handleAutoComplete (rowValues dateValues : List JSString)
    (inputActive autocompleteActive : Bool) (evtName key : String)
    (selectedAutoCompleteIdx : Int) (inpValue : JSString) (isSubQuery : Bool) :
    Option AutoComplete :=
  handleAutoCompleteFuel rowValues dateValues inputActive evtName key
    selectedAutoCompleteIdx 2 autocompleteActive inpValue isSubQuery

/-- The number of candidates of the key switch that a call has run, `none` when the call
returned before any of the three switches. -/
def View.candidateCount : View → Option Nat
  | .queryNames closeQueryNames => some closeQueryNames.length
  | .enumValues filteredenumedQueries => some filteredenumedQueries.length
  | .parameterValues possibleParameterValues => some possibleParameterValues.length
  | .subQuery _ inner => inner.candidateCount
  | _ => none

/-- The rows of the specification's end-to-end example. -/
def exampleRows : List JSString := ["temperature_max".toList]

/-- The module variable `selectedAutoCompleteIdx` once the listener of a keydown on the
input has run `handleAutoComplete(input.value, autocomplete, "keydown", inpEvt, false)`,
as a function of its value before. -/
def afterKeydown (rowValues dateValues : List JSString)
    (inputActive autocompleteActive : Bool) (key : String) (inpValue : JSString)
    (selectedAutoCompleteIdx : Int) : Int :=
  match handleAutoComplete rowValues dateValues inputActive autocompleteActive "keydown" key
      selectedAutoCompleteIdx inpValue false with
  | some outcome => outcome.selectedAutoCompleteIdx
  | none => selectedAutoCompleteIdx

/-! ## The diagnostics of the type check, by kind -/

/-- Whether a diagnostic is the one of the `default` case of the type check, "Unexpected
argument type ... was not implemented". -/
def Diag.isUnimplemented : Diag → Bool
  | .unimplementedType _ _ _ _ _ => true
  | _ => false

/-- The fixed enum value `query.params[0]?.value` of a query, `none` when it has none. -/
def Query.fixedValue (query : Query) : Option JSString :=
  query.params.head?.bind (fun p => p.value)

/-! ## The case `compare` of `sendRequest` -/

/-- The constant `subQueryInput` of the case `compare`:
`args.slice(isLatLong ? 4 : 3).join(" ")`, with `isLatLong = args[1] == "coord"`. -/
def sendRequestSubQueryInput (inpValue : JSString) : JSString :=
  let args := getArgs inpValue
  let isLatLong := args[1]? == some "coord".toList
  join ' ' (slice args (if isLatLong then 4 else 3) none)

/-- The constant `firstQuery` of the dataset branch of the case `compare`. -/
def sendRequestFirstQuery (inpValue : JSString) : JSString :=
  let args := getArgs inpValue
  join ' ' (slice args 2 (some (findLastIndex isQueryName args)))

/-- The constant `secondQuery` of the dataset branch of the case `compare`. -/
def sendRequestSecondQuery (inpValue : JSString) : JSString :=
  let args := getArgs inpValue
  join ' ' (slice args (findLastIndex isQueryName args) none)

/-- The lines that a top-level call `sendRequest(inpValue, true)` passes to its recursive
calls `sendRequest(line, false)`, in order: none outside the case `compare`; in it
`subQueryInput`, and then `firstQuery` and `secondQuery` when `args[1] == "dataset"`. -/
def sendRequestCalls (inpValue : JSString) : List JSString :=
  if sendRequestBranch inpValue = .compare then
    sendRequestSubQueryInput inpValue ::
      (if (getArgs inpValue)[1]? == some "dataset".toList then
        [sendRequestFirstQuery inpValue, sendRequestSecondQuery inpValue]
      else [])
  else []

/-- The lines whose results the case `compare` puts into its sentence: `subQueryValue`,
the result of `subQueryInput`, outside the dataset branch, and `firstQueryRes` and
`secondQueryRes`, the results of `firstQuery` and `secondQuery`, in it. -/
def sentenceQueries (inpValue : JSString) : List JSString :=
  if (getArgs inpValue)[1]? == some "dataset".toList then
    [sendRequestFirstQuery inpValue, sendRequestSecondQuery inpValue]
  else [sendRequestSubQueryInput inpValue]

/-! ## The case `external` of the server -/

namespace Server

/-- The statement `switch (args[3])` that ends the case `external` of `handleAPI`, with the
`let result` before it.  No case has a `break`: control enters at the case whose label is
`args[3]` and runs every assignment below it, so that the assignment of the case `value`,
`result = results[0]`, is always the last one.  `none` stands for an exception of one of
the calls, `some none` for a `result` left `undefined`. -/
def externalSwitch {α : Type} (numLe : α → α → Bool) (add : α → α → α)
    (divide : α → Nat → α) (kind : Option JSString) (results : List α) :
    Option (Option α) :=
  let atMin := kind == some "min".toList
  let atMax := atMin || kind == some "max".toList
  let atAvg := atMax || kind == some "avg".toList
  let atValue := atAvg || kind == some "value".toList
  (if atMin then (min numLe results).map some else some none).bind fun result =>
  (if atMax then (max numLe results).map some else some result).bind fun result =>
  (if atAvg then (avg add divide results).map some else some result).bind fun result =>
  some (if atValue then results[0]? else result)

/-- The answer of the case `external` once the series `results` is fetched: the response
400 when `result == undefined`, the response `{ result }` otherwise. -/
def externalResponse (add : JSNumber → JSNumber → JSNumber)
    (divide : JSNumber → Nat → JSNumber) (args : List JSString) (results : List JSNumber) :
    Response :=
  match externalSwitch JSNumber.le add divide args[3]? results with
  | none => .thrown
  | some none =>
    .badRequest ("Something went wrong with connecting to API. " ++
      "Is there something wrong with the connection?")
  | some (some result) => .ok (.num result)

end Server

/-! ## The dataset file: `parseDataset` and `toDataset` -/

/-- The method `s.split(sep)` for a separator of two characters `a`, `b`: the occurrences
are found from the left and do not overlap. -/
def split2 (a b : Char) : JSString → List JSString
  | [] => [[]]
  | [c] => [[c]]
  | c :: d :: rest =>
    if c = a ∧ d = b then [] :: split2 a b rest
    else
      match split2 a b (d :: rest) with
      | [] => [[c]]
      | s :: ss => (c :: s) :: ss

/-- Whether a property key is an array index, a canonical numeric string below `2^32 - 1`:
an object lists such keys first, in ascending order, and the other keys after them, in
the order of their creation. -/
def isArrayIndex (key : JSString) : Bool :=
  isDigits 10 key && natToString (digitsValue 10 key) == key &&
    decide (digitsValue 10 key < 4294967295)

/-- The text that `String(f)` gives for a built-in function named `name` in JavaScriptCore,
the engine of Bun, which `server.js` runs on.  Other engines differ in the white space. -/
def nativeFunctionText (name : String) : JSString :=
  ("function " ++ name ++ "() \x7b\n    [native code]\n\x7d").toList

/-- The properties that an object `{}` inherits from `Object.prototype`, each with the
string that its value converts to in a concatenation: the text of a built-in function, and
`[object Object]` for the accessor `__proto__`, whose value is `Object.prototype`. -/
def objectPrototype : List (JSString × JSString) :=
  [ ("constructor".toList, nativeFunctionText "Object"),
    ("__defineGetter__".toList, nativeFunctionText "__defineGetter__"),
    ("__defineSetter__".toList, nativeFunctionText "__defineSetter__"),
    ("hasOwnProperty".toList, nativeFunctionText "hasOwnProperty"),
    ("__lookupGetter__".toList, nativeFunctionText "__lookupGetter__"),
    ("__lookupSetter__".toList, nativeFunctionText "__lookupSetter__"),
    ("isPrototypeOf".toList, nativeFunctionText "isPrototypeOf"),
    ("propertyIsEnumerable".toList, nativeFunctionText "propertyIsEnumerable"),
    ("toString".toList, nativeFunctionText "toString"),
    ("valueOf".toList, nativeFunctionText "valueOf"),
    ("__proto__".toList, "[object Object]".toList),
    ("toLocaleString".toList, nativeFunctionText "toLocaleString") ]

/-- The property access `obj[key]` on an object created by `{}`, as the string the value
converts to: the own property first, an inherited one otherwise; `none` is `undefined`. -/
def Record.read (obj : Record) (key : JSString) : Option JSString :=
  match obj.get key with
  | some value => some value
  | none => (objectPrototype.find? (fun entry => entry.1 == key)).map (fun entry => entry.2)

/-- The creation of the property `key` of an object: after the array indices below it when
it is an array index, at the end otherwise. -/
def Record.insertKey : Record → JSString → JSString → Record
  | [], key, value => [(key, value)]
  | (k, v) :: rest, key, value =>
    if isArrayIndex key = true ∧
        (isArrayIndex k = false ∨ digitsValue 10 key < digitsValue 10 k) then
      (key, value) :: (k, v) :: rest
    else (k, v) :: Record.insertKey rest key value

/-- The assignment `obj[key] = value` of a string to a property of an object created by
`{}`: an own property keeps its place, a new one is created, and on the key `__proto__`
the inherited setter is called, which ignores a value that is no object. -/
def Record.set (obj : Record) (key value : JSString) : Record :=
  match obj.get key with
  | some _ => obj.map (fun entry => if entry.1 == key then (key, value) else entry)
  | none =>
    if key = "__proto__".toList then obj
    else obj.insertKey key value

namespace Server

/-- The two statements of the inner loop of `toDataset` for one property of one record:
`if (body[property] == undefined) body[property] = "";` and
`body[property] += " " + value`. -/
def addToBody (body : Record) (property value : JSString) : Record :=
  let body := if (body.read property).isNone then body.set property [] else body
  body.set property ((body.read property).getD "undefined".toList ++ ' ' :: value)

/-- The function `toDataset(json)` on records whose values are strings:
`for (const property in json[record])` visits the entries of the record in their order. -/
def toDataset (json : Dataset) : JSString :=
  let body : Record :=
    json.foldl (fun body record =>
      record.foldl (fun body entry => addToBody body entry.1 entry.2) body) []
  -- Object.entries(body).reduce((prev, [key, value]) => prev + "\n" + key + ":" + value, "")
  let text : JSString :=
    body.foldl (fun prev entry => prev ++ '\n' :: entry.1 ++ ':' :: entry.2) []
  -- .replace("\n", "")
  text.erase '\n'

/-- The inner loop of `parseDataset` for one row of the table, column by column from the
left: `response[col] ??= {}; response[col][key] = table[row][col]`. -/
def setCells : List Record → JSString → List JSString → List Record
  | response, _, [] => response
  | [], key, cell :: cells => Record.set [] key cell :: setCells [] key cells
  | record :: rest, key, cell :: cells => record.set key cell :: setCells rest key cells

/-- The function `parseDataset(fileData)`. -/
def parseDataset (fileData : JSString) : Dataset :=
  let values := (split '\n' fileData).map (fun row => (split2 ':' ' ' row).headD [])
  let table := (split '\n' fileData).map (fun row =>
    match (split2 ':' ' ' row)[1]? with
    | some cells => split ' ' cells
    | none => [])
  (values.zip table).foldl (fun response row => setCells response row.1 row.2) []

end Server

/-! ## Theorems: the tokenizer -/

theorem appendToLast_snoc (init : List JSString) (cur suffix : JSString) :
    appendToLast (init ++ [cur]) suffix = init ++ [cur ++ suffix] := by
  induction init with
  | nil => rfl
  | cons t ts ih =>
    cases ts with
    | nil => rfl
    | cons u us =>
      have : appendToLast (t :: u :: us ++ [cur]) suffix
          = t :: appendToLast (u :: us ++ [cur]) suffix := rfl
      rw [this, ih]; rfl

theorem foldl_getArgsStep (segs : List JSString) :
    (∀ res, (segs.foldl getArgsStep ⟨res, false⟩).resultValue = res ++ scanFrom none segs) ∧
    (∀ init cur, (segs.foldl getArgsStep ⟨init ++ [cur], true⟩).resultValue
      = init ++ scanFrom (some cur) segs) := by
  induction segs with
  | nil => exact ⟨fun res => by simp [scanFrom], fun init cur => by simp [scanFrom]⟩
  | cons s rest ih =>
    refine ⟨fun res => ?_, fun init cur => ?_⟩
    · simp only [List.foldl_cons, getArgsStep, scanFrom]
      cases h : quoteAfter false s
      · simp [ih.1]
      · simp [ih.2]
    · simp only [List.foldl_cons, getArgsStep, scanFrom, appendToLast_snoc, if_true]
      cases h : quoteAfter true s
      · simp [ih.1]
      · simp [ih.2]

theorem getArgsLoop_eq_scanFrom (inpValue : JSString) :
    (getArgsLoop inpValue).resultValue = scanFrom none (split ' ' inpValue) := by
  simpa [getArgsLoop] using (foldl_getArgsStep (split ' ' inpValue)).1 []

theorem getArgs_eq (inpValue : JSString) :
    getArgs inpValue = (scanFrom none (split ' ' inpValue)).filter (fun arg => arg ≠ []) := by
  simp [getArgs, getArgsLoop_eq_scanFrom]

theorem scanFrom_some_nonempty (segs : List JSString) :
    ∀ cur : JSString, cur ≠ [] → ∃ t ∈ scanFrom (some cur) segs, t ≠ [] := by
  induction segs with
  | nil => intro cur h; exact ⟨cur, by simp [scanFrom], h⟩
  | cons s rest ih =>
    intro cur _
    simp only [scanFrom]
    split
    · exact ih _ (by simp)
    · exact ⟨cur ++ ' ' :: s, by simp, by simp⟩

theorem scanFrom_nonempty (segs : List JSString) :
    ∀ st : Option JSString, (∃ s ∈ segs, s ≠ []) → ∃ t ∈ scanFrom st segs, t ≠ [] := by
  induction segs with
  | nil => intro st h; simp at h
  | cons s rest ih =>
    intro st h
    cases st with
    | some cur =>
      simp only [scanFrom]
      split
      · exact scanFrom_some_nonempty rest _ (by simp)
      · exact ⟨cur ++ ' ' :: s, by simp, by simp⟩
    | none =>
      simp only [scanFrom]
      by_cases hs : s = []
      · have hrest : ∃ s ∈ rest, s ≠ [] := by
          obtain ⟨x, hx, hne⟩ := h
          rcases List.mem_cons.1 hx with rfl | hx
          · exact absurd hs hne
          · exact ⟨x, hx, hne⟩
        split
        · exact scanFrom_some_nonempty rest _ (by subst hs; simp_all [quoteAfter, startsWith])
        · obtain ⟨t, ht, hne⟩ := ih none hrest
          exact ⟨t, by simp [ht], hne⟩
      · split
        · exact scanFrom_some_nonempty rest _ hs
        · exact ⟨s, by simp, hs⟩

theorem split_ne_nil (sep : Char) (s : JSString) : split sep s ≠ [] := by
  cases s with
  | nil => simp [split]
  | cons c cs =>
    simp only [split]
    split
    · simp
    · split <;> simp

theorem split_exists_nonempty (sep : Char) (s : JSString) (h : ∃ c ∈ s, c ≠ sep) :
    ∃ seg ∈ split sep s, seg ≠ [] := by
  induction s with
  | nil => simp at h
  | cons c cs ih =>
    simp only [split]
    by_cases hc : c = sep
    · have : ∃ c ∈ cs, c ≠ sep := by
        obtain ⟨x, hx, hne⟩ := h
        rcases List.mem_cons.1 hx with rfl | hx
        · exact absurd hc hne
        · exact ⟨x, hx, hne⟩
      obtain ⟨seg, hseg, hne⟩ := ih this
      exact ⟨seg, by simp [hc, hseg], hne⟩
    · simp only [hc, if_false]
      split
      · exact ⟨[c], by simp, by simp⟩
      · exact ⟨_, List.mem_cons_self _ _, by simp⟩

/-- C2: `getArgs` never returns an empty-string token, and on a line with at least one
character that is not a space it returns at least one token. -/
theorem getArgs_no_empty_token (line : JSString) :
    [] ∉ getArgs line ∧ ((∃ c ∈ line, c ≠ ' ') → getArgs line ≠ []) := by
  refine ⟨by simp [getArgs], fun h => ?_⟩
  obtain ⟨t, ht, hne⟩ := scanFrom_nonempty _ none (split_exists_nonempty ' ' line h)
  rw [getArgs_eq]
  intro hnil
  have : t ∈ (scanFrom none (split ' ' line)).filter (fun arg => arg ≠ []) := by
    simp [List.mem_filter, ht, hne]
  rw [hnil] at this
  simp at this

/-! ## Theorems: the recursion of `validateInput` -/

theorem canSubQuery_no_subquery :
    ∀ q ∈ queries, q.canSubQuery = true →
      q.params.getLast?.map (fun param => param.type) ≠ some ParamType.subquery := by
  decide

theorem selects_canSubQuery {args : List JSString} {q : Query}
    (h : selects args true q = true) : q.canSubQuery = true := by
  simp [selects] at h
  exact h.1.2

theorem validateInputBody_sub_indep (dateValues : List JSString)
    (f g : JSString → Option Outcome) (inpValue : JSString) :
    validateInputBody dateValues f inpValue true = validateInputBody dateValues g inpValue true := by
  unfold validateInputBody
  dsimp only
  cases h : queries.find? (selects (getArgs inpValue) true) with
  | none => rfl
  | some q =>
    have hlast := canSubQuery_no_subquery q (List.mem_of_find?_eq_some h)
      (selects_canSubQuery (List.find?_some h))
    simp only [hlast, if_false]

theorem validateInputBody_sub_isSome (dateValues : List JSString)
    (f : JSString → Option Outcome) (inpValue : JSString) :
    (validateInputBody dateValues f inpValue true).isSome = true := by
  unfold validateInputBody
  dsimp only
  cases h : queries.find? (selects (getArgs inpValue) true) with
  | none => rfl
  | some q =>
    have hlast := canSubQuery_no_subquery q (List.mem_of_find?_eq_some h)
      (selects_canSubQuery (List.find?_some h))
    simp only [hlast, if_false]
    split
    · rfl
    · split <;> rfl

theorem validateInputFuel_sub (dateValues : List JSString) (fuel : Nat) (inpValue : JSString) :
    validateInputFuel dateValues (fuel + 1) inpValue true
      = validateInput dateValues inpValue true := by
  simp only [validateInput, validateInputFuel]
  exact validateInputBody_sub_indep _ _ _ _

theorem validateInput_eq_body (dateValues : List JSString) (inpValue : JSString)
    (isSubQuery : Bool) :
    validateInput dateValues inpValue isSubQuery
      = validateInputBody dateValues (fun line => validateInput dateValues line true)
          inpValue isSubQuery := by
  have : (fun line => validateInputFuel dateValues 1 line true)
      = (fun line => validateInput dateValues line true) :=
    funext fun line => validateInputFuel_sub dateValues 0 line
  rw [validateInput, validateInputFuel, this]

theorem validateInput_sub_isSome (dateValues : List JSString) (inpValue : JSString) :
    (validateInput dateValues inpValue true).isSome = true := by
  rw [validateInput_eq_body]
  exact validateInputBody_sub_isSome _ _ _

theorem validateInput_isSome (dateValues : List JSString) (inpValue : JSString)
    (isSubQuery : Bool) : (validateInput dateValues inpValue isSubQuery).isSome = true := by
  rw [validateInput_eq_body]
  unfold validateInputBody
  dsimp only
  have hsome : ∀ line, ∃ r e, validateInput dateValues line true = some (r, e) := by
    intro line
    have := validateInput_sub_isSome dateValues line
    cases h : validateInput dateValues line true with
    | none => simp [h] at this
    | some o => exact ⟨o.1, o.2, rfl⟩
  cases h : queries.find? (selects (getArgs inpValue) isSubQuery) with
  | none => rfl
  | some q =>
    simp only
    split
    · rfl
    · split
      · split
        · obtain ⟨r1, e1, h1⟩ := hsome (firstSubQuery q inpValue)
          obtain ⟨r2, e2, h2⟩ := hsome (secondSubQuery inpValue)
          rw [h1]
          cases r1
          · rfl
          · simp only [h2]
            cases r2 <;> rfl
        · obtain ⟨r1, e1, h1⟩ := hsome (subQueryInput q inpValue)
          rw [h1]
          cases r1 <;> rfl
      · split <;> rfl

theorem validateInputFuel_eq (dateValues : List JSString) (fuel : Nat) (inpValue : JSString)
    (isSubQuery : Bool) :
    validateInputFuel dateValues (fuel + 2) inpValue isSubQuery
      = validateInput dateValues inpValue isSubQuery := by
  have : (fun line => validateInputFuel dateValues (fuel + 1) line true)
      = (fun line => validateInput dateValues line true) :=
    funext fun line => validateInputFuel_sub dateValues fuel line
  rw [validateInput_eq_body, validateInputFuel, this]

/-! ## Theorems: which diagnostics a call can produce -/

theorem checkDate_props {dateValues : List JSString} {b : Bool} {q : Option JSString}
    {p : String} {a : JSString} {d : Diag} (h : checkDate dateValues b q p a = some d) :
    d.isSubQuery = b ∧ d.isArity = false := by
  unfold checkDate at h
  split at h
  · split at h
    · cases h; exact ⟨rfl, rfl⟩
    · split at h
      · cases h; exact ⟨rfl, rfl⟩
      · cases h
  · split at h
    · split at h
      · cases h; exact ⟨rfl, rfl⟩
      · cases h
    · cases h; exact ⟨rfl, rfl⟩

theorem checkArg_props {dateValues : List JSString} {b : Bool} {q : Option JSString}
    {p : Param} {a : JSString} {d : Diag} (h : checkArg dateValues b q p a = some d) :
    d.isSubQuery = b ∧ d.isArity = false := by
  unfold checkArg at h
  split at h
  · split at h
    · cases h; exact ⟨rfl, rfl⟩
    · cases h
  · split at h
    · cases h; exact ⟨rfl, rfl⟩
    · cases h
  · split at h
    · cases h; exact ⟨rfl, rfl⟩
    · cases h
  · split at h
    · cases h; exact ⟨rfl, rfl⟩
    · cases h
  · exact checkDate_props h
  · cases h
  · cases h
  · cases h; exact ⟨rfl, rfl⟩

theorem forEachArg_props {dateValues : List JSString} {b : Bool} {q : Option JSString}
    {params : List Param} (args : List JSString) :
    ∀ (idx : Nat) (d : Diag), forEachArg dateValues b q params args idx = some d →
      d.isSubQuery = b ∧ d.isArity = false := by
  induction args with
  | nil => intro idx d h; simp [forEachArg] at h
  | cons a rest ih =>
    intro idx d h
    simp only [forEachArg] at h
    split at h
    · exact ih _ _ h
    · split at h
      · cases h; exact checkArg_props (by assumption)
      · exact ih _ _ h

/-- The outcome of the final type check, as `validateInputBody` builds it. -/
theorem typeChecks_cases (o : Option Diag) (b : Bool)
    (ho : ∀ d, o = some d → d.isSubQuery = b ∧ d.isArity = false) :
    ((match o with
      | some d => ((false, [d]) : Outcome)
      | none => (true, [])) = (true, [])) ∨
    ∃ d, (match o with
      | some d => ((false, [d]) : Outcome)
      | none => (true, [])) = (false, [d]) ∧ d.isSubQuery = b ∧ d.isArity = false := by
  cases o with
  | none => exact Or.inl rfl
  | some d => exact Or.inr ⟨d, rfl, ho d rfl⟩

theorem validateInput_sub_cases {dateValues : List JSString} {line : JSString} {r : Bool}
    {errs : List Diag} (h : validateInput dateValues line true = some (r, errs)) :
    (r = true ∧ errs = []) ∨ (r = false ∧ ∃ d, errs = [d] ∧ d.isSubQuery = true) := by
  rw [validateInput_eq_body] at h
  unfold validateInputBody at h
  dsimp only at h
  cases hq : queries.find? (selects (getArgs line) true) with
  | none =>
    rw [hq] at h
    cases h
    exact Or.inr ⟨rfl, _, rfl, rfl⟩
  | some q =>
    have hlast := canSubQuery_no_subquery q (List.mem_of_find?_eq_some hq)
      (selects_canSubQuery (List.find?_some hq))
    rw [hq] at h
    simp only [hlast, if_false] at h
    split at h
    · cases h
      exact Or.inr ⟨rfl, _, rfl, rfl⟩
    · split at h
      · cases h
        exact Or.inr ⟨rfl, _, rfl, rfl⟩
      · rcases typeChecks_cases
          (forEachArg dateValues true (getArgs line)[0]? q.params (slice (getArgs line) 1 none) 0)
          true (fun d hd => forEachArg_props _ _ _ hd) with h1 | ⟨d, h1, h2, _⟩
        · rw [h1] at h
          cases h
          exact Or.inl ⟨rfl, rfl⟩
        · rw [h1] at h
          cases h
          exact Or.inr ⟨rfl, d, rfl, h2⟩

theorem validateInput_sub_some (dateValues : List JSString) (line : JSString) :
    ∃ r errs, validateInput dateValues line true = some (r, errs) ∧
      ((r = true ∧ errs = []) ∨ (r = false ∧ ∃ d, errs = [d] ∧ d.isSubQuery = true)) := by
  have := validateInput_sub_isSome dateValues line
  cases h : validateInput dateValues line true with
  | none => simp [h] at this
  | some o => exact ⟨o.1, o.2, rfl, validateInput_sub_cases h⟩

/-- The shape of the outcome of a call whose command was found and that passed the arity
floor: success without a diagnostic, or failure with exactly one, which is the
too-many-arguments diagnostic of the call, a diagnostic of the type check, or (for a
top-level call) the diagnostic of a sub-query. -/
theorem validateInput_found_cases {dateValues : List JSString} {line : JSString}
    {isSubQuery : Bool} {q : Query} {r : Bool} {errs : List Diag}
    (hq : queries.find? (selects (getArgs line) isSubQuery) = some q)
    (hfew : ¬ (((getArgs line).length : Int) - 1
      < ((q.params.filter (fun param => !param.optional)).length : Int)))
    (h : validateInput dateValues line isSubQuery = some (r, errs)) :
    (r = true ∧ errs = []) ∨
    (r = false ∧ ∃ d, errs = [d] ∧
      (d = .tooManyArguments isSubQuery (getArgs line)[0]? q.params.length
            (((getArgs line).length : Int) - 1) ∨
       (d.isArity = false ∧ d.isSubQuery = isSubQuery) ∨
       (isSubQuery = false ∧ d.isSubQuery = true))) := by
  rw [validateInput_eq_body] at h
  unfold validateInputBody at h
  dsimp only at h
  rw [hq] at h
  simp only [hfew, if_false] at h
  have htc := typeChecks_cases
    (forEachArg dateValues isSubQuery (getArgs line)[0]? q.params (slice (getArgs line) 1 none) 0)
    isSubQuery (fun d hd => forEachArg_props _ _ _ hd)
  split at h
  · rename_i hlast
    have hsub : isSubQuery = false := by
      cases isSubQuery with
      | false => rfl
      | true =>
        exact absurd hlast (canSubQuery_no_subquery q (List.mem_of_find?_eq_some hq)
          (selects_canSubQuery (List.find?_some hq)))
    split at h
    · obtain ⟨r1, e1, h1, hc1⟩ := validateInput_sub_some dateValues (firstSubQuery q line)
      obtain ⟨r2, e2, h2, hc2⟩ := validateInput_sub_some dateValues (secondSubQuery line)
      rw [h1] at h
      rcases hc1 with ⟨rfl, rfl⟩ | ⟨rfl, d1, rfl, hd1⟩
      · simp only [h2] at h
        rcases hc2 with ⟨rfl, rfl⟩ | ⟨rfl, d2, rfl, hd2⟩
        · rcases htc with h3 | ⟨d, h3, hd, hd'⟩
          · rw [h3] at h; cases h; exact Or.inl ⟨rfl, rfl⟩
          · rw [h3] at h; cases h
            exact Or.inr ⟨rfl, d, rfl, Or.inr (Or.inl ⟨hd', hd⟩)⟩
        · cases h
          exact Or.inr ⟨rfl, d2, rfl, Or.inr (Or.inr ⟨hsub, hd2⟩)⟩
      · cases h
        exact Or.inr ⟨rfl, d1, rfl, Or.inr (Or.inr ⟨hsub, hd1⟩)⟩
    · obtain ⟨r1, e1, h1, hc1⟩ := validateInput_sub_some dateValues (subQueryInput q line)
      rw [h1] at h
      rcases hc1 with ⟨rfl, rfl⟩ | ⟨rfl, d1, rfl, hd1⟩
      · rcases htc with h3 | ⟨d, h3, hd, hd'⟩
        · simp only [h3] at h; cases h; exact Or.inl ⟨rfl, rfl⟩
        · simp only [h3] at h; cases h
          exact Or.inr ⟨rfl, d, rfl, Or.inr (Or.inl ⟨hd', hd⟩)⟩
      · cases h
        exact Or.inr ⟨rfl, d1, rfl, Or.inr (Or.inr ⟨hsub, hd1⟩)⟩
  · split at h
    · cases h
      exact Or.inr ⟨rfl, _, rfl, Or.inl rfl⟩
    · rcases htc with h3 | ⟨d, h3, hd, hd'⟩
      · rw [h3] at h; cases h; exact Or.inl ⟨rfl, rfl⟩
      · rw [h3] at h; cases h
        exact Or.inr ⟨rfl, d, rfl, Or.inr (Or.inl ⟨hd', hd⟩)⟩

/-! ## Theorems: command selection and arity -/

theorem selects_iff (args : List JSString) (isSubQuery : Bool) (q : Query) :
    selects args isSubQuery q = true ↔
      args[0]? = some q.name ∧ (isSubQuery = true → q.canSubQuery = true) ∧
      (∀ v, q.params.head?.bind (fun p => p.value) = some v → args[1]? = some v) := by
  unfold selects
  cases hv : q.params.head?.bind (fun p => p.value) with
  | none => cases isSubQuery <;> simp [and_assoc]
  | some v => cases isSubQuery <;> simp [and_assoc]

theorem validateInput_not_found {dateValues : List JSString} {line : JSString}
    {isSubQuery : Bool} (hq : queries.find? (selects (getArgs line) isSubQuery) = none) :
    validateInput dateValues line isSubQuery
      = some (false, [.unknownQuery isSubQuery (getArgs line)[0]?]) := by
  rw [validateInput_eq_body]
  unfold validateInputBody
  dsimp only
  rw [hq]

theorem validateInput_tooFew {dateValues : List JSString} {line : JSString}
    {isSubQuery : Bool} {q : Query}
    (hq : queries.find? (selects (getArgs line) isSubQuery) = some q)
    (hfew : ((getArgs line).length : Int) - 1
      < ((q.params.filter (fun param => !param.optional)).length : Int)) :
    validateInput dateValues line isSubQuery
      = some (false, [.tooFewArguments isSubQuery (getArgs line)[0]?
          (q.params.filter (fun param => !param.optional)).length
          (((getArgs line).length : Int) - 1)]) := by
  rw [validateInput_eq_body]
  unfold validateInputBody
  dsimp only
  rw [hq]
  simp only [hfew, if_true]

/-- C3: `validateInput` rejects a line with the "doesn't exist" diagnostic for the line's
own command exactly when no entry of `queries` has the first token as its name, has
`canSubQuery` when `isSubQuery` is set, and has the second token as the fixed value of its
first parameter when that parameter has one. -/
theorem validateInput_unknownQuery_iff (dateValues : List JSString) (line : JSString)
    (isSubQuery : Bool) :
    validateInput dateValues line isSubQuery
        = some (false, [.unknownQuery isSubQuery (getArgs line)[0]?]) ↔
      ¬ ∃ q ∈ queries, (getArgs line)[0]? = some q.name ∧
          (isSubQuery = true → q.canSubQuery = true) ∧
          (∀ v, q.params.head?.bind (fun p => p.value) = some v →
            (getArgs line)[1]? = some v) := by
  constructor
  · intro h hex
    obtain ⟨q, hmem, hsel⟩ := hex
    have hsel' := (selects_iff _ _ _).2 hsel
    cases hq : queries.find? (selects (getArgs line) isSubQuery) with
    | none =>
      have := List.find?_eq_none.1 hq q hmem
      exact this hsel'
    | some q' =>
      by_cases hfew : ((getArgs line).length : Int) - 1
          < ((q'.params.filter (fun param => !param.optional)).length : Int)
      · rw [validateInput_tooFew hq hfew] at h
        simp at h
      · rcases validateInput_found_cases hq hfew h with ⟨hr, _⟩ | ⟨_, d, hd, hcase⟩
        · cases hr
        · cases hd
          rcases hcase with h1 | ⟨h1, _⟩ | ⟨h1, h2⟩
          · cases h1
          · simp [Diag.isArity] at h1
          · simp [Diag.isSubQuery, h1] at h2
  · intro h
    apply validateInput_not_found
    apply List.find?_eq_none.2
    intro q hmem hsel
    exact h ⟨q, hmem, (selects_iff _ _ _).1 hsel⟩

/-- C5, as the claim states it, fails: on `compare zip 66213` the selected command ends in
a sub-query parameter and has two non-optional parameters that are not sub-queries, the
line has two argument tokens, and the too-few-arguments diagnostic is produced all the same. -/
theorem tooFew_excluding_subquery_counterexample :
    ∃ q, queries.find? (selects (getArgs "compare zip 66213".toList) false) = some q ∧
      q.params.getLast?.map (fun param => param.type) = some ParamType.subquery ∧
      validateInput twoDates "compare zip 66213".toList false
        = some (false, [.tooFewArguments false (some "compare".toList) 3 2]) ∧
      ¬ (((getArgs "compare zip 66213".toList).length : Int) - 1
          < ((q.params.filter
              (fun param => !param.optional && param.type != ParamType.subquery)).length : Int)) :=
  ⟨_, rfl, by decide, by decide, by decide⟩

/-- C5, amended: the arity floor counts every non-optional parameter, sub-query parameters
included.  For a line whose command was found, the too-few-arguments diagnostic of the call
is produced when the number of argument tokens is below the number of non-optional
parameters, and otherwise no too-few-arguments diagnostic of the call is produced. -/
theorem validateInput_tooFew_iff (dateValues : List JSString) (line : JSString)
    (isSubQuery : Bool) (q : Query)
    (hq : queries.find? (selects (getArgs line) isSubQuery) = some q) :
    ((((getArgs line).length : Int) - 1
        < ((q.params.filter (fun param => !param.optional)).length : Int)) →
      validateInput dateValues line isSubQuery
        = some (false, [.tooFewArguments isSubQuery (getArgs line)[0]?
            (q.params.filter (fun param => !param.optional)).length
            (((getArgs line).length : Int) - 1)])) ∧
    (¬ (((getArgs line).length : Int) - 1
        < ((q.params.filter (fun param => !param.optional)).length : Int)) →
      ∀ r errs, validateInput dateValues line isSubQuery = some (r, errs) →
        ∀ name atLeast received,
          Diag.tooFewArguments isSubQuery name atLeast received ∉ errs) := by
  refine ⟨fun hfew => validateInput_tooFew hq hfew, fun hfew r errs h name a m hmem => ?_⟩
  rcases validateInput_found_cases hq hfew h with ⟨_, rfl⟩ | ⟨_, d, rfl, hcase⟩
  · simp at hmem
  · simp only [List.mem_singleton] at hmem
    subst hmem
    rcases hcase with h1 | ⟨h1, _⟩ | ⟨h1, h2⟩
    · cases h1
    · simp [Diag.isArity] at h1
    · simp [Diag.isSubQuery, h1] at h2

/-- Witness for C5: the amended statement at `compare zip 66213` and the dataset of two
dates. -/
theorem validateInput_tooFew_iff_witness :
    validateInput twoDates "compare zip 66213".toList false
      = some (false, [.tooFewArguments false (some "compare".toList) 3 2]) :=
  (validateInput_tooFew_iff twoDates "compare zip 66213".toList false
    compareZip
    (by decide)).1 (by decide)

theorem validateInput_tooMany {dateValues : List JSString} {line : JSString}
    {isSubQuery : Bool} {q : Query}
    (hq : queries.find? (selects (getArgs line) isSubQuery) = some q)
    (hno : q.params.getLast?.map (fun param => param.type) ≠ some ParamType.subquery)
    (hmany : ((getArgs line).length : Int) - 1 > (q.params.length : Int)) :
    validateInput dateValues line isSubQuery
      = some (false, [.tooManyArguments isSubQuery (getArgs line)[0]? q.params.length
          (((getArgs line).length : Int) - 1)]) := by
  have hle : ((q.params.filter (fun param => !param.optional)).length : Int)
      ≤ (q.params.length : Int) := by
    exact_mod_cast List.length_filter_le _ _
  have hfew : ¬ (((getArgs line).length : Int) - 1
      < ((q.params.filter (fun param => !param.optional)).length : Int)) := by omega
  rw [validateInput_eq_body]
  unfold validateInputBody
  dsimp only
  rw [hq]
  simp only [hfew, hno, hmany, if_false, if_true]

theorem find_selects_of_name :
    ∀ q ∈ queries, (∀ p ∈ q.params, p.type ≠ ParamType.subquery) →
      ∀ rest : List JSString, queries.find? (selects (q.name :: rest) false) = some q := by
  intro q hq hno rest
  simp only [queries, List.mem_cons, List.mem_singleton, List.not_mem_nil, or_false] at hq
  rcases hq with rfl | rfl | rfl | rfl | rfl | rfl | rfl | rfl | rfl | rfl | rfl | rfl | rfl
  all_goals first
    | exact absurd hno (by decide)
    | simp [queries, List.find?, selects, locationType, rangeParams, compareCoord,
        compareDataset, compareZip, compareCity, valueQuery]

/-- C6: for a command of `queries` without a sub-query parameter, a top-level line that
starts with its name fails with the too-few-arguments diagnostic when it has fewer
argument tokens than the command has non-optional parameters, and with the
too-many-arguments diagnostic when it has more argument tokens than the command has
parameters, whatever the argument tokens and the dataset are. -/
theorem validateInput_arity (dateValues : List JSString) (q : Query) (line : JSString)
    (hq : q ∈ queries) (hno : ∀ p ∈ q.params, p.type ≠ ParamType.subquery)
    (h0 : (getArgs line)[0]? = some q.name) :
    ((((getArgs line).length : Int) - 1
        < ((q.params.filter (fun param => !param.optional)).length : Int)) →
      validateInput dateValues line false
        = some (false, [.tooFewArguments false (some q.name)
            (q.params.filter (fun param => !param.optional)).length
            (((getArgs line).length : Int) - 1)])) ∧
    ((((getArgs line).length : Int) - 1 > (q.params.length : Int)) →
      validateInput dateValues line false
        = some (false, [.tooManyArguments false (some q.name) q.params.length
            (((getArgs line).length : Int) - 1)])) := by
  have hfind : queries.find? (selects (getArgs line) false) = some q := by
    cases hargs : getArgs line with
    | nil => simp [hargs] at h0
    | cons a rest =>
      simp only [hargs, List.getElem?_cons_zero, Option.some.injEq] at h0
      subst h0
      exact find_selects_of_name _ hq hno rest
  have hlast : q.params.getLast?.map (fun param => param.type) ≠ some ParamType.subquery := by
    intro h
    cases hl : q.params.getLast? with
    | none => simp [hl] at h
    | some p =>
      simp only [hl, Option.map_some', Option.some.injEq] at h
      exact hno p (List.mem_of_getLast?_eq_some hl) h
  refine ⟨fun hfew => ?_, fun hmany => ?_⟩
  · rw [validateInput_tooFew hfind hfew, h0]
  · rw [validateInput_tooMany hfind hlast hmany, h0]

/-- Witness for C6: the lines `min` (too few) and `min <row> 0 5 9` (too many). -/
theorem validateInput_arity_witness :
    validateInput twoDates "min".toList false
        = some (false, [.tooFewArguments false (some "min".toList) 1 0]) ∧
    validateInput twoDates "min `temperature_max` 0 5 9".toList false
        = some (false, [.tooManyArguments false (some "min".toList) 3 4]) :=
  ⟨(validateInput_arity twoDates
      { name := "min".toList, canSubQuery := true, params := rangeParams } "min".toList
      (by decide) (by decide) (by decide)).1 (by decide),
   (validateInput_arity twoDates
      { name := "min".toList, canSubQuery := true, params := rangeParams }
      "min `temperature_max` 0 5 9".toList (by decide) (by decide) (by decide)).2 (by decide)⟩

/-! ## Theorems: sub-queries -/

theorem subquery_param_is_last :
    ∀ q ∈ queries, (∃ p ∈ q.params, p.type = ParamType.subquery) →
      q.params.getLast?.map (fun param => param.type) = some ParamType.subquery := by
  decide

theorem canSubQuery_names :
    ∀ q ∈ queries, q.canSubQuery = true →
      q.name ∈ ["min".toList, "max".toList, "avg".toList, "value".toList] := by
  decide

theorem validateInput_accept_found {dateValues : List JSString} {line : JSString}
    {isSubQuery : Bool} {errs : List Diag}
    (h : validateInput dateValues line isSubQuery = some (true, errs)) :
    ∃ q, queries.find? (selects (getArgs line) isSubQuery) = some q := by
  cases hq : queries.find? (selects (getArgs line) isSubQuery) with
  | none =>
    rw [validateInput_not_found hq] at h
    simp at h
  | some q => exact ⟨q, rfl⟩

theorem validateInput_sub_accept {dateValues : List JSString} {sub : JSString}
    {errs : List Diag} (h : validateInput dateValues sub true = some (true, errs)) :
    validateInput dateValues sub true = some (true, []) ∧
    ∃ q ∈ queries, q.canSubQuery = true ∧ (getArgs sub)[0]? = some q.name ∧
      q.name ∈ ["min".toList, "max".toList, "avg".toList, "value".toList] := by
  constructor
  · rcases validateInput_sub_cases h with ⟨_, rfl⟩ | ⟨hr, _⟩
    · exact h
    · cases hr
  · obtain ⟨q, hq⟩ := validateInput_accept_found h
    have hmem := List.mem_of_find?_eq_some hq
    have hsel := (selects_iff _ _ _).1 (List.find?_some hq)
    exact ⟨q, hmem, hsel.2.1 rfl, hsel.1, canSubQuery_names q hmem (hsel.2.1 rfl)⟩

/-- The sub-query lines of an accepted line are accepted as sub-queries. -/
theorem validateInput_accept_subQueryLines {dateValues : List JSString} {line : JSString}
    {q : Query} {errs : List Diag}
    (h : validateInput dateValues line false = some (true, errs))
    (hq : queries.find? (selects (getArgs line) false) = some q)
    (hlast : q.params.getLast?.map (fun param => param.type) = some ParamType.subquery) :
    ∀ sub ∈ subQueryLines q line, validateInput dateValues sub true = some (true, []) := by
  by_cases hfew : ((getArgs line).length : Int) - 1
      < ((q.params.filter (fun param => !param.optional)).length : Int)
  · rw [validateInput_tooFew hq hfew] at h
    simp at h
  rw [validateInput_eq_body] at h
  unfold validateInputBody at h
  dsimp only at h
  rw [hq] at h
  simp only [hfew, hlast, if_false, if_true] at h
  intro sub hsub
  unfold subQueryLines at hsub
  split at h
  · rename_i htwo
    simp only [htwo, if_true, List.mem_cons, List.mem_singleton, List.not_mem_nil,
      or_false] at hsub
    obtain ⟨r1, e1, h1, hc1⟩ := validateInput_sub_some dateValues (firstSubQuery q line)
    obtain ⟨r2, e2, h2, hc2⟩ := validateInput_sub_some dateValues (secondSubQuery line)
    rw [h1] at h
    rcases hc1 with ⟨rfl, rfl⟩ | ⟨rfl, d1, rfl, hd1⟩
    · simp only [h2] at h
      rcases hc2 with ⟨rfl, rfl⟩ | ⟨rfl, d2, rfl, hd2⟩
      · rcases hsub with rfl | rfl
        · exact h1
        · exact h2
      · simp at h
    · simp at h
  · rename_i htwo
    simp only [htwo, if_false, List.mem_singleton] at hsub
    subst hsub
    obtain ⟨r1, e1, h1, hc1⟩ := validateInput_sub_some dateValues (subQueryInput q line)
    rw [h1] at h
    rcases hc1 with ⟨rfl, rfl⟩ | ⟨rfl, d1, rfl, hd1⟩
    · exact h1
    · simp at h

/-- C4: when `validateInput` accepts a top-level line whose command has a sub-query
parameter, every sub-query line it validated is accepted as a sub-query, and the first
token of that line is the name of an entry of `queries` with `canSubQuery`, which is one of
`min`, `max`, `avg` and `value`.  So the lines `compare zip 66213 histogram
 ...` and `compare zip 66213 compare zip 1 min ...` are rejected, for every dataset. -/
theorem validateInput_subqueries_valid (dateValues : List JSString) :
    (∀ (line : JSString) (q : Query) (errs : List Diag),
      validateInput dateValues line false = some (true, errs) →
      queries.find? (selects (getArgs line) false) = some q →
      (∃ p ∈ q.params, p.type = ParamType.subquery) →
      ∀ sub ∈ subQueryLines q line,
        validateInput dateValues sub true = some (true, []) ∧
        ∃ q' ∈ queries, q'.canSubQuery = true ∧ (getArgs sub)[0]? = some q'.name ∧
          q'.name ∈ ["min".toList, "max".toList, "avg".toList, "value".toList]) ∧
    validateInput dateValues "compare zip 66213 histogram `temperature_max`".toList false
      = some (false, [.unknownQuery true (some "histogram".toList)]) ∧
    validateInput dateValues "compare zip 66213 compare zip 1 min `temperature_max`".toList
        false
      = some (false, [.unknownQuery true (some "compare".toList)]) := by
  refine ⟨fun line q errs h hq hsub sub hmem => ?_, rfl, rfl⟩
  have hlast := subquery_param_is_last q (List.mem_of_find?_eq_some hq) hsub
  exact validateInput_sub_accept (validateInput_accept_subQueryLines h hq hlast sub hmem)

/-- Witness for C4: the sub-query line of `compare zip 66213 min <row>`. -/
theorem validateInput_subqueries_valid_witness :
    validateInput twoDates "min `temperature_max`".toList true = some (true, []) ∧
    ∃ q' ∈ queries, q'.canSubQuery = true ∧
      (getArgs "min `temperature_max`".toList)[0]? = some q'.name ∧
      q'.name ∈ ["min".toList, "max".toList, "avg".toList, "value".toList] :=
  (validateInput_subqueries_valid twoDates).1
    "compare zip 66213 min `temperature_max`".toList
    compareZip
    [] (by decide) (by decide) (by decide) "min `temperature_max`".toList (by decide)

/-! ## Theorems: `split`, `join` and the scan of plain segments -/

theorem split_append (sep : Char) (a b : JSString) :
    split sep (a ++ sep :: b) = split sep a ++ split sep b := by
  induction a with
  | nil => simp [split]
  | cons c cs ih =>
    rw [List.cons_append]
    by_cases hc : c = sep
    · simp [split, hc, ih]
    · have h1 : split sep (c :: (cs ++ sep :: b))
          = match split sep (cs ++ sep :: b) with
            | [] => [[c]]
            | s :: ss => (c :: s) :: ss := by simp [split, hc]
      have h2 : split sep (c :: cs)
          = match split sep cs with
            | [] => [[c]]
            | s :: ss => (c :: s) :: ss := by simp [split, hc]
      rw [h1, h2, ih]
      cases h : split sep cs with
      | nil => exact absurd h (split_ne_nil sep cs)
      | cons s ss => rfl

theorem split_of_not_mem (sep : Char) (w : JSString) (h : sep ∉ w) : split sep w = [w] := by
  induction w with
  | nil => rfl
  | cons c cs ih =>
    have hc : c ≠ sep := fun hc => h (by simp [hc])
    have hcs : sep ∉ cs := fun hm => h (by simp [hm])
    simp [split, hc, ih hcs]

theorem not_mem_of_mem_split (sep : Char) (s : JSString) :
    ∀ seg ∈ split sep s, sep ∉ seg := by
  induction s with
  | nil => intro seg h; simp [split] at h; simp [h]
  | cons c cs ih =>
    intro seg h
    simp only [split] at h
    by_cases hc : c = sep
    · simp only [hc, if_true, List.mem_cons] at h
      rcases h with rfl | h
      · simp
      · exact ih seg h
    · simp only [hc, if_false] at h
      cases hs : split sep cs with
      | nil => exact absurd hs (split_ne_nil sep cs)
      | cons s ss =>
        rw [hs] at h ih
        simp only [List.mem_cons] at h
        rcases h with rfl | h
        · intro hm
          rcases List.mem_cons.1 hm with h1 | h1
          · exact hc h1.symm
          · exact ih s (by simp) h1
        · exact ih seg (by simp [h])

theorem split_join (sep : Char) (toks : List JSString) (hne : toks ≠ []) :
    split sep (join sep toks) = toks.flatMap (split sep) := by
  induction toks with
  | nil => exact absurd rfl hne
  | cons t rest ih =>
    cases rest with
    | nil => simp [join]
    | cons u us =>
      have := ih (by simp)
      simp only [join, split_append, List.flatMap_cons] at this ⊢
      rw [this]

theorem quoteAfter_false_of_not_startsWith {s : JSString} (h : startsWith s '"' = false) :
    quoteAfter false s = false := by
  simp [quoteAfter, h]

theorem scanFrom_plain (pre segs : List JSString)
    (h : ∀ s ∈ pre, quoteAfter false s = false) :
    scanFrom none (pre ++ segs) = pre ++ scanFrom none segs := by
  induction pre with
  | nil => rfl
  | cons s rest ih =>
    have hs := h s (by simp)
    rw [List.cons_append]
    simp only [scanFrom, hs]
    rw [ih (fun x hx => h x (by simp [hx]))]
    simp

/-! ## Theorems: tokenizing the joined tokens again -/

theorem reopens_first {s : JSString} (hs : ' ' ∉ s) (hq : quoteAfter false s = true) :
    Reopens s := by
  refine ⟨?_, fun rest => ?_⟩
  · rintro rfl
    simp [quoteAfter, startsWith, endsWith] at hq
  · rw [split_of_not_mem _ _ hs]
    simp [scanFrom, hq]

theorem reopens_next {cur s : JSString} (hcur : Reopens cur) (hs : ' ' ∉ s)
    (hq : quoteAfter true s = true) : Reopens (cur ++ ' ' :: s) := by
  refine ⟨by simp, fun rest => ?_⟩
  rw [split_append, split_of_not_mem _ _ hs, List.append_assoc, hcur.2]
  simp [scanFrom, hq]

theorem scanFrom_resplit (segs : List JSString) (hsegs : ∀ s ∈ segs, ' ' ∉ s) :
    ∀ st : Option JSString, (∀ cur, st = some cur → Reopens cur) →
      scanFrom none (((scanFrom st segs).filter (fun arg => arg ≠ [])).flatMap (split ' '))
        = (scanFrom st segs).filter (fun arg => arg ≠ []) := by
  induction segs with
  | nil =>
    intro st hst
    cases st with
    | none => simp [scanFrom]
    | some cur =>
      obtain ⟨hne, hre⟩ := hst cur rfl
      have := hre []
      simpa [scanFrom, hne] using this
  | cons s rest ih =>
    have hs : ' ' ∉ s := hsegs s (by simp)
    have ih' := ih (fun x hx => hsegs x (by simp [hx]))
    intro st hst
    cases st with
    | none =>
      simp only [scanFrom]
      cases hq : quoteAfter false s with
      | true =>
        simp only [if_true]
        exact ih' (some s) (fun cur hcur => by cases hcur; exact reopens_first hs hq)
      | false =>
        simp only [Bool.false_eq_true, if_false]
        by_cases hne : s = []
        · subst hne
          simpa using ih' none (fun cur hcur => by cases hcur)
        · have := ih' none (fun cur hcur => by cases hcur)
          rw [List.filter_cons_of_pos (by simpa using hne)]
          simp only [List.flatMap_cons, split_of_not_mem _ _ hs, List.singleton_append,
            scanFrom, hq, Bool.false_eq_true, if_false, this]
    | some cur =>
      have hcur := hst cur rfl
      simp only [scanFrom]
      cases hq : quoteAfter true s with
      | true =>
        simp only [if_true]
        exact ih' _ (fun c hc => by cases hc; exact reopens_next hcur hs hq)
      | false =>
        simp only [Bool.false_eq_true, if_false]
        have := ih' none (fun c hc => by cases hc)
        have hne : cur ++ ' ' :: s ≠ [] := by simp
        rw [List.filter_cons_of_pos (by simp)]
        simp only [List.flatMap_cons, split_append, split_of_not_mem _ _ hs,
          List.append_assoc, hcur.2, List.singleton_append, scanFrom, hq, Bool.false_eq_true,
          if_false, this]

/-- Tokenizing the space-joined tokens of a line gives the tokens of the line. -/
theorem getArgs_join_getArgs (x : JSString) : getArgs (join ' ' (getArgs x)) = getArgs x := by
  by_cases hne : getArgs x = []
  · rw [hne]; rfl
  · have h := scanFrom_resplit (split ' ' x) (not_mem_of_mem_split ' ' x) none
      (fun cur hcur => by cases hcur)
    rw [← getArgs_eq] at h
    rw [getArgs_eq (join ' ' (getArgs x)), split_join _ _ hne, h]
    simp [getArgs, List.filter_filter]

/-! ## Theorems: `validateInput` reads its line through `getArgs` only -/

theorem validateInputBody_congr (dateValues : List JSString)
    (f : JSString → Option Outcome) {l1 l2 : JSString} (isSubQuery : Bool)
    (h : getArgs l1 = getArgs l2) :
    validateInputBody dateValues f l1 isSubQuery = validateInputBody dateValues f l2 isSubQuery := by
  simp only [validateInputBody, firstSubQuery, secondSubQuery, subQueryInput, h]

theorem validateInput_congr (dateValues : List JSString) {l1 l2 : JSString}
    (isSubQuery : Bool) (h : getArgs l1 = getArgs l2) :
    validateInput dateValues l1 isSubQuery = validateInput dateValues l2 isSubQuery := by
  rw [validateInput_eq_body, validateInput_eq_body]
  exact validateInputBody_congr _ _ _ h

theorem validateInput_join_getArgs (dateValues : List JSString) (line : JSString)
    (isSubQuery : Bool) :
    validateInput dateValues (join ' ' (getArgs line)) isSubQuery
      = validateInput dateValues line isSubQuery :=
  validateInput_congr _ _ (getArgs_join_getArgs line)

theorem slice_append_left {α : Type} (pre rest : List α) :
    slice (pre ++ rest) (pre.length : Int) none = rest := by
  have h1 : ¬ ((pre.length : Int) < 0) := by omega
  have h2 : List.take (pre.length + rest.length) (pre ++ rest) = pre ++ rest := by
    rw [List.take_of_length_le]; simp
  simp [slice, sliceIndex, h1, h2]

theorem forEachArg_none_of_types {dateValues : List JSString} {b : Bool}
    {q : Option JSString} {params : List Param}
    (hp : ∀ p ∈ params, p.type = ParamType.enum ∨ p.type = ParamType.subquery)
    (args : List JSString) :
    ∀ idx, forEachArg dateValues b q params args idx = none := by
  induction args with
  | nil => intro idx; rfl
  | cons a rest ih =>
    intro idx
    simp only [forEachArg]
    cases hidx : params[idx]? with
    | none => exact ih _
    | some p =>
      have hmem : p ∈ params := List.getElem?_mem hidx
      have : checkArg dateValues b q p a = none := by
        unfold checkArg
        rcases hp p hmem with h | h <;> simp [h]
      simp only [this]
      exact ih _

theorem forEachArg_none_of_length {dateValues : List JSString} {b : Bool}
    {q : Option JSString} {params : List Param} (args : List JSString) :
    ∀ idx, params.length ≤ idx → forEachArg dateValues b q params args idx = none := by
  induction args with
  | nil => intro idx _; rfl
  | cons a rest ih =>
    intro idx hidx
    simp only [forEachArg]
    rw [List.getElem?_eq_none hidx]
    exact ih _ (by omega)

/-! ## Theorems: lines that start with plain tokens -/

theorem getArgs_cons_plain (w rest : JSString) (hne : w ≠ []) (hsp : ' ' ∉ w)
    (hq : startsWith w '"' = false) : getArgs (w ++ ' ' :: rest) = w :: getArgs rest := by
  rw [getArgs_eq, split_append, split_of_not_mem _ _ hsp, List.singleton_append]
  simp only [scanFrom, quoteAfter_false_of_not_startsWith hq, Bool.false_eq_true, if_false]
  rw [List.filter_cons_of_pos (by simpa using hne), getArgs_eq]

theorem startsWith_false_of_not_mem {w : JSString} {c : Char} (h : c ∉ w) :
    startsWith w c = false := by
  cases w with
  | nil => rfl
  | cons x xs =>
    have : x ≠ c := fun hx => h (by simp [hx])
    simp [startsWith, this]

theorem getArgs_compare_zip (z S : JSString) (hz : z ≠ []) (hsp : ' ' ∉ z) (hq : '"' ∉ z) :
    getArgs ("compare zip ".toList ++ z ++ ' ' :: S)
      = "compare".toList :: "zip".toList :: z :: getArgs S := by
  have : "compare zip ".toList ++ z ++ ' ' :: S
      = "compare".toList ++ ' ' :: ("zip".toList ++ ' ' :: (z ++ ' ' :: S)) := by simp
  rw [this, getArgs_cons_plain _ _ (by decide) (by decide) (by decide),
    getArgs_cons_plain _ _ (by decide) (by decide) (by decide),
    getArgs_cons_plain _ _ hz hsp (startsWith_false_of_not_mem hq)]

theorem find_compare_zip (rest : List JSString) :
    queries.find? (selects ("compare".toList :: "zip".toList :: rest) false)
      = some compareZip := by
  simp [queries, List.find?, selects, locationType, rangeParams, compareCoord,
    compareDataset, compareZip, compareCity, valueQuery]

theorem subQueryInput_compare_zip (z S : JSString) (hz : z ≠ []) (hsp : ' ' ∉ z)
    (hq : '"' ∉ z) :
    subQueryInput compareZip ("compare zip ".toList ++ z ++ ' ' :: S)
      = join ' ' (getArgs S) := by
  unfold subQueryInput
  rw [getArgs_compare_zip z S hz hsp hq]
  exact congrArg _ (slice_append_left ["compare".toList, "zip".toList, z] (getArgs S))

/-- The outcome of `validateInput` on `compare zip z S`. -/
theorem validateInput_compare_zip_eq (dateValues : List JSString) (z S : JSString)
    (hz : z ≠ []) (hsp : ' ' ∉ z) (hq : '"' ∉ z) (hS : getArgs S ≠ []) :
    validateInput dateValues ("compare zip ".toList ++ z ++ ' ' :: S) false
      = match validateInput dateValues S true with
        | none => none
        | some (false, errors) => some (false, errors)
        | some (true, errors) =>
          if (Number z).isNaN then
            some (false, errors ++ [.notNumber false (some "compare".toList) "zip code" z])
          else some (true, errors ++ []) := by
  have hargs := getArgs_compare_zip z S hz hsp hq
  obtain ⟨t, ts, hts⟩ := List.exists_cons_of_ne_nil hS
  rw [validateInput_eq_body]
  unfold validateInputBody
  dsimp only
  rw [hargs, find_compare_zip]
  dsimp only
  rw [subQueryInput_compare_zip z S hz hsp hq, validateInput_join_getArgs]
  have hslice1 : slice ("compare".toList :: "zip".toList :: z :: getArgs S) 1 none
      = "zip".toList :: z :: getArgs S :=
    slice_append_left ["compare".toList] ("zip".toList :: z :: getArgs S)
  rw [hslice1]
  have hfew : ¬ ((("compare".toList :: "zip".toList :: z :: getArgs S).length : Int) - 1
      < ((compareZip.params.filter (fun param => !param.optional)).length : Int)) := by
    rw [hts]
    simp [compareZip, locationType]
    omega
  have hlast : compareZip.params.getLast?.map (fun param => param.type)
      = some ParamType.subquery := by decide
  have htwo : ¬ ((compareZip.params.filter
      (fun param => param.type = ParamType.subquery)).length = 2) := by decide
  rw [if_neg hfew, if_pos hlast, if_neg htwo]
  have hcheck : forEachArg dateValues false
      ("compare".toList :: "zip".toList :: z :: getArgs S)[0]? compareZip.params
      ("zip".toList :: z :: getArgs S) 0
      = if (Number z).isNaN then
          some (.notNumber false (some "compare".toList) "zip code" z)
        else none := by
    rw [hts]
    simp only [forEachArg, compareZip, locationType, checkArg, List.getElem?_cons_zero,
      List.getElem?_cons_succ]
    cases hnan : (Number z).isNaN
    · simpa using forEachArg_none_of_length _ _ (by simp)
    · simp
  rw [hcheck]
  cases hsub : validateInput dateValues S true with
  | none => rfl
  | some o =>
    obtain ⟨r, e⟩ := o
    cases r
    · rfl
    · cases hnan : (Number z).isNaN <;> rfl

/-- C9: for a non-empty token `z` without a space or a double quote and a line `S` with at
least one token, `validateInput` on `compare zip z S` selects the `zip` overload of
`compare`, validates as its one sub-query line the tokens of `S` (the tokens of the line
from the fourth on), which it accepts exactly when it accepts `S`, and returns `true` if
and only if `Number(z)` is not `NaN` and `validateInput(S, true)` returns `true`. -/
theorem validateInput_compare_zip (dateValues : List JSString) (z S : JSString)
    (hz : z ≠ []) (hsp : ' ' ∉ z) (hq : '"' ∉ z) (hS : getArgs S ≠ []) :
    queries.find? (selects (getArgs ("compare zip ".toList ++ z ++ ' ' :: S)) false)
      = some compareZip ∧
    getArgs ("compare zip ".toList ++ z ++ ' ' :: S)
      = "compare".toList :: "zip".toList :: z :: getArgs S ∧
    subQueryLines compareZip ("compare zip ".toList ++ z ++ ' ' :: S)
      = [join ' ' (getArgs S)] ∧
    validateInput dateValues (join ' ' (getArgs S)) true = validateInput dateValues S true ∧
    ((validateInput dateValues ("compare zip ".toList ++ z ++ ' ' :: S) false).map Prod.fst
        = some true ↔
      ((Number z).isNaN = false ∧
        (validateInput dateValues S true).map Prod.fst = some true)) := by
  refine ⟨?_, getArgs_compare_zip z S hz hsp hq, ?_, validateInput_join_getArgs _ _ _, ?_⟩
  · rw [getArgs_compare_zip z S hz hsp hq, find_compare_zip]
  · have htwo : ¬ ((compareZip.params.filter
        (fun param => param.type = ParamType.subquery)).length = 2) := by decide
    rw [subQueryLines, if_neg htwo, subQueryInput_compare_zip z S hz hsp hq]
  · rw [validateInput_compare_zip_eq dateValues z S hz hsp hq hS]
    cases hsub : validateInput dateValues S true with
    | none => simp
    | some o =>
      obtain ⟨r, e⟩ := o
      cases r
      · simp
      · cases hnan : (Number z).isNaN <;> simp

/-- Witness for C9: the line `compare zip 66213 min <row>` is accepted. -/
theorem validateInput_compare_zip_witness :
    (validateInput twoDates
      ("compare zip ".toList ++ "66213".toList ++ ' ' :: "min `temperature_max`".toList)
      false).map Prod.fst = some true :=
  (validateInput_compare_zip twoDates "66213".toList "min `temperature_max`".toList
    (by decide) (by decide) (by decide) (by decide)).2.2.2.2.2 ⟨by decide, by decide⟩

/-! ## Theorems: `String(n)` -/

theorem toDigitsCore_append (b : Nat) (f : Nat) :
    ∀ (n : Nat) (ds : List Char),
      Nat.toDigitsCore b f n ds = Nat.toDigitsCore b f n [] ++ ds := by
  induction f with
  | zero => intro n ds; simp [Nat.toDigitsCore]
  | succ f ih =>
    intro n ds
    simp only [Nat.toDigitsCore]
    split
    · simp
    · rw [ih _ (_ :: ds), ih _ [_]]
      simp

theorem toDigitsCore_fuel (b : Nat) (hb : 2 ≤ b) (f : Nat) :
    ∀ (n f' : Nat), n < f → n < f' →
      Nat.toDigitsCore b f n [] = Nat.toDigitsCore b f' n [] := by
  induction f with
  | zero => intro n f' h; omega
  | succ f ih =>
    intro n f' h h'
    cases f' with
    | zero => omega
    | succ f' =>
      simp only [Nat.toDigitsCore]
      split
      · rfl
      · rename_i hdiv
        have hn : n / b < n := Nat.div_lt_self (by
          rcases Nat.eq_zero_or_pos n with h0 | h0
          · simp [h0] at hdiv
          · exact h0) hb
        rw [toDigitsCore_append b f, toDigitsCore_append b f',
          ih (n / b) f' (by omega) (by omega)]

theorem natToString_eq (n : Nat) :
    natToString n = if n < 10 then [Nat.digitChar n]
      else natToString (n / 10) ++ [Nat.digitChar (n % 10)] := by
  have h1 : natToString n
      = if n / 10 = 0 then [Nat.digitChar (n % 10)]
        else Nat.toDigitsCore 10 n (n / 10) [Nat.digitChar (n % 10)] := rfl
  have h2 : natToString (n / 10) = Nat.toDigitsCore 10 (n / 10 + 1) (n / 10) [] := rfl
  rw [h1, h2]
  by_cases h : n < 10
  · simp [h, Nat.div_eq_of_lt h, Nat.mod_eq_of_lt h]
  · have hdiv : n / 10 ≠ 0 := by omega
    rw [if_neg hdiv, if_neg h, toDigitsCore_append 10 n,
      toDigitsCore_fuel 10 (by decide) n (n / 10) (n / 10 + 1) (by omega) (by omega)]

theorem digitChar_isDigit : ∀ k < 10, (Nat.digitChar k).isDigit = true := by decide

theorem natToString_isDigit (n : Nat) : ∀ c ∈ natToString n, c.isDigit = true := by
  induction n using Nat.strong_induction_on with
  | _ n ih =>
    rw [natToString_eq]
    by_cases h : n < 10
    · simp only [h, if_true, List.mem_singleton]
      rintro c rfl
      exact digitChar_isDigit n h
    · simp only [h, if_false, List.mem_append, List.mem_singleton]
      rintro c (hc | rfl)
      · exact ih (n / 10) (by omega) c hc
      · exact digitChar_isDigit _ (Nat.mod_lt _ (by decide))

theorem natToString_length_pos (n : Nat) : 0 < (natToString n).length := by
  rw [natToString_eq]; split <;> simp

theorem natToString_length_le (k : Nat) :
    ∀ n, (natToString n).length ≤ k + 1 ↔ n < 10 ^ (k + 1) := by
  induction k with
  | zero =>
    intro n
    rw [natToString_eq]
    by_cases h : n < 10
    · simp [h]
    · have := natToString_length_pos (n / 10)
      rw [if_neg h, List.length_append, List.length_singleton]
      constructor
      · intro h'; omega
      · intro h'; simp at h'; omega
  | succ k ih =>
    intro n
    rw [natToString_eq]
    by_cases h : n < 10
    · have : n < 10 ^ (k + 1 + 1) := by
        calc n < 10 := h
          _ = 10 ^ 1 := by norm_num
          _ ≤ 10 ^ (k + 1 + 1) := Nat.pow_le_pow_right (by decide) (by omega)
      simp [h, this]
    · rw [if_neg h, List.length_append, List.length_singleton, Nat.add_le_add_iff_right,
        ih (n / 10), Nat.div_lt_iff_lt_mul (by decide), ← Nat.pow_succ]

theorem number_natToString_small :
    ∀ n < 100, Number (natToString n) = .finite false n 0 ∧
      (jsLength (natToString n) = 1 ∨ jsLength (natToString n) = 2) := by
  decide

theorem toNat_lt_of_isDigit {c : Char} (h : c.isDigit = true) : c.toNat < 65536 := by
  simp only [Char.isDigit, Bool.and_eq_true, decide_eq_true_eq] at h
  have h2 : c.val.toNat ≤ (57 : UInt32).toNat := h.2
  have : c.toNat = c.val.toNat := rfl
  rw [this]
  have : (57 : UInt32).toNat = 57 := rfl
  omega

theorem jsLength_of_isDigit (s : JSString) (h : ∀ c ∈ s, c.isDigit = true) :
    jsLength s = s.length := by
  induction s with
  | nil => rfl
  | cons c cs ih =>
    have hc := toNat_lt_of_isDigit (h c (by simp))
    simp only [jsLength, hc, if_true, List.length_cons, ih (fun x hx => h x (by simp [hx]))]
    omega

theorem isISODate_of_isDigit (s : JSString) (h : ∀ c ∈ s, c.isDigit = true) :
    isISODate s = false := by
  unfold isISODate
  split
  · rename_i y1 y2 y3 y4 d1 m1 m2 d2 t1 t2
    have hd : d1.isDigit = true := h d1 (by simp)
    have : d1 ≠ '-' := by
      rintro rfl
      exact absurd hd (by decide)
    simp [this]
  · rfl

theorem not_mem_of_isDigit {s : JSString} (h : ∀ c ∈ s, c.isDigit = true) {x : Char}
    (hx : x.isDigit = false) : x ∉ s := by
  intro hmem
  rw [h x hmem] at hx
  cases hx

theorem getArgs_plain (w : JSString) (hne : w ≠ []) (hsp : ' ' ∉ w)
    (hq : startsWith w '"' = false) : getArgs w = [w] := by
  rw [getArgs_eq, split_of_not_mem _ _ hsp]
  simp only [scanFrom, quoteAfter_false_of_not_startsWith hq, Bool.false_eq_true, if_false]
  rw [List.filter_cons_of_pos (by simpa using hne)]
  rfl

theorem getArgs_value_line (w : JSString) (hne : w ≠ []) (hsp : ' ' ∉ w)
    (hq : startsWith w '"' = false) :
    getArgs ("value `weather_code` ".toList ++ w)
      = ["value".toList, "`weather_code`".toList, w] := by
  have : "value `weather_code` ".toList ++ w
      = "value".toList ++ ' ' :: ("`weather_code`".toList ++ ' ' :: w) := by simp
  rw [this, getArgs_cons_plain _ _ (by decide) (by decide) (by decide),
    getArgs_cons_plain _ _ (by decide) (by decide) (by decide), getArgs_plain w hne hsp hq]

/-- The outcome of `validateInput` on `value <row> w` is decided by the date check of `w`. -/
theorem validateInput_value_line (dateValues : List JSString) (w : JSString) (hne : w ≠ [])
    (hsp : ' ' ∉ w) (hq : startsWith w '"' = false) :
    validateInput dateValues ("value `weather_code` ".toList ++ w) false
      = match checkDate dateValues false (some "value".toList) "day" w with
        | some d => some (false, [d])
        | none => some (true, []) := by
  rw [validateInput_eq_body]
  unfold validateInputBody
  dsimp only
  rw [getArgs_value_line w hne hsp hq]
  have hfind : queries.find?
      (selects ["value".toList, "`weather_code`".toList, w] false) = some valueQuery := by
    simp [queries, List.find?, selects, valueQuery]
  rw [hfind]
  dsimp only
  have hslice : slice ["value".toList, "`weather_code`".toList, w] 1 none
      = ["`weather_code`".toList, w] :=
    slice_append_left ["value".toList] ["`weather_code`".toList, w]
  rw [hslice]
  have hfew : ¬ (((["value".toList, "`weather_code`".toList, w].length : Int) - 1
      < ((valueQuery.params.filter (fun param => !param.optional)).length : Int))) := by
    simp [valueQuery]
  have hlast : ¬ ((valueQuery.params.getLast?.map (fun param => param.type))
      = some ParamType.subquery) := by
    decide
  have hmany : ¬ (((["value".toList, "`weather_code`".toList, w].length : Int) - 1
      > (valueQuery.params.length : Int))) := by
    simp [valueQuery]
  rw [if_neg hfew, if_neg hlast, if_neg hmany]
  have hcheck : forEachArg dateValues false
      ["value".toList, "`weather_code`".toList, w][0]? valueQuery.params
      ["`weather_code`".toList, w] 0
      = checkDate dateValues false (some "value".toList) "day" w := by
    have hrow : checkArg dateValues false (some "value".toList)
        { name := "row", type := .row, optional := false, value := none }
        "`weather_code`".toList = none := rfl
    simp only [forEachArg, valueQuery, List.getElem?_cons_zero, List.getElem?_cons_succ, hrow]
    simp only [checkArg]
    cases checkDate dateValues false (some "value".toList) "day" w <;> rfl
  rw [hcheck]
  cases checkDate dateValues false (some "value".toList) "day" w <;> rfl

/-- C8, as the claim states it, fails: with a dataset of 100 dates the token `100` has
three characters, and the diagnostic is the one about the length of a date, not the one
about a date index out of range. -/
theorem dateIndexOutOfRange_counterexample :
    validateInput (List.replicate 100 "2024-04-24".toList)
        ("value `weather_code` ".toList
          ++ natToString (List.replicate 100 "2024-04-24".toList).length) false
      = some (false, [.dateBadLength false (some "value".toList) "day" "100".toList 3]) ∧
    ¬ ∃ query param arg length,
      validateInput (List.replicate 100 "2024-04-24".toList)
        ("value `weather_code` ".toList
          ++ natToString (List.replicate 100 "2024-04-24".toList).length) false
      = some (false, [.dateIndexOutOfRange false query param arg length]) := by
  have h : validateInput (List.replicate 100 "2024-04-24".toList)
        ("value `weather_code` ".toList
          ++ natToString (List.replicate 100 "2024-04-24".toList).length) false
      = some (false, [.dateBadLength false (some "value".toList) "day" "100".toList 3]) := by
    decide
  refine ⟨h, ?_⟩
  rintro ⟨query, param, arg, length, h'⟩
  rw [h] at h'
  simp at h'

/-- C8, amended: for every dataset, of length `N`, the line `value <row> String(N)` is
rejected with exactly one diagnostic: the one about a date index out of range when
`N < 100`, the one about the format `YYYY-MM-DD` when `String(N)` has ten digits, and the
one about the length of a date otherwise. -/
theorem validateInput_value_length (dateValues : List JSString) :
    validateInput dateValues
        ("value `weather_code` ".toList ++ natToString dateValues.length) false
      = some (false,
          [ if dateValues.length < 100 then
              .dateIndexOutOfRange false (some "value".toList) "day"
                (natToString dateValues.length) dateValues.length
            else if 10 ^ 9 ≤ dateValues.length ∧ dateValues.length < 10 ^ 10 then
              .dateNotISO false (some "value".toList) "day" (natToString dateValues.length)
            else
              .dateBadLength false (some "value".toList) "day"
                (natToString dateValues.length) (natToString dateValues.length).length ]) := by
  generalize hN : dateValues.length = N
  have hdig := natToString_isDigit N
  have hne : natToString N ≠ [] := List.ne_nil_of_length_pos (natToString_length_pos N)
  have hsp : ' ' ∉ natToString N := not_mem_of_isDigit hdig (by decide)
  have hq : startsWith (natToString N) '"' = false :=
    startsWith_false_of_not_mem (not_mem_of_isDigit hdig (by decide))
  rw [validateInput_value_line dateValues _ hne hsp hq]
  unfold checkDate
  rw [hN]
  by_cases h : N < 100
  · obtain ⟨hnum, hlen⟩ := number_natToString_small N h
    have hrange : (!((Number (natToString N)).gtInt (-1 * (N : Int)) &&
        (Number (natToString N)).ltInt (N : Int))) = true := by
      rw [hnum]
      simp [JSNumber.gtInt, JSNumber.ltInt]
    rw [if_pos hlen, hnum, if_pos h]
    rw [hnum] at hrange
    simp only [JSNumber.isNaN, Bool.false_eq_true, if_false, hrange, if_true]
  · have hjs := jsLength_of_isDigit _ hdig
    have h2 : ¬ ((natToString N).length ≤ 1 + 1) := by
      rw [natToString_length_le 1]; exact h
    have hlen : ¬ (jsLength (natToString N) = 1 ∨ jsLength (natToString N) = 2) := by
      rw [hjs]; omega
    have h9 := natToString_length_le 8 N
    have h10 := natToString_length_le 9 N
    rw [if_neg hlen, if_neg h, hjs]
    by_cases hten : (natToString N).length = 10
    · have hcond : 10 ^ 9 ≤ N ∧ N < 10 ^ 10 := by
        constructor
        · by_contra hc
          have := h9.2 (by omega)
          omega
        · exact h10.1 (by omega)
      rw [if_pos hten, if_pos hcond, isISODate_of_isDigit _ hdig]
      rfl
    · have hcond : ¬ (10 ^ 9 ≤ N ∧ N < 10 ^ 10) := by
        rintro ⟨hc1, hc2⟩
        have := h10.2 hc2
        have : ¬ ((natToString N).length ≤ 8 + 1) := fun hc => by
          have := h9.1 hc
          omega
        omega
      rw [if_neg hten, if_neg hcond]

/-! ## Evaluations at the inputs on which the code departs from its documentation -/

/-- C1: on a quoted span that starts with a space the tokenizer does not keep the span as
one token.  The segment that is the opening quote alone both starts and ends with a double
quote, so it leaves `quoteOpen` false, and the words of the span become tokens of their
own; the `city` overload of `compare` then rejects the line. -/
theorem getArgs_quoted_span_leading_space :
    getArgs "value `temperature_max` \" Kansas City\"".toList
      = ["value".toList, "`temperature_max`".toList, "\"".toList, "Kansas".toList,
          "City\"".toList] ∧
    getArgs "value `temperature_max` \"Kansas City\"".toList
      = ["value".toList, "`temperature_max`".toList, "\"Kansas City\"".toList] ∧
    validateInput twoDates "compare city \"Kansas City\" min `temperature_max`".toList false
      = some (true, []) ∧
    validateInput twoDates "compare city \" Kansas City\" min `temperature_max`".toList false
      = some (false, [.unknownQuery true (some "Kansas".toList)]) := by
  decide

/-- C7: with a dataset of one date the index `-1` denotes its last (and only) record, and
`validateInput` rejects `value <row> -1` as out of range: the lower bound of the check is
strict, so the index `-N` of a dataset of `N` dates is refused. -/
theorem validateInput_date_index_minus_length :
    validateInput ["2024-04-24".toList] "value `weather_code` -1".toList false
      = some (false,
          [.dateIndexOutOfRange false (some "value".toList) "day" "-1".toList 1]) ∧
    validateInput twoDates "value `weather_code` -1".toList false = some (true, []) ∧
    validateInput twoDates "value `weather_code` -2".toList false
      = some (false,
          [.dateIndexOutOfRange false (some "value".toList) "day" "-2".toList 2]) := by
  decide

/-! ## Theorems: the tokens of an accepted sub-query line -/

theorem trimEnd_cons_of_not_ws (c : Char) (r : JSString) (hc : isStrWhiteSpaceChar c = false) :
    ∃ r', trimEnd (c :: r) = c :: r' := by
  simp only [trimEnd]
  cases trimEnd r with
  | nil => exact ⟨[], by simp [hc]⟩
  | cons x xs => exact ⟨x :: xs, rfl⟩

theorem number_quote (r : JSString) : Number ('"' :: r) = .nan := by
  have hws : isStrWhiteSpaceChar '"' = false := by decide
  obtain ⟨r', hr'⟩ := trimEnd_cons_of_not_ws '"' r hws
  have htrim : trim ('"' :: r) = '"' :: r' := by
    simp only [trim, List.dropWhile, hws]
    exact hr'
  have hdig : (digitValue 10 '"').isSome = false := by decide
  have hnd : parseNonDecimal ('"' :: r') = none := by
    cases r' with
    | nil => rfl
    | cons m ds => simp [parseNonDecimal]
  have hinf : ¬ ('"' :: r' = "Infinity".toList) := by
    intro h
    have := (List.cons.inj h).1
    exact absurd this (by decide)
  unfold Number
  simp only [htrim]
  rw [if_neg (by simp), parseStrNumericLiteral, hnd]
  simp only
  rw [if_neg (by decide), if_neg (by decide), parseUnsignedDecimal, if_neg hinf]
  simp [List.takeWhile, List.dropWhile, hdig]

theorem isQueryName_props {t : JSString} (h : isQueryName t = true) :
    3 ≤ jsLength t ∧ jsLength t ≤ 9 ∧ startsWith t '"' = false ∧
      startsWith t '`' = false := by
  unfold isQueryName at h
  rw [List.find?_isSome] at h
  obtain ⟨q, hq, hname⟩ := h
  have hname' : q.name = t := by simpa using hname
  subst hname'
  simp only [queries, List.mem_cons, List.mem_singleton, List.not_mem_nil, or_false] at hq
  rcases hq with rfl | rfl | rfl | rfl | rfl | rfl | rfl | rfl | rfl | rfl | rfl | rfl | rfl <;>
    decide

theorem isISODate_quote (r : JSString) : isISODate ('"' :: r) = false := by
  have hd : ('"' : Char).isDigit = false := by decide
  match r with
  | [y2, y3, y4, d1, m1, m2, d2, t1, t2] => simp [isISODate, hd]
  | [] | [_] | [_, _] | [_, _, _] | [_, _, _, _] | [_, _, _, _, _] | [_, _, _, _, _, _]
  | [_, _, _, _, _, _, _] | [_, _, _, _, _, _, _, _] => rfl
  | _ :: _ :: _ :: _ :: _ :: _ :: _ :: _ :: _ :: _ :: _ => rfl

theorem checkDate_pass {dateValues : List JSString} {b : Bool} {q : Option JSString}
    {p : String} {t : JSString} (h : checkDate dateValues b q p t = none) :
    startsWith t '"' = false ∧ isQueryName t = false := by
  have hname : isQueryName t = true → 3 ≤ jsLength t ∧ jsLength t ≤ 9 :=
    fun hq => ⟨(isQueryName_props hq).1, (isQueryName_props hq).2.1⟩
  unfold checkDate at h
  split at h
  · rename_i hlen
    split at h
    · cases h
    · rename_i hnan
      constructor
      · cases t with
        | nil => rfl
        | cons c r =>
          by_cases hc : c = '"'
          · subst hc
            rw [number_quote] at hnan
            exact absurd rfl hnan
          · simp [startsWith, hc]
      · cases hq : isQueryName t with
        | false => rfl
        | true =>
          have := hname hq
          omega
  · split at h
    · rename_i hlen
      split at h
      · cases h
      · rename_i hiso
        constructor
        · cases t with
          | nil => rfl
          | cons c r =>
            by_cases hc : c = '"'
            · subst hc
              rw [isISODate_quote] at hiso
              simp at hiso
            · simp [startsWith, hc]
        · cases hq : isQueryName t with
          | false => rfl
          | true =>
            have := hname hq
            omega
    · cases h

theorem checkArg_row_pass {dateValues : List JSString} {b : Bool} {q : Option JSString}
    {p : Param} {t : JSString} (hp : p.type = ParamType.row)
    (h : checkArg dateValues b q p t = none) :
    startsWith t '"' = false ∧ isQueryName t = false := by
  unfold checkArg at h
  rw [hp] at h
  simp only at h
  split at h
  · cases h
  · rename_i hrow
    simp only [Bool.or_eq_true, Bool.not_eq_true', not_or, Bool.not_eq_false] at hrow
    have hbt : startsWith t '`' = true := hrow.1
    constructor
    · cases t with
      | nil => simp [startsWith] at hbt
      | cons c r =>
        simp only [startsWith, beq_iff_eq] at hbt
        subst hbt
        rfl
    · cases hq : isQueryName t with
      | false => rfl
      | true =>
        have := (isQueryName_props hq).2.2.2
        rw [hbt] at this
        cases this

theorem checkArg_pass {dateValues : List JSString} {b : Bool} {q : Option JSString}
    {p : Param} {t : JSString} (hp : p.type = ParamType.row ∨ p.type = ParamType.date)
    (h : checkArg dateValues b q p t = none) :
    startsWith t '"' = false ∧ isQueryName t = false := by
  rcases hp with hp | hp
  · exact checkArg_row_pass hp h
  · unfold checkArg at h
    rw [hp] at h
    exact checkDate_pass h

theorem canSubQuery_param_types :
    ∀ q ∈ queries, q.canSubQuery = true →
      ∀ p ∈ q.params, p.type = ParamType.row ∨ p.type = ParamType.date := by
  decide

theorem forEachArg_none_pass {dateValues : List JSString} {b : Bool} {q : Option JSString}
    {params : List Param} (args : List JSString) :
    ∀ idx, forEachArg dateValues b q params args idx = none →
      ∀ (j : Nat) (t : JSString) (p : Param), args[j]? = some t → params[idx + j]? = some p →
        checkArg dateValues b q p t = none := by
  induction args with
  | nil => intro idx _ j t p ht; simp at ht
  | cons a rest ih =>
    intro idx h j t p ht hp
    simp only [forEachArg] at h
    cases j with
    | zero =>
      simp only [List.getElem?_cons_zero, Option.some.injEq] at ht
      subst ht
      rw [Nat.add_zero] at hp
      rw [hp] at h
      simp only at h
      split at h
      · cases h
      · assumption
    | succ j =>
      simp only [List.getElem?_cons_succ] at ht
      have hp' : params[idx + 1 + j]? = some p := by
        rw [← hp]; congr 1; omega
      cases hidx : params[idx]? with
      | none =>
        rw [hidx] at h
        exact ih _ h j t p ht hp'
      | some p0 =>
        rw [hidx] at h
        simp only at h
        split at h
        · cases h
        · exact ih _ h j t p ht hp'

/-- The tokens of a line that `validateInput` accepts as a sub-query: the name of a query
first, then tokens that are no query name; none of them starts with a double quote. -/
theorem validateInput_sub_tokens {dateValues : List JSString} {A : JSString}
    (h : (validateInput dateValues A true).map Prod.fst = some true) :
    ∃ cmd rest, getArgs A = cmd :: rest ∧ isQueryName cmd = true ∧
      ∀ t ∈ rest, startsWith t '"' = false ∧ isQueryName t = false := by
  obtain ⟨r, errs, hv, hc⟩ := validateInput_sub_some dateValues A
  rw [hv] at h
  simp only [Option.map_some', Option.some.injEq] at h
  subst h
  obtain ⟨q, hq⟩ := validateInput_accept_found hv
  have hmem := List.mem_of_find?_eq_some hq
  have hsel := (selects_iff _ _ _).1 (List.find?_some hq)
  have hcan : q.canSubQuery = true := hsel.2.1 rfl
  have hlast := canSubQuery_no_subquery q hmem hcan
  cases hargs : getArgs A with
  | nil => rw [hargs] at hsel; simp at hsel
  | cons cmd rest =>
    have hcmd : cmd = q.name := by
      have := hsel.1
      rw [hargs] at this
      simpa using this
    refine ⟨cmd, rest, rfl, ?_, ?_⟩
    · unfold isQueryName
      rw [List.find?_isSome]
      exact ⟨q, hmem, by simp [hcmd]⟩
    · by_cases hfew : ((getArgs A).length : Int) - 1
          < ((q.params.filter (fun param => !param.optional)).length : Int)
      · rw [validateInput_tooFew hq hfew] at hv
        simp at hv
      rw [validateInput_eq_body] at hv
      unfold validateInputBody at hv
      dsimp only at hv
      rw [hq] at hv
      simp only [hfew, hlast, if_false] at hv
      split at hv
      · simp at hv
      · rename_i hmany
        have hslice : slice (getArgs A) 1 none = rest := by
          rw [hargs]
          exact slice_append_left [cmd] rest
        rw [hslice] at hv
        cases hfe : forEachArg dateValues true (getArgs A)[0]? q.params rest 0 with
        | some d =>
          rw [hfe] at hv
          simp at hv
        | none =>
          intro t ht
          obtain ⟨j, hj⟩ := List.getElem?_of_mem ht
          have hjlt : j < rest.length := by
            by_contra hge
            rw [List.getElem?_eq_none (by omega)] at hj
            cases hj
          have hlen : rest.length ≤ q.params.length := by
            rw [hargs] at hmany
            simp only [List.length_cons, Nat.cast_add, Nat.cast_one] at hmany
            omega
          have hjp : j < q.params.length := by omega
          have hp : q.params[0 + j]? = some q.params[j] := by
            rw [Nat.zero_add]
            exact List.getElem?_eq_getElem hjp
          exact checkArg_pass
            (canSubQuery_param_types q hmem hcan _ (List.getElem_mem _))
            (forEachArg_none_pass rest 0 hfe j t _ hj hp)

/-! ## Theorems: lines whose tokens do not start with a double quote -/

theorem startsWith_of_quoteAfter {s : JSString} (h : quoteAfter false s = true) :
    startsWith s '"' = true := by
  cases hs : startsWith s '"' with
  | true => rfl
  | false => rw [quoteAfter_false_of_not_startsWith hs] at h; cases h

theorem startsWith_append {cur : JSString} {c : Char} (x : JSString)
    (h : startsWith cur c = true) : startsWith (cur ++ x) c = true := by
  cases cur with
  | nil => simp [startsWith] at h
  | cons a r => simpa [startsWith] using h

theorem scanFrom_some_startsWith (segs : List JSString) :
    ∀ cur : JSString, startsWith cur '"' = true →
      ∃ t ∈ scanFrom (some cur) segs, t ≠ [] ∧ startsWith t '"' = true := by
  induction segs with
  | nil =>
    intro cur h
    refine ⟨cur, by simp [scanFrom], ?_, h⟩
    rintro rfl
    simp [startsWith] at h
  | cons s rest ih =>
    intro cur h
    have h' : startsWith (cur ++ ' ' :: s) '"' = true := startsWith_append _ h
    simp only [scanFrom]
    split
    · exact ih _ h'
    · exact ⟨cur ++ ' ' :: s, by simp, by simp, h'⟩

/-- When no token of a line starts with a double quote, `quoteOpen` is never set: the
tokens are the non-empty segments, and no segment starts with a double quote. -/
theorem scanFrom_of_no_quote (segs : List JSString)
    (h : ∀ t ∈ (scanFrom none segs).filter (fun arg => arg ≠ []), startsWith t '"' = false) :
    scanFrom none segs = segs ∧ ∀ s ∈ segs, startsWith s '"' = false := by
  induction segs with
  | nil => exact ⟨rfl, by simp⟩
  | cons s rest ih =>
    cases hq : quoteAfter false s with
    | true =>
      exfalso
      obtain ⟨t, ht, hne, hst⟩ := scanFrom_some_startsWith rest s (startsWith_of_quoteAfter hq)
      have hmem : t ∈ (scanFrom none (s :: rest)).filter (fun arg => arg ≠ []) := by
        simp only [scanFrom, hq, if_true]
        simp [List.mem_filter, ht, hne]
      rw [h t hmem] at hst
      cases hst
    | false =>
      have hscan : scanFrom none (s :: rest) = s :: scanFrom none rest := by
        simp [scanFrom, hq]
      rw [hscan] at h
      have hrest := ih (fun t ht => h t (by
        simp only [List.mem_filter, List.mem_cons] at ht ⊢
        exact ⟨Or.inr ht.1, ht.2⟩))
      have hs : startsWith s '"' = false := by
        by_cases hne : s = []
        · subst hne; rfl
        · exact h s (by simp [List.mem_filter, hne])
      refine ⟨by rw [hscan, hrest.1], ?_⟩
      intro x hx
      rcases List.mem_cons.1 hx with rfl | hx
      · exact hs
      · exact hrest.2 x hx

theorem getArgs_append_of_plain (A B : JSString)
    (h : ∀ s ∈ split ' ' A, startsWith s '"' = false) :
    getArgs (A ++ ' ' :: B) = getArgs A ++ getArgs B := by
  have hplain : ∀ s ∈ split ' ' A, quoteAfter false s = false :=
    fun s hs => quoteAfter_false_of_not_startsWith (h s hs)
  have hA := scanFrom_plain (split ' ' A) [] hplain
  simp only [List.append_nil, scanFrom] at hA
  rw [getArgs_eq, getArgs_eq A, getArgs_eq B, split_append,
    scanFrom_plain _ _ hplain, List.filter_append, hA]

theorem findLastIndex_none {α : Type} (p : α → Bool) (xs : List α)
    (h : ∀ x ∈ xs, p x = false) : findLastIndex p xs = -1 := by
  induction xs with
  | nil => rfl
  | cons x rest ih =>
    simp only [findLastIndex, ih (fun y hy => h y (by simp [hy])), h x (by simp)]
    simp

theorem findLastIndex_append {α : Type} (p : α → Bool) (pre : List α) (x : α)
    (post : List α) (hx : p x = true) (h : ∀ y ∈ post, p y = false) :
    findLastIndex p (pre ++ x :: post) = (pre.length : Int) := by
  induction pre with
  | nil =>
    simp only [List.nil_append, findLastIndex, findLastIndex_none p post h, hx]
    simp
  | cons a rest ih =>
    have : (0 : Int) ≤ (rest.length : Int) := by omega
    rw [List.cons_append]
    simp only [findLastIndex]
    rw [ih]
    simp [this]

theorem slice_middle {α : Type} (pre mid post : List α) :
    slice (pre ++ mid ++ post) (pre.length : Int)
      (some ((pre.length : Int) + (mid.length : Int))) = mid := by
  have h1 : ¬ ((pre.length : Int) < 0) := by omega
  have h2 : ¬ ((pre.length : Int) + (mid.length : Int) < 0) := by omega
  have h3 : ((pre.length : Int) + (mid.length : Int)).toNat = pre.length + mid.length := by
    omega
  simp only [slice, sliceIndex, h1, h2, if_false, h3, Int.toNat_ofNat, List.length_append]
  rw [Nat.min_eq_left (by omega), Nat.min_eq_left (by omega), List.take_append_of_le_length
    (by simp), List.take_of_length_le (by simp), List.drop_left' rfl]

/-! ## Theorems: `compare dataset` -/

theorem validateInput_sub_true {dateValues : List JSString} {A : JSString}
    (h : (validateInput dateValues A true).map Prod.fst = some true) :
    validateInput dateValues A true = some (true, []) := by
  obtain ⟨r, errs, hv, hc⟩ := validateInput_sub_some dateValues A
  rw [hv] at h
  simp only [Option.map_some', Option.some.injEq] at h
  subst h
  rcases hc with ⟨_, rfl⟩ | ⟨hr, _⟩
  · exact hv
  · cases hr

theorem split_no_quote_of_sub {dateValues : List JSString} {A : JSString}
    (h : (validateInput dateValues A true).map Prod.fst = some true) :
    ∀ s ∈ split ' ' A, startsWith s '"' = false := by
  obtain ⟨cmd, rest, hargs, hcmd, hrest⟩ := validateInput_sub_tokens h
  refine (scanFrom_of_no_quote (split ' ' A) ?_).2
  rw [← getArgs_eq, hargs]
  intro t ht
  rcases List.mem_cons.1 ht with rfl | ht
  · exact (isQueryName_props hcmd).2.2.1
  · exact (hrest t ht).1

theorem getArgs_compare_dataset {dateValues : List JSString} {A : JSString} (B : JSString)
    (hA : (validateInput dateValues A true).map Prod.fst = some true) :
    getArgs ("compare dataset ".toList ++ A ++ ' ' :: B)
      = ["compare".toList, "dataset".toList] ++ getArgs A ++ getArgs B := by
  have : "compare dataset ".toList ++ A ++ ' ' :: B
      = "compare".toList ++ ' ' :: ("dataset".toList ++ ' ' :: (A ++ ' ' :: B)) := by simp
  rw [this, getArgs_cons_plain _ _ (by decide) (by decide) (by decide),
    getArgs_cons_plain _ _ (by decide) (by decide) (by decide),
    getArgs_append_of_plain A B (split_no_quote_of_sub hA)]
  rfl

theorem find_compare_dataset (rest : List JSString) :
    queries.find? (selects ("compare".toList :: "dataset".toList :: rest) false)
      = some compareDataset := by
  simp [queries, List.find?, selects, locationType, rangeParams, compareCoord,
    compareDataset, compareZip, compareCity, valueQuery]

theorem findLastIndex_compare_dataset {dateValues : List JSString} {A B : JSString}
    (hA : (validateInput dateValues A true).map Prod.fst = some true)
    (hB : (validateInput dateValues B true).map Prod.fst = some true) :
    findLastIndex isQueryName (getArgs ("compare dataset ".toList ++ A ++ ' ' :: B))
      = ((["compare".toList, "dataset".toList] ++ getArgs A).length : Int) := by
  obtain ⟨cmd, rest, hargs, hcmd, hrest⟩ := validateInput_sub_tokens hB
  rw [getArgs_compare_dataset B hA, hargs]
  exact findLastIndex_append _ _ _ _ hcmd (fun y hy => (hrest y hy).2)

theorem firstSubQuery_compare_dataset {dateValues : List JSString} {A B : JSString}
    (hA : (validateInput dateValues A true).map Prod.fst = some true)
    (hB : (validateInput dateValues B true).map Prod.fst = some true) :
    firstSubQuery compareDataset ("compare dataset ".toList ++ A ++ ' ' :: B)
      = join ' ' (getArgs A) := by
  unfold firstSubQuery
  rw [findLastIndex_compare_dataset hA hB, getArgs_compare_dataset B hA]
  have h := slice_middle ["compare".toList, "dataset".toList] (getArgs A) (getArgs B)
  have h1 : ((compareDataset.params.length : Nat) : Int) - 1
      = ((["compare".toList, "dataset".toList] : List JSString).length : Int) := by decide
  have h2 : ((["compare".toList, "dataset".toList] ++ getArgs A).length : Int)
      = ((["compare".toList, "dataset".toList] : List JSString).length : Int)
        + ((getArgs A).length : Int) := by
    rw [List.length_append]; push_cast; rfl
  rw [h1, h2, h]

theorem secondSubQuery_compare_dataset {dateValues : List JSString} {A B : JSString}
    (hA : (validateInput dateValues A true).map Prod.fst = some true)
    (hB : (validateInput dateValues B true).map Prod.fst = some true) :
    secondSubQuery ("compare dataset ".toList ++ A ++ ' ' :: B) = join ' ' (getArgs B) := by
  unfold secondSubQuery
  rw [findLastIndex_compare_dataset hA hB, getArgs_compare_dataset B hA,
    slice_append_left (["compare".toList, "dataset".toList] ++ getArgs A) (getArgs B)]

/-- C10: when `validateInput` accepts the lines `A` and `B` as sub-queries, it accepts the
top-level line `compare dataset A B`: it selects the `dataset` overload, the last token
that is a query name is the first token of `B`, and the two sub-query lines it validates
have exactly the tokens of `A` and the tokens of `B`. -/
theorem validateInput_compare_dataset (dateValues : List JSString) (A B : JSString)
    (hA : (validateInput dateValues A true).map Prod.fst = some true)
    (hB : (validateInput dateValues B true).map Prod.fst = some true) :
    validateInput dateValues ("compare dataset ".toList ++ A ++ ' ' :: B) false
      = some (true, []) ∧
    queries.find? (selects (getArgs ("compare dataset ".toList ++ A ++ ' ' :: B)) false)
      = some compareDataset ∧
    getArgs ("compare dataset ".toList ++ A ++ ' ' :: B)
      = ["compare".toList, "dataset".toList] ++ getArgs A ++ getArgs B ∧
    findLastIndex isQueryName (getArgs ("compare dataset ".toList ++ A ++ ' ' :: B))
      = 2 + ((getArgs A).length : Int) ∧
    subQueryLines compareDataset ("compare dataset ".toList ++ A ++ ' ' :: B)
      = [firstSubQuery compareDataset ("compare dataset ".toList ++ A ++ ' ' :: B),
          secondSubQuery ("compare dataset ".toList ++ A ++ ' ' :: B)] ∧
    getArgs (firstSubQuery compareDataset ("compare dataset ".toList ++ A ++ ' ' :: B))
      = getArgs A ∧
    getArgs (secondSubQuery ("compare dataset ".toList ++ A ++ ' ' :: B)) = getArgs B := by
  have hargs := getArgs_compare_dataset B hA
  have hfind : queries.find?
      (selects (getArgs ("compare dataset ".toList ++ A ++ ' ' :: B)) false)
      = some compareDataset := by
    rw [hargs]; exact find_compare_dataset _
  have hfirst := firstSubQuery_compare_dataset hA hB
  have hsecond := secondSubQuery_compare_dataset hA hB
  have htwo : (compareDataset.params.filter
      (fun param => param.type = ParamType.subquery)).length = 2 := by decide
  refine ⟨?_, hfind, hargs, ?_, ?_, ?_, ?_⟩
  · obtain ⟨cmdA, restA, hTA, _, _⟩ := validateInput_sub_tokens hA
    obtain ⟨cmdB, restB, hTB, _, _⟩ := validateInput_sub_tokens hB
    have hfew : ¬ (((getArgs ("compare dataset ".toList ++ A ++ ' ' :: B)).length : Int) - 1
        < ((compareDataset.params.filter (fun param => !param.optional)).length : Int)) := by
      have h3 : (compareDataset.params.filter (fun param => !param.optional)).length = 3 := by
        decide
      rw [hargs, hTA, hTB, h3]
      simp only [List.length_append, List.length_cons, List.length_nil]
      push_cast
      omega
    have hlast : compareDataset.params.getLast?.map (fun param => param.type)
        = some ParamType.subquery := by decide
    have htypes : ∀ p ∈ compareDataset.params,
        p.type = ParamType.enum ∨ p.type = ParamType.subquery := by decide
    rw [validateInput_eq_body]
    unfold validateInputBody
    dsimp only
    rw [hfind]
    dsimp only
    rw [if_neg hfew, if_pos hlast, if_pos htwo, hfirst, hsecond,
      validateInput_join_getArgs, validateInput_join_getArgs, validateInput_sub_true hA,
      validateInput_sub_true hB, forEachArg_none_of_types htypes]
    rfl
  · rw [findLastIndex_compare_dataset hA hB, List.length_append]
    push_cast
    rfl
  · rw [subQueryLines, if_pos htwo]
  · rw [hfirst, getArgs_join_getArgs]
  · rw [hsecond, getArgs_join_getArgs]

/-- Witness for C10: the line `compare dataset min <row> max <row>` is accepted. -/
theorem validateInput_compare_dataset_witness :
    validateInput twoDates
      ("compare dataset ".toList ++ "min `temperature_max`".toList
        ++ ' ' :: "max `temperature_max`".toList) false = some (true, []) :=
  (validateInput_compare_dataset twoDates "min `temperature_max`".toList
    "max `temperature_max`".toList (by decide) (by decide)).1

/-! ## Further properties of the code -/

/-- The body of `validateInput` passes to its recursive calls no line other than those of
`subQueryLines`: two stand-ins for the recursive call that agree on these lines give the
same outcome. -/
theorem validateInputBody_calls (dateValues : List JSString)
    (f g : JSString → Option Outcome) (line : JSString) (isSubQuery : Bool) (q : Query)
    (hq : queries.find? (selects (getArgs line) isSubQuery) = some q)
    (hfg : ∀ sub ∈ subQueryLines q line, f sub = g sub) :
    validateInputBody dateValues f line isSubQuery
      = validateInputBody dateValues g line isSubQuery := by
  unfold validateInputBody
  dsimp only
  rw [hq]
  dsimp only
  unfold subQueryLines at hfg
  by_cases htwo : (q.params.filter (fun param => param.type = ParamType.subquery)).length = 2
  · rw [if_pos htwo] at hfg
    simp only [htwo, if_true]
    rw [hfg _ (by simp), hfg (secondSubQuery line) (by simp)]
  · rw [if_neg htwo] at hfg
    simp only [htwo, if_false]
    rw [hfg _ (by simp)]

/-- The recursive call of `compare zip 66213 min <row>` may be replaced by a function that
answers on its one sub-query line only. -/
theorem validateInputBody_calls_witness :
    validateInputBody twoDates (fun line => validateInput twoDates line true)
        "compare zip 66213 min `temperature_max`".toList false
      = validateInputBody twoDates
          (fun line => if line = "min `temperature_max`".toList then some (true, []) else none)
          "compare zip 66213 min `temperature_max`".toList false :=
  validateInputBody_calls twoDates _ _ _ false compareZip (by decide) (by decide)

/-- The recursion of `validateInput` never reaches its bound: every call returns an
outcome, and a larger bound gives the same outcome. -/
theorem validateInput_total (dateValues : List JSString) (line : JSString)
    (isSubQuery : Bool) :
    (∃ r errs, validateInput dateValues line isSubQuery = some (r, errs)) ∧
    ∀ fuel, validateInputFuel dateValues (fuel + 2) line isSubQuery
      = validateInput dateValues line isSubQuery := by
  refine ⟨?_, fun fuel => validateInputFuel_eq _ _ _ _⟩
  have := validateInput_isSome dateValues line isSubQuery
  cases h : validateInput dateValues line isSubQuery with
  | none => simp [h] at this
  | some o => exact ⟨o.1, o.2, rfl⟩

theorem number_minus_digit :
    ∀ d < 10, 1 ≤ d → Number ('-' :: natToString d) = .finite true d 0 ∧
      jsLength ('-' :: natToString d) = 2 := by
  decide

/-- What the range check of a date index does at the lower end: for a digit `d` from 1 to
9, the line `value <row> -d` is accepted exactly when `d` is less than the number of dates,
so the index `-N` of a dataset of `N` dates is refused. -/
theorem validateInput_negative_index (dateValues : List JSString) (d : Nat) (hd1 : 1 ≤ d)
    (hd9 : d ≤ 9) :
    validateInput dateValues ("value `weather_code` ".toList ++ '-' :: natToString d) false
      = if d < dateValues.length then some (true, [])
        else some (false, [.dateIndexOutOfRange false (some "value".toList) "day"
          ('-' :: natToString d) dateValues.length]) := by
  have hdig := natToString_isDigit d
  have hsp : ' ' ∉ '-' :: natToString d := by
    simp only [List.mem_cons, not_or]
    exact ⟨by decide, not_mem_of_isDigit hdig (by decide)⟩
  obtain ⟨hnum, hlen⟩ := number_minus_digit d (by omega) hd1
  rw [validateInput_value_line dateValues _ (by simp) hsp rfl]
  unfold checkDate
  rw [if_pos (Or.inr hlen), hnum]
  simp only [JSNumber.isNaN, Bool.false_eq_true, if_false, JSNumber.gtInt, JSNumber.ltInt,
    if_true, le_refl, Int.toNat_zero, pow_zero, mul_one]
  by_cases h : d < dateValues.length
  · have h1 : (-1 * (dateValues.length : Int) < -(d : Int)) := by omega
    have h2 : (-(d : Int) < (dateValues.length : Int)) := by omega
    simp [h, h1, h2]
  · have h1 : ¬ (-1 * (dateValues.length : Int) < -(d : Int)) := by omega
    simp [h, h1]

/-- With one date in the dataset, the index `-1` is refused. -/
theorem validateInput_negative_index_witness :
    validateInput ["2024-04-24".toList]
        ("value `weather_code` ".toList ++ '-' :: natToString 1) false
      = if 1 < ["2024-04-24".toList].length then some (true, [])
        else some (false, [.dateIndexOutOfRange false (some "value".toList) "day"
          ('-' :: natToString 1) ["2024-04-24".toList].length]) :=
  validateInput_negative_index ["2024-04-24".toList] 1 (by decide) (by decide)

theorem endsWith_false_of_not_mem {x : JSString} {c : Char} (h : c ∉ x) :
    endsWith x c = false := by
  unfold endsWith
  cases hl : x.getLast? with
  | none => rfl
  | some a =>
    have ha : a ∈ x := List.mem_of_getLast?_eq_some hl
    have : a ≠ c := fun hac => h (hac ▸ ha)
    simp [this]

theorem endsWith_snoc (x : JSString) (c : Char) : endsWith (x ++ [c]) c = true := by
  simp [endsWith]

theorem exists_first_space (s : JSString) :
    ' ' ∉ s ∨ ∃ a b, s = a ++ ' ' :: b ∧ ' ' ∉ a := by
  induction s with
  | nil => exact Or.inl (by simp)
  | cons c cs ih =>
    by_cases hc : c = ' '
    · exact Or.inr ⟨[], cs, by simp [hc], by simp⟩
    · rcases ih with h | ⟨a, b, hab, ha⟩
      · exact Or.inl (by simp [h, Ne.symm hc])
      · exact Or.inr ⟨c :: a, b, by simp [hab], by simp [ha, Ne.symm hc]⟩

theorem scanFrom_open_quoted (n : Nat) :
    ∀ (s cur : JSString), s.length ≤ n → '"' ∉ s →
      scanFrom (some cur) (split ' ' (s ++ ['"'])) = [cur ++ ' ' :: (s ++ ['"'])] := by
  induction n with
  | zero =>
    intro s cur hlen _
    have : s = [] := List.eq_nil_of_length_eq_zero (by omega)
    subst this
    simp only [List.nil_append]
    rw [split_of_not_mem _ _ (by decide)]
    simp only [scanFrom]
    split <;> rfl
  | succ n ih =>
    intro s cur hlen hq
    rcases exists_first_space s with h | ⟨a, b, rfl, ha⟩
    · have hsp : ' ' ∉ s ++ ['"'] := by simp [h]
      rw [split_of_not_mem _ _ hsp]
      simp only [scanFrom]
      split <;> rfl
    · have hqa : '"' ∉ a := fun hm => hq (by simp [hm])
      have hqb : '"' ∉ b := fun hm => hq (by simp [hm])
      have hstay : quoteAfter true a = true := by
        simp [quoteAfter, endsWith_false_of_not_mem hqa]
      have hb : b.length ≤ n := by
        simp only [List.length_append, List.length_cons] at hlen
        omega
      rw [List.append_assoc, List.cons_append, split_append, split_of_not_mem _ _ ha,
        List.singleton_append]
      simp only [scanFrom, hstay, if_true]
      rw [ih b _ hb hqb]
      simp

theorem getArgs_quoted (s : JSString) (hq : '"' ∉ s) (hsp : startsWith s ' ' = false) :
    getArgs ('"' :: (s ++ ['"'])) = ['"' :: (s ++ ['"'])] := by
  rw [getArgs_eq]
  rcases exists_first_space s with h | ⟨a, b, rfl, ha⟩
  · have hsp' : ' ' ∉ '"' :: (s ++ ['"']) := by simp [h]
    have hend : endsWith ('"' :: (s ++ ['"'])) '"' = true := by
      rw [← List.cons_append]; exact endsWith_snoc _ _
    rw [split_of_not_mem _ _ hsp']
    simp [scanFrom, quoteAfter, hend]
  · have hqa : '"' ∉ a := fun hm => hq (by simp [hm])
    have hqb : '"' ∉ b := fun hm => hq (by simp [hm])
    have hane : a ≠ [] := by
      rintro rfl
      simp [startsWith] at hsp
    have hspa : ' ' ∉ '"' :: a := by simp [ha]
    have hend : endsWith ('"' :: a) '"' = false := by
      obtain ⟨x, xs, rfl⟩ := List.exists_cons_of_ne_nil hane
      have := endsWith_false_of_not_mem hqa
      simpa [endsWith, List.getLast?_cons_cons] using this
    have hopen : quoteAfter false ('"' :: a) = true := by
      simp [quoteAfter, startsWith, hend]
    have hline : '"' :: (a ++ ' ' :: b ++ ['"']) = ('"' :: a) ++ ' ' :: (b ++ ['"']) := by
      simp
    rw [hline, split_append, split_of_not_mem _ _ hspa, List.singleton_append]
    simp only [scanFrom, hopen, if_true]
    rw [scanFrom_open_quoted b.length b _ (Nat.le_refl _) hqb]
    simp

/-- What the tokenizer does keep: for non-empty tokens without space or double quote
 and a text `s` without double quote that does not start with a space, `getArgs` on the
tokens and the quoted text, joined by single spaces, returns the tokens followed by the
quoted text as one token, its spaces and both quotes kept. -/
theorem getArgs_quoted_span (ws : List JSString) (s : JSString)
    (hws : ∀ w ∈ ws, w ≠ [] ∧ ' ' ∉ w ∧ '"' ∉ w) (hq : '"' ∉ s)
    (hsp : startsWith s ' ' = false) :
    getArgs (ws.foldr (fun w line => w ++ ' ' :: line) ('"' :: (s ++ ['"'])))
      = ws ++ ['"' :: (s ++ ['"'])] := by
  induction ws with
  | nil => exact getArgs_quoted s hq hsp
  | cons w rest ih =>
    obtain ⟨hne, hwsp, hwq⟩ := hws w (by simp)
    simp only [List.foldr_cons, List.cons_append]
    rw [getArgs_cons_plain _ _ hne hwsp (startsWith_false_of_not_mem hwq),
      ih (fun x hx => hws x (by simp [hx]))]

/-- The tokens of the line `value <row> "Kansas City"`. -/
theorem getArgs_quoted_span_witness :
    getArgs (["value".toList, "`temperature_max`".toList].foldr
        (fun w line => w ++ ' ' :: line) ('"' :: ("Kansas City".toList ++ ['"'])))
      = ["value".toList, "`temperature_max`".toList] ++ ['"' :: ("Kansas City".toList ++ ['"'])] :=
  getArgs_quoted_span ["value".toList, "`temperature_max`".toList] "Kansas City".toList
    (by decide) (by decide) (by decide)

/-! ## Theorems: one diagnostic at most -/

/-- C11: every call of `validateInput` returns, and it has emitted no diagnostic when it
returns `true` and exactly one diagnostic, its recursive calls counted, when it returns
`false`. -/
theorem validateInput_one_diagnostic (dateValues : List JSString) (line : JSString)
    (isSubQuery : Bool) :
    ∃ r errs, validateInput dateValues line isSubQuery = some (r, errs) ∧
      ((r = true ∧ errs = []) ∨ (r = false ∧ ∃ d, errs = [d])) := by
  cases hq : queries.find? (selects (getArgs line) isSubQuery) with
  | none => exact ⟨false, _, validateInput_not_found hq, Or.inr ⟨rfl, _, rfl⟩⟩
  | some q =>
    by_cases hfew : ((getArgs line).length : Int) - 1
        < ((q.params.filter (fun param => !param.optional)).length : Int)
    · exact ⟨false, _, validateInput_tooFew hq hfew, Or.inr ⟨rfl, _, rfl⟩⟩
    · have hsome := validateInput_isSome dateValues line isSubQuery
      cases hv : validateInput dateValues line isSubQuery with
      | none => simp [hv] at hsome
      | some o =>
        obtain ⟨r, errs⟩ := o
        refine ⟨r, errs, rfl, ?_⟩
        rcases validateInput_found_cases hq hfew hv with h | ⟨hr, d, hd, _⟩
        · exact Or.inl h
        · exact Or.inr ⟨hr, d, hd⟩

/-! ## Theorems: what the type check of a row accepts -/

theorem checkArg_row_iff (dateValues : List JSString) (isSubQuery : Bool)
    (query : Option JSString) (param : Param) (t : JSString)
    (hp : param.type = ParamType.row) :
    checkArg dateValues isSubQuery query param t = none ↔
      (startsWith t '`' = true ∧ endsWith t '`' = true) := by
  unfold checkArg
  rw [hp]
  simp only
  cases startsWith t '`' <;> cases endsWith t '`' <;> simp

/-- C12: the type check of a row parameter only looks at the first and the last character
of the token.  For every dataset, `validateInput` accepts `min` with a row that no dataset
of the application has and with the token that is one back-tick alone, although the
in-app help says that a row "must be in list". -/
theorem validateInput_row_not_in_list (dateValues : List JSString) :
    validateInput dateValues "min `nosuchrow`".toList false = some (true, []) ∧
    validateInput dateValues "min `".toList false = some (true, []) ∧
    validateInput dateValues "min nosuchrow".toList false
      = some (false, [.notRow false (some "min".toList) "row" "nosuchrow".toList]) :=
  ⟨rfl, rfl, rfl⟩

/-! ## Theorems: `sendRequest` after validation -/

theorem sendRequestSelects_eq (args : List JSString) :
    sendRequestSelects args = selects args false := by
  funext q
  unfold sendRequestSelects selects
  cases (args[0]? == some q.name) <;> simp

theorem dispatch_registry : ∀ q ∈ queries, dispatch q.name ≠ Branch.notImplemented := by
  decide

/-- C13: for every line that `validateInput(line, false)` accepts, `sendRequest` finds a
query, the one `validateInput` selected, and the name of that query is one of the cases
of the switch: neither the branch "no query was found" nor the branch "was not
implemented" is taken. -/
theorem sendRequest_finds_validated (dateValues : List JSString) (line : JSString)
    (errs : List Diag) (h : validateInput dateValues line false = some (true, errs)) :
    ∃ q, queries.find? (selects (getArgs line) false) = some q ∧
      queries.find? (sendRequestSelects (getArgs line)) = some q ∧
      sendRequestBranch line = dispatch q.name ∧
      sendRequestBranch line ≠ Branch.noQuery ∧
      sendRequestBranch line ≠ Branch.notImplemented := by
  obtain ⟨q, hq⟩ := validateInput_accept_found h
  have hq2 : queries.find? (sendRequestSelects (getArgs line)) = some q := by
    rw [sendRequestSelects_eq]; exact hq
  have hmem : q ∈ queries := List.mem_of_find?_eq_some hq
  have hd := dispatch_registry q hmem
  have hb : sendRequestBranch line = dispatch q.name := by
    unfold sendRequestBranch; rw [hq2]
  refine ⟨q, hq, hq2, hb, ?_, ?_⟩
  · rw [hb]
    revert hd
    generalize q.name = n
    unfold dispatch
    intro hd
    split_ifs <;> simp
  · rw [hb]; exact hd

theorem sendRequest_finds_validated_witness :
    ∃ q, queries.find? (selects (getArgs "max `temperature_max`".toList) false) = some q ∧
      queries.find? (sendRequestSelects (getArgs "max `temperature_max`".toList)) = some q ∧
      sendRequestBranch "max `temperature_max`".toList = dispatch q.name ∧
      sendRequestBranch "max `temperature_max`".toList ≠ Branch.noQuery ∧
      sendRequestBranch "max `temperature_max`".toList ≠ Branch.notImplemented :=
  sendRequest_finds_validated twoDates "max `temperature_max`".toList [] (by rfl)

/-! ## Theorems: the relation word of `compare` -/

/-- C14: the relation word of `compare` is not the numeric relation when both results are
strings.  For the dataset whose cells are `9` and `10`, the two `value` requests of
`compare dataset value `temperature_max` 0 value `temperature_max` 1` return the
strings `9` and `10`, the number 9 is less than the number 10, and the word is
"greater than": `a == b` and `a > b` compare two strings by their code units. -/
theorem relationWord_string_cells :
    Server.handleValue nineTen ["value".toList, "temperature_max".toList, "0".toList]
      = .ok (.str "9".toList) ∧
    Server.handleValue nineTen ["value".toList, "temperature_max".toList, "1".toList]
      = .ok (.str "10".toList) ∧
    JSNumber.lt (Number "9".toList) (Number "10".toList) = true ∧
    relationWord (.str "9".toList) (.str "10".toList) = "greater than" ∧
    relationWord (.num (Number "9".toList)) (.num (Number "10".toList)) = "less than" := by
  decide

/-! ## Theorems: the `value` request of the server -/

/-- C16: the `value` request for a day that no record has returns the cell of the last
record.  The validator accepts the token `2020-01-01` on the dataset of the two days
`2024-04-24` and `2024-04-25`; no record has that date, `findIndex` returns `-1`, and
`data.at(-1)` is the record of `2024-04-25`, whose cell `75` is the answer. -/
theorem handleValue_absent_day :
    validateInput twoDates "value `temperature_max` 2020-01-01".toList false
      = some (true, []) ∧
    exampleData.map (fun row => row.get "date".toList)
      = [some "2024-04-24".toList, some "2024-04-25".toList] ∧
    Server.parseDate "2020-01-01".toList exampleData = some (some "2020-01-01".toList) ∧
    findIndex (fun row => row.get "date".toList == some "2020-01-01".toList) exampleData
      = -1 ∧
    Server.handleValue exampleData
        ["value".toList, "temperature_max".toList, "2020-01-01".toList]
      = .ok (.str "75".toList) ∧
    Server.handleValue exampleData
        ["value".toList, "temperature_max".toList, "2024-04-24".toList]
      = .ok (.str "70".toList) := by
  refine ⟨by rfl, by decide, by decide, by decide, by decide, by decide⟩

/-! ## Theorems: the range requests of the server -/

theorem findIndex_eq {α : Type} (p : α → Bool) :
    ∀ (data : List α) (i : Nat) (row : α), data[i]? = some row → p row = true →
      (∀ j other, j < i → data[j]? = some other → p other = false) →
      findIndex p data = (i : Int) := by
  intro data
  induction data with
  | nil => intro i row h; simp at h
  | cons x xs ih =>
    intro i row h hp hlt
    cases i with
    | zero =>
      simp only [List.getElem?_cons_zero, Option.some.injEq] at h
      subst h
      simp [findIndex, hp]
    | succ i =>
      have hx : p x = false := hlt 0 x (by omega) (by simp)
      have hi : findIndex p xs = (i : Int) :=
        ih i row (by simpa using h) hp
          (fun j other hj hjo => hlt (j + 1) other (by omega) (by simpa using hjo))
      have h0 : (0 : Int) ≤ (i : Int) := by omega
      simp only [findIndex, hx, hi, h0, if_true]
      simp

theorem natToString_ne_nil (n : Nat) : natToString n ≠ [] := by
  have := natToString_length_pos n
  intro h
  rw [h] at this
  simp at this

theorem truthy_iff (a : Option JSString) : truthy a = true ↔ ∃ v, a = some v ∧ v ≠ [] := by
  cases a with
  | none => simp [truthy]
  | some v => cases v <;> simp [truthy]

theorem parseDate_index (data : Dataset) (s : Nat) (hs : s < 100) :
    Server.parseDate (natToString s) data
      = some ((data[s]?).bind (fun row => row.get "date".toList)) := by
  obtain ⟨hnum, hlen⟩ := number_natToString_small s hs
  have h10 : ¬ jsLength (natToString s) = 10 := by omega
  have hcond : jsLength (natToString s) = 1 ∨ jsLength (natToString s) = 2 ∨
      (jsLength (natToString s) = 3 ∧ startsWith (natToString s) '-' = true) := by omega
  unfold Server.parseDate
  rw [if_neg h10, if_pos hcond, hnum]
  have h0 : (0 : Int) ≤ (s : Int) := by omega
  have h1 : ¬ ((s : Int) < 0) := by omega
  simp [arrayAtNumber, toIntegerOrInfinity, arrayAt, JSNumber.signed, h0, h1]

theorem slice_nat {α : Type} (xs : List α) (a b : Nat) (ha : a ≤ xs.length)
    (hb : b ≤ xs.length) :
    slice xs (a : Int) (some (b : Int)) = (xs.take b).drop a := by
  have h1 : ¬ ((a : Int) < 0) := by omega
  have h2 : ¬ ((b : Int) < 0) := by omega
  simp only [slice, sliceIndex, h1, h2, if_false, Int.toNat_ofNat]
  rw [Nat.min_eq_left ha, Nat.min_eq_left hb]

/-- The index `findIndex` returns for the date of record `s`, when every record has a
date and the dates are pairwise distinct. -/
theorem findIndex_date (data : Dataset) (s : Nat) (hs : s < data.length)
    (hdistinct : (column data "date".toList).Nodup) :
    findIndex (fun row => row.get "date".toList
        == (data[s]?).bind (fun row => row.get "date".toList)) data = (s : Int) := by
  have hrow : data[s]? = some data[s] := List.getElem?_eq_getElem hs
  apply findIndex_eq _ data s data[s] hrow
  · simp [hrow]
  · intro j other hj hjo
    have hjlt : j < data.length := by omega
    have hother : other = data[j] := by
      rw [List.getElem?_eq_getElem hjlt] at hjo
      exact (Option.some.inj hjo).symm
    rw [hrow]
    simp only [Option.some_bind, beq_eq_false_iff_ne, ne_eq]
    intro heq
    have hcj : j < (column data "date".toList).length := by simp [column]; exact hjlt
    have hcs : s < (column data "date".toList).length := by simp [column]; exact hs
    have hinj := (@List.Nodup.getElem_inj_iff _ _ hdistinct j hcj s hcs).1
    have : j = s := by
      apply hinj
      simp only [column, List.getElem_map]
      rw [← hother]
      exact heq
    omega

/-- The reduction of `max` returns an element of the array that is above every element,
when `numLe` is total and transitive on a set `S` that holds the elements. -/
theorem foldl_max_spec (numLe : Option JSString → Option JSString → Bool)
    (S : List (Option JSString))
    (htotal : ∀ a ∈ S, ∀ b ∈ S, numLe a b = true ∨ numLe b a = true)
    (htrans : ∀ a ∈ S, ∀ b ∈ S, ∀ d ∈ S, numLe a b = true → numLe b d = true →
      numLe a d = true) :
    ∀ (xs : List (Option JSString)) (a : Option JSString), a ∈ S → (∀ x ∈ xs, x ∈ S) →
      xs.foldl (fun a b => if numLe b a then a else b) a ∈ a :: xs ∧
      numLe a (xs.foldl (fun a b => if numLe b a then a else b) a) = true ∧
      ∀ w ∈ xs, numLe w (xs.foldl (fun a b => if numLe b a then a else b) a) = true := by
  intro xs
  induction xs with
  | nil =>
    intro a ha _
    refine ⟨by simp, ?_, by simp⟩
    rcases htotal a ha a ha with h | h <;> simpa using h
  | cons b xs ih =>
    intro a ha hxs
    have hb : b ∈ S := hxs b (by simp)
    have hrest : ∀ x ∈ xs, x ∈ S := fun x hx => hxs x (by simp [hx])
    rw [List.foldl_cons]
    by_cases hba : numLe b a = true
    · rw [if_pos hba]
      obtain ⟨hmem, hle, hall⟩ := ih a ha hrest
      have hr : xs.foldl (fun a b => if numLe b a then a else b) a ∈ S := by
        rcases List.mem_cons.1 hmem with h | h
        · rw [h]; exact ha
        · exact hrest _ h
      refine ⟨?_, hle, ?_⟩
      · rcases List.mem_cons.1 hmem with h | h
        · rw [h]; simp
        · simp [h]
      · intro w hw
        rcases List.mem_cons.1 hw with h | h
        · rw [h]; exact htrans b hb a ha _ hr hba hle
        · exact hall w h
    · rw [if_neg hba]
      obtain ⟨hmem, hle, hall⟩ := ih b hb hrest
      have hr : xs.foldl (fun a b => if numLe b a then a else b) b ∈ S := by
        rcases List.mem_cons.1 hmem with h | h
        · rw [h]; exact hb
        · exact hrest _ h
      have hab : numLe a b = true := by
        rcases htotal a ha b hb with h | h
        · exact h
        · exact absurd h hba
      refine ⟨?_, htrans a ha b hb _ hr hab hle, ?_⟩
      · rcases List.mem_cons.1 hmem with h | h
        · rw [h]; simp
        · simp [h]
      · intro w hw
        rcases List.mem_cons.1 hw with h | h
        · rw [h]; exact hle
        · exact hall w h

theorem max_spec (numLe : Option JSString → Option JSString → Bool)
    (S : List (Option JSString))
    (htotal : ∀ a ∈ S, ∀ b ∈ S, numLe a b = true ∨ numLe b a = true)
    (htrans : ∀ a ∈ S, ∀ b ∈ S, ∀ d ∈ S, numLe a b = true → numLe b d = true →
      numLe a d = true)
    (cells : List (Option JSString)) (hne : cells ≠ []) (hsub : ∀ x ∈ cells, x ∈ S) :
    ∃ r, Server.max numLe cells = some r ∧ r ∈ cells ∧ ∀ w ∈ cells, numLe w r = true := by
  cases cells with
  | nil => exact absurd rfl hne
  | cons a xs =>
    obtain ⟨hmem, hle, hall⟩ := foldl_max_spec numLe S htotal htrans xs a
      (hsub a (by simp)) (fun x hx => hsub x (by simp [hx]))
    refine ⟨_, rfl, hmem, ?_⟩
    intro w hw
    rcases List.mem_cons.1 hw with h | h
    · rw [h]; exact hle
    · exact hall w h

/-- The answer of the case `max` once the range is known to be the records `lo .. hi`. -/
theorem handleMax_of_range (numLe : Option JSString → Option JSString → Bool)
    (data : Dataset) (c : JSString) (args : List JSString) (lo hi : Nat)
    (hargs : args[1]? = some c) (hc : c ≠ [])
    (hlo : lo ≤ hi) (hhi : hi < data.length)
    (hrange : Server.dateRange data args = some ((data.take (hi + 1)).drop lo))
    (hcells : ∀ a ∈ column data c, a.isSome = true)
    (htotal : ∀ a ∈ column data c, ∀ b ∈ column data c, numLe a b = true ∨ numLe b a = true)
    (htrans : ∀ a ∈ column data c, ∀ b ∈ column data c, ∀ d ∈ column data c,
      numLe a b = true → numLe b d = true → numLe a d = true) :
    IsMaxOfRows numLe data c lo hi (Server.handleMax numLe data args) := by
  have hnoRow : Server.noRow args = false := by
    have : truthy (some c) = true := (truthy_iff _).2 ⟨c, rfl, hc⟩
    simp [Server.noRow, hargs, this]
  have hcol : ((data.take (hi + 1)).drop lo).map (fun row => row.get (args[1]?.getD []))
      = ((column data c).take (hi + 1)).drop lo := by
    simp [column, hargs, List.map_drop, List.map_take]
  have hlen : (column data c).length = data.length := by simp [column]
  have hne : ((column data c).take (hi + 1)).drop lo ≠ [] := by
    intro h
    have := congrArg List.length h
    simp only [List.length_drop, List.length_take, List.length_nil, hlen] at this
    omega
  have hsub : ∀ x ∈ ((column data c).take (hi + 1)).drop lo, x ∈ column data c :=
    fun x hx => List.mem_of_mem_take (List.mem_of_mem_drop hx)
  obtain ⟨r, hr, hmem, hall⟩ := max_spec numLe (column data c) htotal htrans _ hne hsub
  have hrS := hcells r (hsub r hmem)
  obtain ⟨v, rfl⟩ := Option.isSome_iff_exists.1 hrS
  obtain ⟨k, hk⟩ := List.getElem?_of_mem hmem
  have hkk : lo + k < hi + 1 ∧ (column data c)[lo + k]? = some (some v) := by
    rw [List.getElem?_drop, List.getElem?_take] at hk
    by_cases hlt : lo + k < hi + 1
    · rw [if_pos hlt] at hk; exact ⟨hlt, hk⟩
    · rw [if_neg hlt] at hk; simp at hk
  refine ⟨lo + k, v, by omega, by omega, hkk.2, ?_, ?_⟩
  · unfold Server.handleMax
    rw [hnoRow, hrange]
    simp only [Bool.false_eq_true, if_false]
    rw [hcol, hr]
    rfl
  · intro j w hj1 hj2 hjw
    apply hall w
    apply List.getElem?_mem (n := j - lo)
    rw [List.getElem?_drop, List.getElem?_take]
    have : lo + (j - lo) = j := by omega
    rw [this, if_pos (by omega)]
    exact hjw

theorem truthy_date (data : Dataset) (s : Nat) (hs : s < data.length)
    (hdate : ∀ a ∈ column data "date".toList, truthy a = true) :
    truthy ((data[s]?).bind (fun row => row.get "date".toList)) = true := by
  apply hdate
  rw [List.getElem?_eq_getElem hs]
  simp only [Option.some_bind, column]
  exact List.mem_map_of_mem _ (List.getElem_mem hs)

theorem truthy_natToString (n : Nat) : truthy (some (natToString n)) = true :=
  (truthy_iff _).2 ⟨_, rfl, natToString_ne_nil n⟩

theorem dateRange_both (data : Dataset) (n c : JSString) (s e : Nat)
    (hs : s < 100) (he : e < 100) (hsN : s < data.length) (heN : e < data.length)
    (hdate : ∀ a ∈ column data "date".toList, truthy a = true)
    (hdistinct : (column data "date".toList).Nodup) :
    Server.dateRange data [n, c, natToString s, natToString e]
      = some ((data.take (e + 1)).drop s) := by
  have h2 : [n, c, natToString s, natToString e][2]? = some (natToString s) := rfl
  have h3 : [n, c, natToString s, natToString e][3]? = some (natToString e) := rfl
  have hcast : ((e : Int) + 1) = ((e + 1 : Nat) : Int) := by push_cast; rfl
  unfold Server.dateRange
  rw [h2, h3]
  simp only [truthy_natToString, if_true, Option.getD_some, parseDate_index data s hs,
    parseDate_index data e he, truthy_date data s hsN hdate, truthy_date data e heN hdate,
    findIndex_date data s hsN hdistinct, findIndex_date data e heN hdistinct]
  rw [hcast, slice_nat data s (e + 1) (by omega) (by omega)]

theorem dateRange_start (data : Dataset) (n c : JSString) (s : Nat)
    (hs : s < 100) (hsN : s < data.length)
    (hdate : ∀ a ∈ column data "date".toList, truthy a = true)
    (hdistinct : (column data "date".toList).Nodup) :
    Server.dateRange data [n, c, natToString s]
      = some ((data.take (data.length - 1 + 1)).drop s) := by
  have h2 : [n, c, natToString s][2]? = some (natToString s) := rfl
  have h3 : [n, c, natToString s][3]? = none := rfl
  have hnone : truthy (none : Option JSString) = false := rfl
  have hlen : data.length - 1 + 1 = data.length := by omega
  unfold Server.dateRange
  rw [h2, h3]
  simp only [truthy_natToString, if_true, Option.getD_some, parseDate_index data s hs,
    truthy_date data s hsN hdate, findIndex_date data s hsN hdistinct, hnone,
    Bool.false_eq_true, if_false]
  rw [hlen, slice_nat data s data.length (by omega) (by omega)]

theorem dateRange_none (data : Dataset) (n c : JSString) :
    Server.dateRange data [n, c] = some ((data.take (data.length - 1 + 1)).drop 0) := by
  have h2 : [n, c][2]? = none := rfl
  have h3 : [n, c][3]? = none := rfl
  have hnone : truthy (none : Option JSString) = false := rfl
  unfold Server.dateRange
  rw [h2, h3]
  simp only [hnone, Bool.false_eq_true, if_false]
  have h := slice_nat data 0 data.length (by omega) (by omega)
  simp only [Nat.cast_zero] at h
  rw [h]
  by_cases h0 : data.length = 0
  · have : data = [] := List.eq_nil_of_length_eq_zero h0
    subst this
    rfl
  · have hlen : data.length - 1 + 1 = data.length := by omega
    rw [hlen]

theorem dateRange_end (data : Dataset) (n c : JSString) (e : Nat)
    (he : e < 100) (heN : e < data.length)
    (hdate : ∀ a ∈ column data "date".toList, truthy a = true)
    (hdistinct : (column data "date".toList).Nodup) :
    Server.dateRange data [n, c, [], natToString e] = some ((data.take (e + 1)).drop 0) := by
  have h2 : [n, c, [], natToString e][2]? = some [] := rfl
  have h3 : [n, c, [], natToString e][3]? = some (natToString e) := rfl
  have hempty : truthy (some ([] : JSString)) = false := rfl
  have hnone : truthy (none : Option JSString) = false := rfl
  have hcast : ((e : Int) + 1) = ((e + 1 : Nat) : Int) := by push_cast; rfl
  unfold Server.dateRange
  rw [h2, h3]
  simp only [hempty, hnone, truthy_natToString, if_true, Bool.false_eq_true, if_false,
    Option.getD_some, parseDate_index data e he, truthy_date data e heN hdate,
    findIndex_date data e heN hdistinct]
  have h := slice_nat data 0 (e + 1) (by omega) (by omega)
  simp only [Nat.cast_zero] at h
  rw [hcast, h]

theorem handleMin_eq (numLe : Option JSString → Option JSString → Bool) (data : Dataset)
    (args : List JSString) :
    Server.handleMin numLe data args
      = Server.handleMax (fun a b => numLe b a) data args := rfl

/-- The range requests return an extremum for every comparison `numLe` in the place of
`Number(a) <= Number(b)` that is total and transitive on the cells of the column: the
comparison of the doubles the cells round to is one, when the cells are numeric.  The
four requests are those with both indices, with the end omitted, with the start omitted
(an empty segment) and with both omitted. -/
theorem handleMax_handleMin_range_of_order (numLe : Option JSString → Option JSString → Bool)
    (data : Dataset) (c : JSString) (s e : Nat)
    (hse : s ≤ e) (heN : e < data.length) (he : e < 100) (hc : c ≠ [])
    (hdate : ∀ a ∈ column data "date".toList, truthy a = true)
    (hdistinct : (column data "date".toList).Nodup)
    (hcells : ∀ a ∈ column data c, a.isSome = true)
    (htotal : ∀ a ∈ column data c, ∀ b ∈ column data c, numLe a b = true ∨ numLe b a = true)
    (htrans : ∀ a ∈ column data c, ∀ b ∈ column data c, ∀ d ∈ column data c,
      numLe a b = true → numLe b d = true → numLe a d = true) :
    IsMaxOfRows numLe data c s e
      (Server.handleMax numLe data ["max".toList, c, natToString s, natToString e]) ∧
    IsMaxOfRows numLe data c s (data.length - 1)
      (Server.handleMax numLe data ["max".toList, c, natToString s]) ∧
    IsMaxOfRows numLe data c 0 e
      (Server.handleMax numLe data ["max".toList, c, [], natToString e]) ∧
    IsMaxOfRows numLe data c 0 (data.length - 1)
      (Server.handleMax numLe data ["max".toList, c]) ∧
    IsMinOfRows numLe data c s e
      (Server.handleMin numLe data ["min".toList, c, natToString s, natToString e]) ∧
    IsMinOfRows numLe data c s (data.length - 1)
      (Server.handleMin numLe data ["min".toList, c, natToString s]) ∧
    IsMinOfRows numLe data c 0 e
      (Server.handleMin numLe data ["min".toList, c, [], natToString e]) ∧
    IsMinOfRows numLe data c 0 (data.length - 1)
      (Server.handleMin numLe data ["min".toList, c]) := by
  have hs : s < 100 := by omega
  have hsN : s < data.length := by omega
  have htotal2 : ∀ a ∈ column data c, ∀ b ∈ column data c,
      numLe b a = true ∨ numLe a b = true := fun a ha b hb => (htotal a ha b hb).symm
  have htrans2 : ∀ a ∈ column data c, ∀ b ∈ column data c, ∀ d ∈ column data c,
      numLe b a = true → numLe d b = true → numLe d a = true :=
    fun a ha b hb d hd h1 h2 => htrans d hd b hb a ha h2 h1
  refine ⟨?_, ?_, ?_, ?_, ?_, ?_, ?_, ?_⟩
  · exact handleMax_of_range numLe data c _ s e rfl hc hse heN
      (dateRange_both data _ c s e hs he hsN heN hdate hdistinct) hcells htotal htrans
  · exact handleMax_of_range numLe data c _ s (data.length - 1) rfl hc (by omega) (by omega)
      (dateRange_start data _ c s hs hsN hdate hdistinct) hcells htotal htrans
  · exact handleMax_of_range numLe data c _ 0 e rfl hc (by omega) heN
      (dateRange_end data _ c e he heN hdate hdistinct) hcells htotal htrans
  · exact handleMax_of_range numLe data c _ 0 (data.length - 1) rfl hc (by omega) (by omega)
      (dateRange_none data _ c) hcells htotal htrans
  · rw [handleMin_eq]
    exact handleMax_of_range (fun a b => numLe b a) data c _ s e rfl hc hse heN
      (dateRange_both data _ c s e hs he hsN heN hdate hdistinct) hcells htotal2 htrans2
  · rw [handleMin_eq]
    exact handleMax_of_range (fun a b => numLe b a) data c _ s (data.length - 1) rfl hc
      (by omega) (by omega)
      (dateRange_start data _ c s hs hsN hdate hdistinct) hcells htotal2 htrans2
  · rw [handleMin_eq]
    exact handleMax_of_range (fun a b => numLe b a) data c _ 0 e rfl hc (by omega) heN
      (dateRange_end data _ c e he heN hdate hdistinct) hcells htotal2 htrans2
  · rw [handleMin_eq]
    exact handleMax_of_range (fun a b => numLe b a) data c _ 0 (data.length - 1) rfl hc
      (by omega) (by omega) (dateRange_none data _ c) hcells htotal2 htrans2

/-! ## Theorems: the order of numbers -/

theorem JSNumber.le_finite (n1 : Bool) (m1 : Nat) (e1 : Int) (n2 : Bool) (m2 : Nat)
    (e2 : Int) :
    JSNumber.le (.finite n1 m1 e1) (.finite n2 m2 e2) = true ↔
      JSNumber.signed n1 m1 * 10 ^ (e1 - min e1 e2).toNat
        ≤ JSNumber.signed n2 m2 * 10 ^ (e2 - min e1 e2).toNat := by
  unfold JSNumber.le JSNumber.compare
  dsimp only
  generalize JSNumber.signed n1 m1 * 10 ^ (e1 - min e1 e2).toNat = A
  generalize JSNumber.signed n2 m2 * 10 ^ (e2 - min e1 e2).toNat = B
  rcases lt_trichotomy A B with h | h | h
  · have hc : Ord.compare A B = .lt := by
      show compareOfLessAndEq A B = .lt
      simp [compareOfLessAndEq, h]
    rw [hc]
    exact ⟨fun _ => Int.le_of_lt h, fun _ => rfl⟩
  · subst h
    have hc : Ord.compare A A = .eq := by
      show compareOfLessAndEq A A = .eq
      simp [compareOfLessAndEq]
    rw [hc]
    exact ⟨fun _ => Int.le_refl A, fun _ => rfl⟩
  · have hc : Ord.compare A B = .gt := by
      have h1 : ¬ A < B := by omega
      have h2 : ¬ A = B := by omega
      show compareOfLessAndEq A B = .gt
      simp [compareOfLessAndEq, h1, h2]
    rw [hc]
    exact ⟨fun hh => (Bool.false_ne_true hh).elim, fun hle => by omega⟩

theorem JSNumber.le_finite_scaled (n1 : Bool) (m1 : Nat) (e1 : Int) (n2 : Bool) (m2 : Nat)
    (e2 : Int) (m : Int) (h1 : m ≤ e1) (h2 : m ≤ e2) :
    JSNumber.le (.finite n1 m1 e1) (.finite n2 m2 e2) = true ↔
      JSNumber.signed n1 m1 * 10 ^ (e1 - m).toNat
        ≤ JSNumber.signed n2 m2 * 10 ^ (e2 - m).toNat := by
  rw [JSNumber.le_finite]
  have hm : m ≤ min e1 e2 := le_min h1 h2
  have hmin1 : min e1 e2 ≤ e1 := min_le_left _ _
  have hmin2 : min e1 e2 ≤ e2 := min_le_right _ _
  have hk1 : (e1 - m).toNat = (e1 - min e1 e2).toNat + (min e1 e2 - m).toNat := by omega
  have hk2 : (e2 - m).toNat = (e2 - min e1 e2).toNat + (min e1 e2 - m).toNat := by omega
  have hpos : (0 : Int) < 10 ^ (min e1 e2 - m).toNat := by positivity
  rw [hk1, hk2, pow_add, pow_add, ← mul_assoc, ← mul_assoc]
  exact (mul_le_mul_right hpos).symm

theorem JSNumber.le_total (x y : JSNumber) (hx : x.isNaN = false) (hy : y.isNaN = false) :
    x.le y = true ∨ y.le x = true := by
  cases x with
  | nan => cases hx
  | infinity n1 =>
    cases y with
    | nan => cases hy
    | infinity n2 => cases n1 <;> cases n2 <;> decide
    | finite n2 m2 e2 => cases n1 <;> simp [JSNumber.le, JSNumber.compare]
  | finite n1 m1 e1 =>
    cases y with
    | nan => cases hy
    | infinity n2 => cases n2 <;> simp [JSNumber.le, JSNumber.compare]
    | finite n2 m2 e2 =>
      rw [JSNumber.le_finite_scaled n1 m1 e1 n2 m2 e2 (min e1 e2) (min_le_left _ _)
        (min_le_right _ _),
        JSNumber.le_finite_scaled n2 m2 e2 n1 m1 e1 (min e1 e2) (min_le_right _ _)
        (min_le_left _ _)]
      omega

theorem JSNumber.le_trans (x y z : JSNumber) (hxy : x.le y = true) (hyz : y.le z = true) :
    x.le z = true := by
  cases x with
  | nan => simp [JSNumber.le, JSNumber.compare] at hxy
  | infinity n1 =>
    cases y with
    | nan => simp [JSNumber.le, JSNumber.compare] at hxy
    | infinity n2 =>
      cases z with
      | nan => simp [JSNumber.le, JSNumber.compare] at hyz
      | infinity n3 => revert hxy hyz; cases n1 <;> cases n2 <;> cases n3 <;> decide
      | finite n3 m3 e3 =>
        revert hxy hyz
        cases n1 <;> cases n2 <;> simp [JSNumber.le, JSNumber.compare]
    | finite n2 m2 e2 =>
      cases z with
      | nan => simp [JSNumber.le, JSNumber.compare] at hyz
      | infinity n3 =>
        revert hxy hyz
        cases n1 <;> cases n3 <;> simp [JSNumber.le, JSNumber.compare]
      | finite n3 m3 e3 =>
        revert hxy
        cases n1 <;> simp [JSNumber.le, JSNumber.compare]
  | finite n1 m1 e1 =>
    cases y with
    | nan => simp [JSNumber.le, JSNumber.compare] at hxy
    | infinity n2 =>
      cases z with
      | nan => simp [JSNumber.le, JSNumber.compare] at hyz
      | infinity n3 =>
        revert hxy hyz
        cases n2 <;> cases n3 <;> simp [JSNumber.le, JSNumber.compare]
      | finite n3 m3 e3 =>
        revert hxy hyz
        cases n2 <;> simp [JSNumber.le, JSNumber.compare]
    | finite n2 m2 e2 =>
      cases z with
      | nan => simp [JSNumber.le, JSNumber.compare] at hyz
      | infinity n3 =>
        revert hyz
        cases n3 <;> simp [JSNumber.le, JSNumber.compare]
      | finite n3 m3 e3 =>
        have hm1 : min e1 (min e2 e3) ≤ e1 := min_le_left _ _
        have hm2 : min e1 (min e2 e3) ≤ e2 := (min_le_right _ _).trans (min_le_left _ _)
        have hm3 : min e1 (min e2 e3) ≤ e3 := (min_le_right _ _).trans (min_le_right _ _)
        rw [JSNumber.le_finite_scaled _ _ _ _ _ _ _ hm1 hm2] at hxy
        rw [JSNumber.le_finite_scaled _ _ _ _ _ _ _ hm2 hm3] at hyz
        rw [JSNumber.le_finite_scaled _ _ _ _ _ _ _ hm1 hm3]
        exact Int.le_trans hxy hyz

theorem bitLength_spec : ∀ (fuel n : Nat), n ≤ fuel →
    n < 2 ^ bitLength fuel n ∧ (n ≠ 0 → 2 ^ (bitLength fuel n - 1) ≤ n)
  | 0, n, h => by
    have : n = 0 := by omega
    subst this
    simp [bitLength]
  | fuel + 1, n, h => by
    unfold bitLength
    by_cases h0 : n = 0
    · subst h0; simp
    · rw [if_neg h0]
      obtain ⟨h1, h2⟩ := bitLength_spec fuel (n / 2) (by omega)
      refine ⟨?_, fun _ => ?_⟩
      · rw [pow_succ]; omega
      · simp only [Nat.add_sub_cancel]
        by_cases h3 : n / 2 = 0
        · have : bitLength fuel (n / 2) = 0 := by
            rw [h3]; cases fuel <;> simp [bitLength]
          rw [this]; simp; omega
        · have h4 := h2 h3
          have h5 : 0 < bitLength fuel (n / 2) := by
            rcases Nat.eq_zero_or_pos (bitLength fuel (n / 2)) with h | h
            · rw [h] at h1; simp at h1; exact absurd h1 h3
            · exact h
          have h6 : bitLength fuel (n / 2) = (bitLength fuel (n / 2) - 1) + 1 := by omega
          rw [h6, pow_succ]
          omega

theorem JSNumber.toDouble_isNaN (x : JSNumber) : x.toDouble.isNaN = x.isNaN := by
  cases x with
  | nan => rfl
  | infinity n => rfl
  | finite n m e =>
    simp only [JSNumber.toDouble]
    split
    · rfl
    · split
      · rfl
      · split <;> rfl

theorem two_zpow_toNat (k : ℤ) :
    ((2 : ℚ) ^ k.toNat) / ((2 : ℚ) ^ (-k).toNat) = (2 : ℚ) ^ k := by
  rcases le_total 0 k with h | h
  · obtain ⟨m, rfl⟩ := Int.eq_ofNat_of_zero_le h
    have h0 : (-(m : ℤ)).toNat = 0 := by omega
    simp [h0]
  · obtain ⟨m, hm⟩ := Int.eq_ofNat_of_zero_le (neg_nonneg.2 h)
    have hk : k = -(m : ℤ) := by omega
    subst hk
    have h0 : (-(m : ℤ)).toNat = 0 := by omega
    simp [h0]

/-- The test `den * 2^k <= num` of `roundToDouble`, written without fractions, is
`2^k <= num / den`. -/
theorem two_zpow_le_iff (num den : Nat) (hden : 0 < den) (k : ℤ) :
    den * 2 ^ k.toNat ≤ num * 2 ^ (-k).toNat ↔ (2 : ℚ) ^ k ≤ (num : ℚ) / den := by
  have hd : (0 : ℚ) < den := by exact_mod_cast hden
  have hp : (0 : ℚ) < (2 : ℚ) ^ (-k).toNat := by positivity
  rw [← two_zpow_toNat k, div_le_div_iff₀ hp hd]
  constructor
  · intro h
    have : ((den * 2 ^ k.toNat : ℕ) : ℚ) ≤ ((num * 2 ^ (-k).toNat : ℕ) : ℚ) := by
      exact_mod_cast h
    push_cast at this
    linarith
  · intro h
    have : ((den * 2 ^ k.toNat : ℕ) : ℚ) ≤ ((num * 2 ^ (-k).toNat : ℕ) : ℚ) := by
      push_cast
      linarith
    exact_mod_cast this

theorem bitLength_rat (n : Nat) (hn : 0 < n) :
    (2 : ℚ) ^ ((bitLength n n : ℤ) - 1) ≤ n ∧ (n : ℚ) < (2 : ℚ) ^ (bitLength n n : ℤ) := by
  obtain ⟨h1, h2⟩ := bitLength_spec n n (le_refl n)
  have h3 := h2 (by omega)
  have hpos : 0 < bitLength n n := by
    rcases Nat.eq_zero_or_pos (bitLength n n) with h | h
    · rw [h] at h1; simp at h1; omega
    · exact h
  constructor
  · have : ((bitLength n n : ℤ) - 1) = ((bitLength n n - 1 : ℕ) : ℤ) := by omega
    rw [this, zpow_natCast]
    exact_mod_cast h3
  · rw [zpow_natCast]
    exact_mod_cast h1

/-- The exponent that `floorLog2` computes is the binary logarithm of `num / den`, rounded
down. -/
theorem floorLog2_spec (num den : Nat) (hnum : 0 < num) (hden : 0 < den) :
    (2 : ℚ) ^ floorLog2 num den ≤ (num : ℚ) / den ∧
      (num : ℚ) / den < (2 : ℚ) ^ (floorLog2 num den + 1) := by
  unfold floorLog2
  generalize hk : (bitLength num num : ℤ) - (bitLength den den : ℤ) = k
  dsimp only
  obtain ⟨ha1, ha2⟩ := bitLength_rat num hnum
  obtain ⟨hb1, hb2⟩ := bitLength_rat den hden
  have hd : (0 : ℚ) < den := by exact_mod_cast hden
  have hn : (0 : ℚ) < num := by exact_mod_cast hnum
  have two : (0 : ℚ) < 2 := by norm_num
  have hlow : (2 : ℚ) ^ (k - 1) < (num : ℚ) / den := by
    have : (2 : ℚ) ^ (k - 1) = (2 : ℚ) ^ ((bitLength num num : ℤ) - 1)
        / (2 : ℚ) ^ (bitLength den den : ℤ) := by
      rw [← zpow_sub₀ (by norm_num)]
      congr 1
      omega
    rw [this, div_lt_div_iff₀ (by positivity) hd]
    calc (2 : ℚ) ^ ((bitLength num num : ℤ) - 1) * den
        < (2 : ℚ) ^ ((bitLength num num : ℤ) - 1) * (2 : ℚ) ^ (bitLength den den : ℤ) := by
          apply mul_lt_mul_of_pos_left hb2 (by positivity)
      _ ≤ num * (2 : ℚ) ^ (bitLength den den : ℤ) := by
          apply mul_le_mul_of_nonneg_right ha1 (by positivity)
  have hhigh : (num : ℚ) / den < (2 : ℚ) ^ (k + 1) := by
    have : (2 : ℚ) ^ (k + 1) = (2 : ℚ) ^ (bitLength num num : ℤ)
        / (2 : ℚ) ^ ((bitLength den den : ℤ) - 1) := by
      rw [← zpow_sub₀ (by norm_num)]
      congr 1
      omega
    rw [this, div_lt_div_iff₀ hd (by positivity)]
    calc (num : ℚ) * (2 : ℚ) ^ ((bitLength den den : ℤ) - 1)
        < (2 : ℚ) ^ (bitLength num num : ℤ) * (2 : ℚ) ^ ((bitLength den den : ℤ) - 1) := by
          apply mul_lt_mul_of_pos_right ha2 (by positivity)
      _ ≤ (2 : ℚ) ^ (bitLength num num : ℤ) * den := by
          apply mul_le_mul_of_nonneg_left hb1 (by positivity)
  by_cases h : den * 2 ^ k.toNat ≤ num * 2 ^ (-k).toNat
  · rw [if_pos h]
    exact ⟨(two_zpow_le_iff num den hden k).1 h, hhigh⟩
  · rw [if_neg h]
    refine ⟨le_of_lt hlow, ?_⟩
    have : k - 1 + 1 = k := by omega
    rw [this]
    exact lt_of_not_le (fun hle => h ((two_zpow_le_iff num den hden k).2 hle))

/-- The integer that `roundHalfEven` returns is within one half of `n / d`, is even when it
is at one half exactly, and is the quotient rounded down or the next integer. -/
theorem roundHalfEven_spec (n d : Nat) (hd : 0 < d) :
    |(n : ℚ) / d - roundHalfEven n d| ≤ 1 / 2 ∧
    (|(n : ℚ) / d - roundHalfEven n d| = 1 / 2 → roundHalfEven n d % 2 = 0) ∧
    n / d ≤ roundHalfEven n d ∧ roundHalfEven n d ≤ n / d + 1 := by
  have hdq : (0 : ℚ) < d := by exact_mod_cast hd
  have hr : n % d < d := Nat.mod_lt n hd
  have hrq : ((n % d : ℕ) : ℚ) < d := by exact_mod_cast hr
  have hr0 : (0 : ℚ) ≤ ((n % d : ℕ) : ℚ) := by positivity
  have hx : (n : ℚ) / d = ((n / d : ℕ) : ℚ) + ((n % d : ℕ) : ℚ) / d := by
    have h := Nat.div_add_mod n d
    have h2 : ((d * (n / d) + n % d : ℕ) : ℚ) = (n : ℚ) := by rw [h]
    push_cast at h2
    field_simp
    linarith
  unfold roundHalfEven
  by_cases h : d < 2 * (n % d) ∨ (2 * (n % d) = d ∧ n / d % 2 = 1)
  · rw [if_pos h]
    have hdiff : (n : ℚ) / d - ((n / d + 1 : ℕ) : ℚ) = ((n % d : ℕ) : ℚ) / d - 1 := by
      rw [hx]; push_cast; ring
    have hneg : ((n % d : ℕ) : ℚ) / d - 1 < 0 := by
      have : ((n % d : ℕ) : ℚ) / d < 1 := (div_lt_one hdq).2 hrq
      linarith
    rw [hdiff, abs_of_neg hneg]
    refine ⟨?_, ?_, by omega, by omega⟩
    · have h2 : (d : ℚ) ≤ 2 * ((n % d : ℕ) : ℚ) := by
        rcases h with h | h
        · exact_mod_cast le_of_lt h
        · exact_mod_cast le_of_eq h.1.symm
      have : (1 : ℚ) / 2 ≤ ((n % d : ℕ) : ℚ) / d := by
        rw [div_le_div_iff₀ (by norm_num) hdq]
        linarith
      linarith
    · intro htie
      have h2 : 2 * ((n % d : ℕ) : ℚ) = d := by
        have : ((n % d : ℕ) : ℚ) / d = 1 / 2 := by linarith
        rw [div_eq_div_iff (ne_of_gt hdq) (by norm_num)] at this
        linarith
      have h3 : 2 * (n % d) = d := by exact_mod_cast h2
      rcases h with h | h
      · omega
      · omega
  · rw [if_neg h]
    have hdiff : (n : ℚ) / d - ((n / d : ℕ) : ℚ) = ((n % d : ℕ) : ℚ) / d := by
      rw [hx]; ring
    have hpos : 0 ≤ ((n % d : ℕ) : ℚ) / d := by positivity
    rw [hdiff, abs_of_nonneg hpos]
    have h1 : 2 * (n % d) ≤ d := by
      by_contra hc
      exact h (Or.inl (by omega))
    refine ⟨?_, ?_, le_refl _, by omega⟩
    · have h2 : 2 * ((n % d : ℕ) : ℚ) ≤ d := by exact_mod_cast h1
      rw [div_le_div_iff₀ hdq (by norm_num)]
      linarith
    · intro htie
      have h2 : 2 * ((n % d : ℕ) : ℚ) = d := by
        rw [div_eq_div_iff (ne_of_gt hdq) (by norm_num)] at htie
        linarith
      have h3 : 2 * (n % d) = d := by exact_mod_cast h2
      by_contra hodd
      exact h (Or.inr ⟨h3, by omega⟩)

/-- The scaled quotient that `roundToDouble` rounds to an integer: with the exponent `e`
that the function chooses, `num / den` is `n / d * 2^e`, the quotient `n / d` is below
`2^53`, it is at least `2^52` unless `e` is the least exponent, and an exponent above
`971` is only chosen from `2^1024` on. -/
theorem roundToDouble_scaled (num den : Nat) (hnum : 0 < num) (hden : 0 < den) (e : ℤ)
    (he : e = max (floorLog2 num den - 52) (-1074)) :
    0 < den * 2 ^ e.toNat ∧
    (num : ℚ) / den
      = ((num * 2 ^ (-e).toNat : ℕ) : ℚ) / ((den * 2 ^ e.toNat : ℕ) : ℚ) * (2 : ℚ) ^ e ∧
    (num * 2 ^ (-e).toNat) / (den * 2 ^ e.toNat) < 2 ^ 53 ∧
    (-1074 < e → 2 ^ 52 ≤ (num * 2 ^ (-e).toNat) / (den * 2 ^ e.toNat)) ∧
    (971 < e → (2 : ℚ) ^ (1024 : ℤ) ≤ (num : ℚ) / den) := by
  obtain ⟨hlo, hhi⟩ := floorLog2_spec num den hnum hden
  have hd : 0 < den * 2 ^ e.toNat := Nat.mul_pos hden (by positivity)
  have hdq : (0 : ℚ) < ((den * 2 ^ e.toNat : ℕ) : ℚ) := by exact_mod_cast hd
  have hden2 : (0 : ℚ) < den := by exact_mod_cast hden
  have hscale : (num : ℚ) / den
      = ((num * 2 ^ (-e).toNat : ℕ) : ℚ) / ((den * 2 ^ e.toNat : ℕ) : ℚ) * (2 : ℚ) ^ e := by
    have h1 := two_zpow_toNat e
    have hp1 : (0 : ℚ) < (2 : ℚ) ^ e.toNat := by positivity
    have hp2 : (0 : ℚ) < (2 : ℚ) ^ (-e).toNat := by positivity
    rw [← h1]
    push_cast
    field_simp
    ring
  have hpe : (0 : ℚ) < (2 : ℚ) ^ e := by positivity
  have hx : ((num * 2 ^ (-e).toNat : ℕ) : ℚ) / ((den * 2 ^ e.toNat : ℕ) : ℚ)
      = (num : ℚ) / den / (2 : ℚ) ^ e := by
    rw [hscale]
    field_simp
    ring
  have he1 : floorLog2 num den - 52 ≤ e := by rw [he]; exact le_max_left _ _
  have he2 : -1074 ≤ e := by rw [he]; exact le_max_right _ _
  refine ⟨hd, hscale, ?_, ?_, ?_⟩
  · rw [Nat.div_lt_iff_lt_mul hd]
    have hlt : ((num * 2 ^ (-e).toNat : ℕ) : ℚ) / ((den * 2 ^ e.toNat : ℕ) : ℚ)
        < (2 : ℚ) ^ (53 : ℕ) := by
      rw [hx, div_lt_iff₀ hpe]
      calc (num : ℚ) / den < (2 : ℚ) ^ (floorLog2 num den + 1) := hhi
        _ ≤ (2 : ℚ) ^ (53 + e) := zpow_le_zpow_right₀ (by norm_num) (by omega)
        _ = (2 : ℚ) ^ (53 : ℕ) * (2 : ℚ) ^ e := by
          rw [zpow_add₀ (by norm_num)]
          norm_num
    rw [div_lt_iff₀ hdq] at hlt
    exact_mod_cast hlt
  · intro hgt
    have heq : e = floorLog2 num den - 52 := by
      rw [he] at hgt ⊢
      rcases max_cases (floorLog2 num den - 52) (-1074) with h | h
      · exact h.1
      · rw [h.1] at hgt; omega
    rw [Nat.le_div_iff_mul_le hd]
    have hle : (2 : ℚ) ^ (52 : ℕ)
        ≤ ((num * 2 ^ (-e).toNat : ℕ) : ℚ) / ((den * 2 ^ e.toNat : ℕ) : ℚ) := by
      rw [hx, le_div_iff₀ hpe]
      calc (2 : ℚ) ^ (52 : ℕ) * (2 : ℚ) ^ e = (2 : ℚ) ^ (52 + e) := by
            rw [zpow_add₀ (by norm_num)]
            norm_num
        _ = (2 : ℚ) ^ floorLog2 num den := by congr 1; omega
        _ ≤ (num : ℚ) / den := hlo
    rw [le_div_iff₀ hdq] at hle
    exact_mod_cast hle
  · intro hgt
    have heq : e = floorLog2 num den - 52 := by
      rw [he] at hgt ⊢
      rcases max_cases (floorLog2 num den - 52) (-1074) with h | h
      · exact h.1
      · rw [h.1] at hgt; omega
    calc (2 : ℚ) ^ (1024 : ℤ) ≤ (2 : ℚ) ^ floorLog2 num den :=
          zpow_le_zpow_right₀ (by norm_num) (by omega)
      _ ≤ (num : ℚ) / den := hlo

/-- The double that `roundToDouble` returns is a nearest one: `q * 2^e` is a double (a
significand of at most 53 bits and an exponent in range, the significand having its 53
bits unless the exponent is the least one), it is below `2^1024`, it is within half a
unit in the last place of `num / den`, and on a tie the significand is even. -/
theorem roundToDouble_some (num den : Nat) (hnum : 0 < num) (hden : 0 < den) (q : Nat)
    (e : ℤ) (h : roundToDouble num den = some (q, e)) :
    -1074 ≤ e ∧ e ≤ 971 ∧ q ≤ 2 ^ 53 ∧ (-1074 < e → 2 ^ 52 ≤ q) ∧
    (q : ℚ) * (2 : ℚ) ^ e < (2 : ℚ) ^ (1024 : ℤ) ∧
    |(num : ℚ) / den - q * (2 : ℚ) ^ e| ≤ (2 : ℚ) ^ e / 2 ∧
    (|(num : ℚ) / den - q * (2 : ℚ) ^ e| = (2 : ℚ) ^ e / 2 → q % 2 = 0) := by
  unfold roundToDouble at h
  dsimp only at h
  split at h
  · cases h
  · rename_i hnot
    simp only [Option.some.injEq, Prod.mk.injEq] at h
    obtain ⟨hq, he⟩ := h
    obtain ⟨hd, hscale, hlt, hge, _⟩ := roundToDouble_scaled num den hnum hden e he.symm
    rw [he] at hq hnot
    obtain ⟨hnear, htie, hdown, hup⟩ :=
      roundHalfEven_spec (num * 2 ^ (-e).toNat) (den * 2 ^ e.toNat) hd
    rw [hq] at hnear htie hdown hup
    have hpe : (0 : ℚ) < (2 : ℚ) ^ e := by positivity
    have he2 : -1074 ≤ e := by rw [← he]; exact le_max_right _ _
    have he3 : e ≤ 971 := by
      by_contra hc
      exact hnot (Or.inl (by omega))
    have hq53 : q ≤ 2 ^ 53 := by omega
    have hdist : (num : ℚ) / den - q * (2 : ℚ) ^ e
        = (((num * 2 ^ (-e).toNat : ℕ) : ℚ) / ((den * 2 ^ e.toNat : ℕ) : ℚ) - q)
          * (2 : ℚ) ^ e := by
      rw [sub_mul, ← hscale]
    have habs : |(num : ℚ) / den - q * (2 : ℚ) ^ e|
        = |((num * 2 ^ (-e).toNat : ℕ) : ℚ) / ((den * 2 ^ e.toNat : ℕ) : ℚ) - q|
          * (2 : ℚ) ^ e := by
      rw [hdist, abs_mul, abs_of_pos hpe]
    refine ⟨he2, he3, hq53, fun hgt => le_trans (hge hgt) hdown, ?_, ?_, ?_⟩
    · by_cases h971 : e = 971
      · have hq2 : q ≠ 2 ^ 53 := fun hc => hnot (Or.inr ⟨h971, by rw [hq]; exact hc⟩)
        have hq3 : q + 1 ≤ 2 ^ 53 := by omega
        have hq4 : (q : ℚ) + 1 ≤ (2 : ℚ) ^ (53 : ℕ) := by exact_mod_cast hq3
        rw [h971]
        have h1024 : (2 : ℚ) ^ (1024 : ℤ) = (2 : ℚ) ^ (53 : ℕ) * (2 : ℚ) ^ (971 : ℤ) := by
          rw [← zpow_natCast, ← zpow_add₀ (by norm_num)]
          norm_num
        rw [h1024]
        apply mul_lt_mul_of_pos_right _ (by positivity)
        linarith
      · have hq4 : (q : ℚ) ≤ (2 : ℚ) ^ (53 : ℕ) := by exact_mod_cast hq53
        calc (q : ℚ) * (2 : ℚ) ^ e ≤ (2 : ℚ) ^ (53 : ℕ) * (2 : ℚ) ^ e :=
              mul_le_mul_of_nonneg_right hq4 (le_of_lt hpe)
          _ = (2 : ℚ) ^ (53 + e) := by
              rw [zpow_add₀ (by norm_num)]
              norm_num
          _ ≤ (2 : ℚ) ^ (1023 : ℤ) := zpow_le_zpow_right₀ (by norm_num) (by omega)
          _ < (2 : ℚ) ^ (1024 : ℤ) := zpow_lt_zpow_right₀ (by norm_num) (by norm_num)
    · rw [habs]
      calc |((num * 2 ^ (-e).toNat : ℕ) : ℚ) / ((den * 2 ^ e.toNat : ℕ) : ℚ) - q|
            * (2 : ℚ) ^ e ≤ 1 / 2 * (2 : ℚ) ^ e :=
            mul_le_mul_of_nonneg_right hnear (le_of_lt hpe)
        _ = (2 : ℚ) ^ e / 2 := by ring
    · intro heq
      apply htie
      rw [habs] at heq
      have : |((num * 2 ^ (-e).toNat : ℕ) : ℚ) / ((den * 2 ^ e.toNat : ℕ) : ℚ) - q|
          * (2 : ℚ) ^ e = 1 / 2 * (2 : ℚ) ^ e := by rw [heq]; ring
      exact mul_right_cancel₀ (ne_of_gt hpe) this

/-- The overflow of `roundToDouble` is only returned from `2^1024 - 2^970` on, the middle
of the largest double and `2^1024`. -/
theorem roundToDouble_none (num den : Nat) (hnum : 0 < num) (hden : 0 < den)
    (h : roundToDouble num den = none) :
    (2 : ℚ) ^ (1024 : ℤ) - (2 : ℚ) ^ (970 : ℤ) ≤ (num : ℚ) / den := by
  unfold roundToDouble at h
  dsimp only at h
  split at h
  · rename_i hover
    generalize he : max (floorLog2 num den - 52) (-1074) = e at hover
    obtain ⟨hd, hscale, _, _, hbig⟩ := roundToDouble_scaled num den hnum hden e he.symm
    have hpos : (0 : ℚ) < (2 : ℚ) ^ (970 : ℤ) := by positivity
    rcases hover with hgt | ⟨h971, hq⟩
    · have := hbig hgt
      linarith
    · obtain ⟨hnear, _, _, _⟩ :=
        roundHalfEven_spec (num * 2 ^ (-e).toNat) (den * 2 ^ e.toNat) hd
      rw [hq] at hnear
      generalize ((num * 2 ^ (-e).toNat : ℕ) : ℚ) / ((den * 2 ^ e.toNat : ℕ) : ℚ) = x
        at hnear hscale
      have hlow := (abs_le.1 hnear).1
      have hcast : ((2 ^ 53 : ℕ) : ℚ) = (2 : ℚ) ^ (53 : ℕ) := by norm_num
      rw [hcast] at hlow
      rw [hscale, h971]
      have h1 : (2 : ℚ) ^ (1024 : ℤ) - (2 : ℚ) ^ (970 : ℤ)
          = ((2 : ℚ) ^ (53 : ℕ) - 1 / 2) * (2 : ℚ) ^ (971 : ℤ) := by
        have a : (2 : ℚ) ^ (1024 : ℤ) = (2 : ℚ) ^ (53 : ℕ) * (2 : ℚ) ^ (971 : ℤ) := by
          rw [← zpow_natCast, ← zpow_add₀ (by norm_num)]
          norm_num
        have b : (2 : ℚ) ^ (971 : ℤ) = 2 * (2 : ℚ) ^ (970 : ℤ) := by
          rw [show (971 : ℤ) = 1 + 970 by norm_num, zpow_add₀ (by norm_num), zpow_one]
        rw [a, b]
        ring
      rw [h1]
      apply mul_le_mul_of_nonneg_right _ (by positivity)
      linarith
  · cases h

/-- The comparison of the doubles is total and transitive on numeric cells. -/
theorem numberLe_numeric (cells : List (Option JSString))
    (hnum : ∀ a ∈ cells, ((a.map Number).getD .nan).isNaN = false) :
    (∀ a ∈ cells, a.isSome = true) ∧
    (∀ a ∈ cells, ∀ b ∈ cells, numberLe a b = true ∨ numberLe b a = true) ∧
    (∀ a ∈ cells, ∀ b ∈ cells, ∀ d ∈ cells,
      numberLe a b = true → numberLe b d = true → numberLe a d = true) := by
  have hdouble : ∀ a ∈ cells, ((a.map Number).getD .nan).toDouble.isNaN = false :=
    fun a ha => by rw [JSNumber.toDouble_isNaN]; exact hnum a ha
  refine ⟨?_, ?_, ?_⟩
  · intro a ha
    have h := hnum a ha
    cases a with
    | none => cases h
    | some v => rfl
  · intro a ha b hb
    exact JSNumber.le_total _ _ (hdouble a ha) (hdouble b hb)
  · intro a _ b _ d _ hab hbd
    exact JSNumber.le_trans _ _ _ hab hbd

/-! ## Theorems: a rejected line in `submitForm` -/

theorem foldl_fire_savedResponses (timers : List Timer) (page : Page) :
    (timers.foldl (fun p t => t.fire p) page).savedResponses = page.savedResponses := by
  induction timers generalizing page with
  | nil => rfl
  | cons t ts ih =>
    rw [List.foldl_cons, ih]
    cases t
    rfl

theorem submitForm_of_rejected (dateValues : List JSString) (sendRequest : JSString → JSValue)
    (page : Page) (errs : List Diag) (hblank : trim page.inputValue ≠ [])
    (hrej : validateInput dateValues page.inputValue false = some (false, errs)) :
    submitForm dateValues sendRequest page
      = { page with requests := page.requests ++ [page.inputValue],
                    errors := page.errors ++ errs,
                    timers := page.timers ++ [Timer.clearInput] } := by
  unfold submitForm
  dsimp only
  rw [if_neg hblank, hrej]

/-- C17 (counterexample): the line `foo` is not blank and is rejected, the saved history
stays as it was, and the text of the input box is the empty string once the callback that
`submitForm` has scheduled has run: it is cleared. -/
theorem submitForm_clears_rejected_counterexample :
    trim "foo".toList ≠ [] ∧
    (validateInput twoDates "foo".toList false).map (fun o => o.1) = some false ∧
    (runTimers (submitForm twoDates (fun _ => JSValue.undefined)
      { inputValue := "foo".toList, savedResponses := [], requests := [], errors := [],
        timers := [] })).inputValue = [] ∧
    (runTimers (submitForm twoDates (fun _ => JSValue.undefined)
      { inputValue := "foo".toList, savedResponses := [], requests := [], errors := [],
        timers := [] })).savedResponses = [] := by
  decide

/-- C17 (amended): for every non-blank line that `validateInput(line, false)` rejects,
`submitForm` leaves `savedResponses` unchanged, echoes the line on the page and schedules
the clearing of the input box: the text is still the submitted line when `submitForm`
returns and is the empty string once the callback has run, the saved history being
unchanged then too; the edit button of the echoed request puts the line back. -/
theorem submitForm_rejected (dateValues : List JSString) (sendRequest : JSString → JSValue)
    (page : Page) (errs : List Diag) (hblank : trim page.inputValue ≠ [])
    (hrej : validateInput dateValues page.inputValue false = some (false, errs)) :
    (submitForm dateValues sendRequest page).savedResponses = page.savedResponses ∧
    (submitForm dateValues sendRequest page).inputValue = page.inputValue ∧
    (submitForm dateValues sendRequest page).requests = page.requests ++ [page.inputValue] ∧
    (submitForm dateValues sendRequest page).timers = page.timers ++ [Timer.clearInput] ∧
    (runTimers (submitForm dateValues sendRequest page)).inputValue = [] ∧
    (runTimers (submitForm dateValues sendRequest page)).savedResponses
      = page.savedResponses ∧
    (clickEdit page.inputValue (runTimers (submitForm dateValues sendRequest page))).inputValue
      = page.inputValue := by
  rw [submitForm_of_rejected dateValues sendRequest page errs hblank hrej]
  refine ⟨rfl, rfl, rfl, rfl, ?_, ?_, rfl⟩
  · simp only [runTimers, List.foldl_append, List.foldl_cons, List.foldl_nil, Timer.fire]
  · simp only [runTimers, foldl_fire_savedResponses]

theorem submitForm_rejected_witness :
    (submitForm twoDates (fun _ => JSValue.undefined)
      { inputValue := "foo".toList, savedResponses := [], requests := [], errors := [],
        timers := [] }).savedResponses = [] ∧
    (submitForm twoDates (fun _ => JSValue.undefined)
      { inputValue := "foo".toList, savedResponses := [], requests := [], errors := [],
        timers := [] }).inputValue = "foo".toList :=
  have h := submitForm_rejected twoDates (fun _ => JSValue.undefined)
    { inputValue := "foo".toList, savedResponses := [], requests := [], errors := [],
      timers := [] } [.unknownQuery false (some "foo".toList)] (by decide) (by rfl)
  ⟨h.1, h.2.1⟩

/-! ## Theorems: the arrow keys -/

theorem keySwitch_arrowDown (n : Nat) (i : Int) (h0 : 0 ≤ i) (hi : i < n) :
    keySwitch "ArrowDown" n i = (i + 1) % (n : Int) := by
  unfold keySwitch
  rw [if_pos rfl]
  by_cases h : i + 1 ≥ (n : Int)
  · rw [if_pos h]
    have : i + 1 = (n : Int) := by omega
    rw [this, Int.emod_self]
  · rw [if_neg h, Int.emod_eq_of_lt (by omega) (by omega)]

theorem keySwitch_arrowUp (n : Nat) (i : Int) (hn : 1 ≤ n) (h0 : 0 ≤ i) (hi : i < n) :
    keySwitch "ArrowUp" n i = (i - 1) % (n : Int) := by
  unfold keySwitch
  rw [if_neg (by decide), if_pos rfl]
  by_cases h : i - 1 < 0
  · rw [if_pos h]
    have hi0 : i = 0 := by omega
    subst hi0
    have h1 : ((0 : Int) - 1) = ((n : Int) - 1) + (-1) * (n : Int) := by ring
    rw [h1, Int.add_mul_emod_self, Int.emod_eq_of_lt (by omega) (by omega)]
  · rw [if_neg h, Int.emod_eq_of_lt (by omega) (by omega)]

theorem iterate_arrowDown (n : Nat) (hn : 1 ≤ n) (i : Int) (h0 : 0 ≤ i) (hi : i < n) :
    ∀ k : Nat, Nat.iterate (keySwitch "ArrowDown" n) k i = (i + k) % (n : Int) := by
  intro k
  induction k with
  | zero => simp [Int.emod_eq_of_lt h0 hi]
  | succ k ih =>
    rw [Function.iterate_succ_apply', ih,
      keySwitch_arrowDown n _ (Int.emod_nonneg _ (by omega))
        (Int.emod_lt_of_pos _ (by omega)),
      Int.emod_add_emod]
    congr 1
    push_cast
    ring

theorem iterate_arrowUp (n : Nat) (hn : 1 ≤ n) (i : Int) (h0 : 0 ≤ i) (hi : i < n) :
    ∀ k : Nat, Nat.iterate (keySwitch "ArrowUp" n) k i = (i - k) % (n : Int) := by
  intro k
  induction k with
  | zero => simp [Int.emod_eq_of_lt h0 hi]
  | succ k ih =>
    have hsub : ∀ a : Int, a - 1 = a + (-1) := fun a => by ring
    rw [Function.iterate_succ_apply', ih,
      keySwitch_arrowUp n _ hn (Int.emod_nonneg _ (by omega))
        (Int.emod_lt_of_pos _ (by omega)),
      hsub, Int.emod_add_emod]
    congr 1
    push_cast
    ring

/-- What the key switch makes of an index `i` with `0 <= i < n` on `n >= 1` candidates:
`(i + 1) mod n` for `ArrowDown`, `(i - 1) mod n` for `ArrowUp`, and `i` again after `n`
times the same arrow. -/
theorem selectIndex_arrows (n : Nat) (i : Int) (hn : 1 ≤ n) (h0 : 0 ≤ i) (hi : i < n) :
    selectIndex "keydown" "ArrowDown" n i = (i + 1) % (n : Int) ∧
    selectIndex "keydown" "ArrowUp" n i = (i - 1) % (n : Int) ∧
    selectIndex "keydown" "ArrowUp" n 0 = (n : Int) - 1 ∧
    Nat.iterate (selectIndex "keydown" "ArrowDown" n) n i = i ∧
    Nat.iterate (selectIndex "keydown" "ArrowUp" n) n i = i := by
  have hsel : ∀ key, selectIndex "keydown" key n = keySwitch key n := by
    intro key
    funext j
    unfold selectIndex
    rw [if_pos rfl]
  rw [hsel, hsel]
  refine ⟨keySwitch_arrowDown n i h0 hi, keySwitch_arrowUp n i hn h0 hi, ?_, ?_, ?_⟩
  · unfold keySwitch
    rw [if_neg (by decide), if_pos rfl, if_pos (by omega)]
  · rw [iterate_arrowDown n hn i h0 hi n, Int.add_emod_self, Int.emod_eq_of_lt h0 hi]
  · have h1 : i - (n : Int) = i + (-1) * (n : Int) := by ring
    rw [iterate_arrowUp n hn i h0 hi n, h1, Int.add_mul_emod_self,
      Int.emod_eq_of_lt h0 hi]

/-! ## Theorems: `handleAutoComplete` returns -/

theorem arrayIndex_mem {α : Type} {xs : List α} {i : Int} {x : α}
    (h : arrayIndex xs i = some x) : x ∈ xs := by
  unfold arrayIndex at h
  by_cases hi : i < 0
  · rw [if_pos hi] at h; cases h
  · rw [if_neg hi] at h; exact List.getElem?_mem h

theorem canSubQuery_params :
    ∀ q ∈ queries, q.canSubQuery = true → ∀ p ∈ q.params, p.type ≠ ParamType.subquery := by
  decide

theorem not_subquery_slot {query : Query}
    (hq : ∀ p ∈ query.params, p.type ≠ ParamType.subquery) (i : Int) :
    ¬ ((arrayIndex query.params i).map (fun param => param.type) = some ParamType.subquery ∨
        (arrayIndex query.params i = none ∧
          query.params.getLast?.map (fun param => param.type) = some ParamType.subquery)) := by
  rintro (h | ⟨_, h⟩)
  · cases hp : arrayIndex query.params i with
    | none => rw [hp] at h; cases h
    | some p =>
      rw [hp] at h
      exact hq p (arrayIndex_mem hp) (Option.some.inj h)
  · cases hp : query.params.getLast? with
    | none => rw [hp] at h; cases h
    | some p =>
      rw [hp] at h
      exact hq p (List.mem_of_getLast?_eq_some hp) (Option.some.inj h)

theorem parameterSlot_of_no_subquery {rowValues dateValues : List JSString}
    {evtName key : String} {idx : Int} {inpValue : JSString} {query : Query}
    (hq : ∀ p ∈ query.params, p.type ≠ ParamType.subquery)
    (sub other : JSString → Option AutoComplete) :
    parameterSlot rowValues dateValues sub evtName key idx inpValue query
      = parameterSlot rowValues dateValues other evtName key idx inpValue query ∧
    (parameterSlot rowValues dateValues sub evtName key idx inpValue query).isSome = true := by
  unfold parameterSlot
  dsimp only
  cases possibleParameterValues rowValues dateValues
      (arrayIndex query.params (currentIdx query (getArgs inpValue) inpValue))
      ((arrayIndex (getArgs inpValue)
        (currentIdx query (getArgs inpValue) inpValue + 1)).getD []) with
  | none => exact ⟨rfl, rfl⟩
  | some values =>
    dsimp only
    rw [if_neg (not_subquery_slot hq _), if_neg (not_subquery_slot hq _)]
    exact ⟨rfl, rfl⟩

theorem parameterSlot_isSome {rowValues dateValues : List JSString}
    {evtName key : String} {idx : Int} {inpValue : JSString} {query : Query}
    {sub : JSString → Option AutoComplete} (hsub : ∀ line, (sub line).isSome = true) :
    (parameterSlot rowValues dateValues sub evtName key idx inpValue query).isSome = true := by
  unfold parameterSlot
  dsimp only
  cases possibleParameterValues rowValues dateValues
      (arrayIndex query.params (currentIdx query (getArgs inpValue) inpValue))
      ((arrayIndex (getArgs inpValue)
        (currentIdx query (getArgs inpValue) inpValue + 1)).getD []) with
  | none => rfl
  | some values =>
    dsimp only
    split_ifs
    all_goals first
      | rfl
      | (rw [Option.isSome_map']; exact hsub _)

theorem chooseSlot_parameter {inputActive autocompleteActive : Bool} {evtName key : String}
    {idx : Int} {inpValue : JSString} {isSubQuery : Bool} {q : Query}
    (h : chooseSlot inputActive autocompleteActive evtName key idx inpValue isSubQuery
      = .parameter q) :
    q ∈ queries ∧ (q.canSubQuery || !isSubQuery) = true := by
  have hmem : ∀ x ∈ (queries.filter (fun query => query.canSubQuery || !isSubQuery)).filter
      (fun query => some query.name == (getArgs inpValue)[0]?),
      x ∈ queries ∧ (x.canSubQuery || !isSubQuery) = true := by
    intro x hx
    have := List.mem_filter.1 (List.mem_filter.1 hx).1
    exact ⟨this.1, this.2⟩
  unfold chooseSlot at h
  dsimp only at h
  generalize (queries.filter (fun query => query.canSubQuery || !isSubQuery)).filter
      (fun query => some query.name == (getArgs inpValue)[0]?) = enumed at h hmem
  split_ifs at h
  all_goals first
    | cases h
    | (cases enumed with
       | nil => cases h
       | cons first rest =>
         dsimp only at h
         first
           | (cases h; exact hmem _ (by simp))
           | cases h
           | (split at h
              · cases h
              · rename_i actual hfind
                cases h
                exact hmem _ (List.mem_of_find?_eq_some hfind)))

theorem handleAutoCompleteBody_sub (rowValues dateValues : List JSString)
    (sub other : JSString → Option AutoComplete) (inputActive autocompleteActive : Bool)
    (evtName key : String) (idx : Int) (inpValue : JSString) :
    handleAutoCompleteBody rowValues dateValues sub inputActive autocompleteActive evtName
        key idx inpValue true
      = handleAutoCompleteBody rowValues dateValues other inputActive autocompleteActive
          evtName key idx inpValue true ∧
    (handleAutoCompleteBody rowValues dateValues sub inputActive autocompleteActive evtName
        key idx inpValue true).isSome = true := by
  unfold handleAutoCompleteBody
  cases h : chooseSlot inputActive autocompleteActive evtName key idx inpValue true with
  | done r => exact ⟨rfl, rfl⟩
  | parameter q =>
    obtain ⟨hq, hc⟩ := chooseSlot_parameter h
    have hcan : q.canSubQuery = true := by simpa using hc
    exact parameterSlot_of_no_subquery (canSubQuery_params q hq hcan) sub other

/-- The function `handleAutoComplete` satisfies the recursion of the source. -/
theorem handleAutoComplete_eq_body (rowValues dateValues : List JSString)
    (inputActive autocompleteActive : Bool) (evtName key : String) (idx : Int)
    (inpValue : JSString) (isSubQuery : Bool) :
    handleAutoComplete rowValues dateValues inputActive autocompleteActive evtName key idx
        inpValue isSubQuery
      = handleAutoCompleteBody rowValues dateValues
          (fun line => handleAutoComplete rowValues dateValues inputActive false evtName key
            idx line true)
          inputActive autocompleteActive evtName key idx inpValue isSubQuery := by
  have : (fun line => handleAutoCompleteFuel rowValues dateValues inputActive evtName key idx
        1 false line true)
      = (fun line => handleAutoComplete rowValues dateValues inputActive false evtName key
          idx line true) := by
    funext line
    exact (handleAutoCompleteBody_sub rowValues dateValues _ _ inputActive false evtName key
      idx line).1
  rw [handleAutoComplete, handleAutoCompleteFuel, this]

theorem handleAutoComplete_sub_isSome (rowValues dateValues : List JSString)
    (inputActive autocompleteActive : Bool) (evtName key : String) (idx : Int)
    (inpValue : JSString) :
    (handleAutoComplete rowValues dateValues inputActive autocompleteActive evtName key idx
      inpValue true).isSome = true := by
  rw [handleAutoComplete_eq_body]
  exact (handleAutoCompleteBody_sub rowValues dateValues _ (fun _ => none) inputActive
    autocompleteActive evtName key idx inpValue).2

/-- Every call of `handleAutoComplete` returns: the bound on the recursion is not
reached. -/
theorem handleAutoComplete_isSome (rowValues dateValues : List JSString)
    (inputActive autocompleteActive : Bool) (evtName key : String) (idx : Int)
    (inpValue : JSString) (isSubQuery : Bool) :
    (handleAutoComplete rowValues dateValues inputActive autocompleteActive evtName key idx
      inpValue isSubQuery).isSome = true := by
  rw [handleAutoComplete_eq_body]
  unfold handleAutoCompleteBody
  cases chooseSlot inputActive autocompleteActive evtName key idx inpValue isSubQuery with
  | done r => rfl
  | parameter q =>
    exact parameterSlot_isSome
      (fun line => handleAutoComplete_sub_isSome rowValues dateValues inputActive false
        evtName key idx line)

/-! ## Theorems: the selection index after a call -/

theorem chooseSlot_done_index {inputActive autocompleteActive : Bool} {evtName key : String}
    {idx : Int} {inpValue : JSString} {isSubQuery : Bool} {r : AutoComplete}
    (h : chooseSlot inputActive autocompleteActive evtName key idx inpValue isSubQuery
      = .done r) :
    r.selectedAutoCompleteIdx
      = match r.view.candidateCount with
        | some count => selectIndex evtName key count idx
        | none => idx := by
  unfold chooseSlot at h
  dsimp only at h
  generalize (queries.filter (fun query => query.canSubQuery || !isSubQuery)).filter
      (fun query => some query.name == (getArgs inpValue)[0]?) = enumed at h
  split_ifs at h
  all_goals first
    | (cases h; rfl)
    | (cases enumed with
       | nil => cases h; rfl
       | cons first rest =>
         dsimp only at h
         first
           | (cases h; rfl)
           | cases h
           | (split at h
              · cases h; rfl
              · cases h))

theorem parameterSlot_index {rowValues dateValues : List JSString}
    {evtName key : String} {idx : Int} {inpValue : JSString} {query : Query}
    {sub : JSString → Option AutoComplete} {r : AutoComplete}
    (hsub : ∀ line inner, sub line = some inner →
      inner.selectedAutoCompleteIdx
        = match inner.view.candidateCount with
          | some count => selectIndex evtName key count idx
          | none => idx)
    (h : parameterSlot rowValues dateValues sub evtName key idx inpValue query = some r) :
    r.selectedAutoCompleteIdx
      = match r.view.candidateCount with
        | some count => selectIndex evtName key count idx
        | none => idx := by
  unfold parameterSlot at h
  dsimp only at h
  split at h
  · cases h; rfl
  · split_ifs at h
    · cases hinner : sub (autoCompleteSubQueryInput query inpValue) with
      | none => rw [hinner] at h; cases h
      | some inner =>
        rw [hinner] at h
        cases h
        exact hsub _ inner hinner
    all_goals (cases h; rfl)

/-- The selection index after a call of `handleAutoComplete`: what the key switch makes of
the index the call started with when the call has run one of its three switches, and that
index unchanged when it returned before. -/
theorem handleAutoComplete_index {rowValues dateValues : List JSString}
    {inputActive autocompleteActive : Bool} {evtName key : String} {idx : Int}
    {inpValue : JSString} {isSubQuery : Bool} {r : AutoComplete}
    (h : handleAutoComplete rowValues dateValues inputActive autocompleteActive evtName key
      idx inpValue isSubQuery = some r) :
    r.selectedAutoCompleteIdx
      = match r.view.candidateCount with
        | some count => selectIndex evtName key count idx
        | none => idx := by
  have hbody : ∀ (sub : JSString → Option AutoComplete) (aa : Bool) (line : JSString)
      (b : Bool) (out : AutoComplete),
      (∀ l inner, sub l = some inner →
        inner.selectedAutoCompleteIdx
          = match inner.view.candidateCount with
            | some count => selectIndex evtName key count idx
            | none => idx) →
      handleAutoCompleteBody rowValues dateValues sub inputActive aa evtName key idx line b
        = some out →
      out.selectedAutoCompleteIdx
        = match out.view.candidateCount with
          | some count => selectIndex evtName key count idx
          | none => idx := by
    intro sub aa line b out hsub hout
    unfold handleAutoCompleteBody at hout
    cases hc : chooseSlot inputActive aa evtName key idx line b with
    | done o =>
      rw [hc] at hout
      cases hout
      exact chooseSlot_done_index hc
    | parameter q =>
      rw [hc] at hout
      exact parameterSlot_index hsub hout
  rw [handleAutoComplete_eq_body] at h
  refine hbody _ _ _ _ _ ?_ h
  intro l inner hinner
  rw [handleAutoComplete_eq_body] at hinner
  refine hbody _ _ _ _ _ ?_ hinner
  intro l2 inner2 hinner2
  rw [handleAutoComplete_eq_body, (handleAutoCompleteBody_sub rowValues dateValues _
    (fun _ => none) inputActive false evtName key idx l2).1] at hinner2
  exact hbody (fun _ => none) false l2 true inner2 (fun _ _ h3 => by cases h3) hinner2

/-! ## Theorems: the command-name slot -/

/-- The candidates of the command-name slot.  When the line is the empty string, or has
one token and no space at its end, a call that is not stopped by its guards on the event
shows the queries of the registry that may be used at this level and whose name starts
with the token, in the order of the registry. -/
theorem handleAutoComplete_command_slot (rowValues dateValues : List JSString)
    (inputActive autocompleteActive : Bool) (evtName key : String) (idx : Int)
    (inpValue : JSString) (isSubQuery : Bool)
    (hblur : ¬ (evtName = "blur" ∧ autocompleteActive = true))
    (hactive : inputActive = true ∨ evtName = "keydown")
    (hescape : ¬ (evtName = "keydown" ∧ key = "Escape"))
    (hline : inpValue = [] ∨
      ((getArgs inpValue).length = 1 ∧ endsWith inpValue ' ' = false)) :
    ∃ r candidates,
      handleAutoComplete rowValues dateValues inputActive autocompleteActive evtName key idx
        inpValue isSubQuery = some r ∧
      r.view = .queryNames candidates ∧
      r.selectedAutoCompleteIdx = selectIndex evtName key candidates.length idx ∧
      candidates = queries.filter (fun query => (query.canSubQuery || !isSubQuery) &&
        startsWithString query.name ((getArgs inpValue)[0]?.getD [])) ∧
      List.Sublist candidates queries := by
  have hc : chooseSlot inputActive autocompleteActive evtName key idx inpValue isSubQuery
      = .done
        { selectedAutoCompleteIdx :=
            selectIndex evtName key
              ((queries.filter (fun query => query.canSubQuery || !isSubQuery)).filter
                (fun query => startsWithString query.name
                  ((getArgs inpValue)[0]?.getD []))).length idx,
          view := .queryNames
            ((queries.filter (fun query => query.canSubQuery || !isSubQuery)).filter
              (fun query => startsWithString query.name ((getArgs inpValue)[0]?.getD []))),
          tabLookup :=
            if evtName = "keydown" ∧ key = "Tab" then
              .query (arrayIndex
                ((queries.filter (fun query => query.canSubQuery || !isSubQuery)).filter
                  (fun query => startsWithString query.name
                    ((getArgs inpValue)[0]?.getD []))) idx)
            else .notRead } := by
    unfold chooseSlot
    dsimp only
    rw [if_neg hblur, if_pos hactive, if_neg hescape, if_pos hline]
  have hres := handleAutoComplete_eq_body rowValues dateValues inputActive autocompleteActive
    evtName key idx inpValue isSubQuery
  unfold handleAutoCompleteBody at hres
  rw [hc] at hres
  refine ⟨_, _, hres, rfl, rfl, ?_, ?_⟩
  · rw [List.filter_filter]
    congr 1
    funext query
    exact Bool.and_comm _ _
  · exact (List.filter_sublist _).trans (List.filter_sublist _)

/-- C18: on a line of spaces only, which has no token yet, `handleAutoComplete` computes no
candidate list: the test of the command-name slot is `inpValue == ""`, so the call goes on
to look for a query whose name is `args[0]`, finds none and shows "No completions could be
found", whatever `isSubQuery` is.  On the empty line the candidates are the whole
registry, and on ` h`, a line that starts with a space too, they are `help` and
`histogram`. -/
theorem handleAutoComplete_blank_line (rowValues dateValues : List JSString) (idx : Int)
    (isSubQuery : Bool) :
    getArgs " ".toList = [] ∧
    trim " ".toList = [] ∧
    handleAutoComplete rowValues dateValues true false "focus" "" idx " ".toList isSubQuery
      = some { selectedAutoCompleteIdx := idx, view := .noQuery, tabLookup := .notRead } ∧
    handleAutoComplete rowValues dateValues true false "focus" "" idx "".toList false
      = some { selectedAutoCompleteIdx := 0, view := .queryNames queries,
               tabLookup := .notRead } ∧
    handleAutoComplete rowValues dateValues true false "focus" "" idx " h".toList false
      = some { selectedAutoCompleteIdx := 0,
               view := .queryNames
                 [{ name := "help".toList, canSubQuery := false, params := [] },
                  { name := "histogram".toList, canSubQuery := false,
                    params := rangeParams }],
               tabLookup := .notRead } := by
  refine ⟨by decide, by decide, ?_, by rfl, by rfl⟩
  cases isSubQuery <;> rfl

/-! ## Theorems: the keys that reset the selection -/

theorem selectIndex_tab (count : Nat) (idx : Int) :
    selectIndex "keydown" "Tab" count idx = idx := by
  unfold selectIndex keySwitch
  rw [if_pos rfl, if_neg (by decide), if_neg (by decide), if_pos rfl]

theorem selectIndex_other (key : String) (count : Nat) (idx : Int)
    (hup : key ≠ "ArrowUp") (hdown : key ≠ "ArrowDown") (htab : key ≠ "Tab") :
    selectIndex "keydown" key count idx = 0 := by
  unfold selectIndex keySwitch
  rw [if_pos rfl, if_neg hdown, if_neg hup, if_neg htab]

theorem handleAutoComplete_escape (rowValues dateValues : List JSString)
    (inputActive autocompleteActive : Bool) (idx : Int) (inpValue : JSString)
    (isSubQuery : Bool) :
    handleAutoComplete rowValues dateValues inputActive autocompleteActive "keydown" "Escape"
        idx inpValue isSubQuery
      = some { selectedAutoCompleteIdx := idx, view := .escaped, tabLookup := .notRead } := by
  have hc : chooseSlot inputActive autocompleteActive "keydown" "Escape" idx inpValue
      isSubQuery
      = .done { selectedAutoCompleteIdx := idx, view := .escaped, tabLookup := .notRead } := by
    unfold chooseSlot
    rw [if_neg (fun h => absurd h.1 (by decide)), if_pos (Or.inr rfl), if_pos ⟨rfl, rfl⟩]
  rw [handleAutoComplete_eq_body]
  unfold handleAutoCompleteBody
  rw [hc]

/-- C20 (counterexample): a `Tab` keydown on the line `h` with the selection on the second
candidate leaves the index at 1, and the key `6` typed while the current parameter is the
Int parameter of `compare zip` leaves the index at 3. -/
theorem handleAutoComplete_index_kept_counterexample :
    (handleAutoComplete exampleRows twoDates true false "keydown" "Tab" 1 "h".toList
      false).map (fun r => (r.selectedAutoCompleteIdx, r.tabLookup))
      = some (1, .query (some { name := "histogram".toList, canSubQuery := false,
                                params := rangeParams })) ∧
    (handleAutoComplete exampleRows twoDates true false "keydown" "6" 3
      "compare zip 6".toList false).map (fun r => (r.selectedAutoCompleteIdx, r.view))
      = some (3, .noValues .int) := by
  decide

/-- C20 (amended): every keydown is processed, and for a key that is none of `ArrowUp`,
`ArrowDown`, `Tab` and `Escape` the selection index is 0 after the call whenever the call
has run one of its three key switches (command-name slot, enum slot, parameter slot with
candidates), in the call itself or in its recursive call on the sub-query line; when the
call returned before, the index is the one it started with.  `Tab` is a case of its own
that reads the index and leaves it as it is, and `Escape` ends the call at once. -/
theorem handleAutoComplete_keydown_index (rowValues dateValues : List JSString)
    (inputActive autocompleteActive : Bool) (key : String) (idx : Int) (inpValue : JSString)
    (isSubQuery : Bool) :
    ∃ r, handleAutoComplete rowValues dateValues inputActive autocompleteActive "keydown" key
        idx inpValue isSubQuery = some r ∧
      (key = "Tab" ∨ key = "Escape" → r.selectedAutoCompleteIdx = idx) ∧
      (key = "Escape" → r.view = .escaped) ∧
      (key ≠ "ArrowUp" → key ≠ "ArrowDown" → key ≠ "Tab" → key ≠ "Escape" →
        r.selectedAutoCompleteIdx = if r.view.candidateCount.isSome then 0 else idx) := by
  have hsome := handleAutoComplete_isSome rowValues dateValues inputActive autocompleteActive
    "keydown" key idx inpValue isSubQuery
  cases h : handleAutoComplete rowValues dateValues inputActive autocompleteActive "keydown"
      key idx inpValue isSubQuery with
  | none => rw [h] at hsome; cases hsome
  | some r =>
    have hidx := handleAutoComplete_index h
    refine ⟨r, rfl, ?_, ?_, ?_⟩
    · rintro (rfl | rfl)
      · cases hcount : r.view.candidateCount with
        | none => rw [hcount] at hidx; exact hidx
        | some count => rw [hcount] at hidx; rw [hidx]; exact selectIndex_tab count idx
      · rw [handleAutoComplete_escape] at h
        cases h
        rfl
    · rintro rfl
      rw [handleAutoComplete_escape] at h
      cases h
      rfl
    · intro hup hdown htab _
      cases hcount : r.view.candidateCount with
      | none => rw [hcount] at hidx; simpa using hidx
      | some count =>
        rw [hcount] at hidx
        dsimp only at hidx
        rw [hidx, selectIndex_other key count idx hup hdown htab]
        simp

theorem handleAutoComplete_keydown_index_witness :
    ∃ r, handleAutoComplete exampleRows twoDates true false "keydown" "x" 3 "max `t".toList
        false = some r ∧ r.selectedAutoCompleteIdx = 0 := by
  obtain ⟨r, hr, _, _, h⟩ := handleAutoComplete_keydown_index exampleRows twoDates true false
    "x" 3 "max `t".toList false
  refine ⟨r, hr, ?_⟩
  have hv : r.view.candidateCount.isSome = true := by
    have : handleAutoComplete exampleRows twoDates true false "keydown" "x" 3
        "max `t".toList false
        = some { selectedAutoCompleteIdx := 0,
                 view := .parameterValues ["`temperature_max`".toList],
                 tabLookup := .notRead } := by decide
    rw [this] at hr
    cases hr
    rfl
  rw [h (by decide) (by decide) (by decide) (by decide), if_pos hv]

/-! ## Theorems: what is shown does not depend on the selection -/

theorem chooseSlot_indep (inputActive autocompleteActive : Bool) (evtName key other : String)
    (i j : Int) (inpValue : JSString) (isSubQuery : Bool)
    (hkey : key ≠ "Escape") (hother : other ≠ "Escape") :
    (∀ r, chooseSlot inputActive autocompleteActive evtName key i inpValue isSubQuery
        = .done r →
      ∃ r2, chooseSlot inputActive autocompleteActive evtName other j inpValue isSubQuery
        = .done r2 ∧ r2.view = r.view) ∧
    (∀ q, chooseSlot inputActive autocompleteActive evtName key i inpValue isSubQuery
        = .parameter q →
      chooseSlot inputActive autocompleteActive evtName other j inpValue isSubQuery
        = .parameter q) := by
  have h1 : ¬ (evtName = "keydown" ∧ key = "Escape") := fun h => hkey h.2
  have h2 : ¬ (evtName = "keydown" ∧ other = "Escape") := fun h => hother h.2
  unfold chooseSlot
  dsimp only
  rw [if_neg h1, if_neg h2]
  generalize (queries.filter (fun query => query.canSubQuery || !isSubQuery)).filter
      (fun query => some query.name == (getArgs inpValue)[0]?) = enumed
  split_ifs
  all_goals first
    | exact ⟨fun r h => (by cases h; exact ⟨_, rfl, rfl⟩), fun q h => (by cases h)⟩
    | (cases enumed with
       | nil => exact ⟨fun r h => (by cases h; exact ⟨_, rfl, rfl⟩), fun q h => (by cases h)⟩
       | cons first rest =>
         dsimp only
         first
           | exact ⟨fun r h => (by cases h; exact ⟨_, rfl, rfl⟩), fun q h => (by cases h)⟩
           | exact ⟨fun r h => (by cases h), fun q h => h⟩
           | (split
              · exact ⟨fun r h => (by cases h; exact ⟨_, rfl, rfl⟩), fun q h => (by cases h)⟩
              · exact ⟨fun r h => (by cases h), fun q h => h⟩))

theorem parameterSlot_view_indep {rowValues dateValues : List JSString}
    {sub sub2 : JSString → Option AutoComplete} (evtName key other : String) (i j : Int)
    (inpValue : JSString) (query : Query)
    (hsub : ∀ line, (sub line).map (fun r => r.view) = (sub2 line).map (fun r => r.view)) :
    (parameterSlot rowValues dateValues sub evtName key i inpValue query).map
        (fun r => r.view)
      = (parameterSlot rowValues dateValues sub2 evtName other j inpValue query).map
        (fun r => r.view) := by
  unfold parameterSlot
  dsimp only
  cases possibleParameterValues rowValues dateValues
      (arrayIndex query.params (currentIdx query (getArgs inpValue) inpValue))
      ((arrayIndex (getArgs inpValue)
        (currentIdx query (getArgs inpValue) inpValue + 1)).getD []) with
  | none => rfl
  | some values =>
    dsimp only
    split_ifs
    all_goals first
      | rfl
      | (have h := hsub (autoCompleteSubQueryInput query inpValue)
         cases h1 : sub (autoCompleteSubQueryInput query inpValue) <;>
           cases h2 : sub2 (autoCompleteSubQueryInput query inpValue) <;>
           rw [h1, h2] at h <;> simp at h ⊢
         rw [h])

theorem handleAutoCompleteBody_view_indep {rowValues dateValues : List JSString}
    {sub sub2 : JSString → Option AutoComplete} (inputActive autocompleteActive : Bool)
    (evtName key other : String) (i j : Int) (inpValue : JSString) (isSubQuery : Bool)
    (hkey : key ≠ "Escape") (hother : other ≠ "Escape")
    (hsub : ∀ line, (sub line).map (fun r => r.view) = (sub2 line).map (fun r => r.view)) :
    (handleAutoCompleteBody rowValues dateValues sub inputActive autocompleteActive evtName
        key i inpValue isSubQuery).map (fun r => r.view)
      = (handleAutoCompleteBody rowValues dateValues sub2 inputActive autocompleteActive
          evtName other j inpValue isSubQuery).map (fun r => r.view) := by
  obtain ⟨hdone, hparam⟩ := chooseSlot_indep inputActive autocompleteActive evtName key other
    i j inpValue isSubQuery hkey hother
  unfold handleAutoCompleteBody
  cases hc : chooseSlot inputActive autocompleteActive evtName key i inpValue isSubQuery with
  | done r =>
    obtain ⟨r2, hr2, hview⟩ := hdone r hc
    rw [hr2]
    simp [hview]
  | parameter q =>
    rw [hparam q hc]
    exact parameterSlot_view_indep evtName key other i j inpValue q hsub

/-- What a call of `handleAutoComplete` shows depends neither on the selection index the
call starts with nor on the key, `Escape` apart. -/
theorem handleAutoComplete_view_indep (rowValues dateValues : List JSString)
    (inputActive autocompleteActive : Bool) (evtName key other : String) (i j : Int)
    (inpValue : JSString) (isSubQuery : Bool)
    (hkey : key ≠ "Escape") (hother : other ≠ "Escape") :
    (handleAutoComplete rowValues dateValues inputActive autocompleteActive evtName key i
        inpValue isSubQuery).map (fun r => r.view)
      = (handleAutoComplete rowValues dateValues inputActive autocompleteActive evtName other
          j inpValue isSubQuery).map (fun r => r.view) := by
  rw [handleAutoComplete_eq_body, handleAutoComplete_eq_body]
  apply handleAutoCompleteBody_view_indep _ _ _ _ _ _ _ _ _ hkey hother
  intro line
  rw [handleAutoComplete_eq_body, handleAutoComplete_eq_body]
  apply handleAutoCompleteBody_view_indep _ _ _ _ _ _ _ _ _ hkey hother
  intro line2
  rw [handleAutoComplete_eq_body, handleAutoComplete_eq_body,
    (handleAutoCompleteBody_sub rowValues dateValues _ (fun _ => none) inputActive false
      evtName key i line2).1,
    (handleAutoCompleteBody_sub rowValues dateValues _ (fun _ => none) inputActive false
      evtName other j line2).1]
  exact handleAutoCompleteBody_view_indep _ _ _ _ _ _ _ _ _ hkey hother (fun _ => rfl)

/-! ## Theorems: the arrow keys in `handleAutoComplete` -/

theorem afterKeydown_eq (rowValues dateValues : List JSString)
    (inputActive autocompleteActive : Bool) (key other : String) (inpValue : JSString)
    (count : Nat) (i0 : Int) (hkey : key ≠ "Escape") (hother : other ≠ "Escape")
    (hcount : (handleAutoComplete rowValues dateValues inputActive autocompleteActive
      "keydown" other i0 inpValue false).map (fun r => r.view.candidateCount)
      = some (some count)) :
    afterKeydown rowValues dateValues inputActive autocompleteActive key inpValue
      = selectIndex "keydown" key count := by
  funext i
  unfold afterKeydown
  have hsome := handleAutoComplete_isSome rowValues dateValues inputActive autocompleteActive
    "keydown" key i inpValue false
  have hview := handleAutoComplete_view_indep rowValues dateValues inputActive
    autocompleteActive "keydown" key other i i0 inpValue false hkey hother
  cases h : handleAutoComplete rowValues dateValues inputActive autocompleteActive "keydown"
      key i inpValue false with
  | none => rw [h] at hsome; cases hsome
  | some r =>
    have hidx := handleAutoComplete_index h
    have hc : r.view.candidateCount = some count := by
      cases h0 : handleAutoComplete rowValues dateValues inputActive autocompleteActive
          "keydown" other i0 inpValue false with
      | none => rw [h0] at hcount; cases hcount
      | some r0 =>
        rw [h0] at hcount
        rw [h, h0] at hview
        simp only [Option.map_some', Option.some.injEq] at hcount hview
        rw [hview]
        exact hcount
    rw [hc] at hidx
    exact hidx

/-- C19: for every line on which `handleAutoComplete` shows `n >= 1` candidates and every
selection index `i` with `0 <= i < n`, an `ArrowDown` keydown sets the selection index to
`(i + 1) mod n` and an `ArrowUp` keydown to `(i - 1) mod n`, which is `n - 1` when `i = 0`;
`n` events `ArrowDown` in a row, or `n` events `ArrowUp`, bring the index back to `i`. -/
theorem handleAutoComplete_arrows (rowValues dateValues : List JSString)
    (inputActive autocompleteActive : Bool) (inpValue : JSString) (n : Nat) (i : Int)
    (hn : 1 ≤ n) (h0 : 0 ≤ i) (hi : i < n)
    (hcount : (handleAutoComplete rowValues dateValues inputActive autocompleteActive
      "keydown" "ArrowDown" i inpValue false).map (fun r => r.view.candidateCount)
      = some (some n)) :
    afterKeydown rowValues dateValues inputActive autocompleteActive "ArrowDown" inpValue i
      = (i + 1) % (n : Int) ∧
    afterKeydown rowValues dateValues inputActive autocompleteActive "ArrowUp" inpValue i
      = (i - 1) % (n : Int) ∧
    afterKeydown rowValues dateValues inputActive autocompleteActive "ArrowUp" inpValue 0
      = (n : Int) - 1 ∧
    Nat.iterate
      (afterKeydown rowValues dateValues inputActive autocompleteActive "ArrowDown" inpValue)
      n i = i ∧
    Nat.iterate
      (afterKeydown rowValues dateValues inputActive autocompleteActive "ArrowUp" inpValue)
      n i = i := by
  rw [afterKeydown_eq rowValues dateValues inputActive autocompleteActive "ArrowDown"
      "ArrowDown" inpValue n i (by decide) (by decide) hcount,
    afterKeydown_eq rowValues dateValues inputActive autocompleteActive "ArrowUp"
      "ArrowDown" inpValue n i (by decide) (by decide) hcount]
  exact selectIndex_arrows n i hn h0 hi

theorem handleAutoComplete_arrows_witness :
    afterKeydown exampleRows twoDates true false "ArrowDown" "c".toList 4
      = (4 + 1) % ((5 : Nat) : Int) ∧
    afterKeydown exampleRows twoDates true false "ArrowUp" "c".toList 4
      = (4 - 1) % ((5 : Nat) : Int) ∧
    afterKeydown exampleRows twoDates true false "ArrowUp" "c".toList 0
      = ((5 : Nat) : Int) - 1 ∧
    Nat.iterate (afterKeydown exampleRows twoDates true false "ArrowDown" "c".toList) 5 4
      = 4 ∧
    Nat.iterate (afterKeydown exampleRows twoDates true false "ArrowUp" "c".toList) 5 4
      = 4 :=
  handleAutoComplete_arrows exampleRows twoDates true false "c".toList 5 4 (by decide)
    (by decide) (by decide) (by decide)

/-! ## Theorems: the overloads of the registry -/

theorem filter_length_le_one {α : Type} (p : α → Bool) :
    ∀ (l : List α), l.Nodup → (∀ a ∈ l, ∀ b ∈ l, p a = true → p b = true → a = b) →
      (l.filter p).length ≤ 1 := by
  intro l
  induction l with
  | nil => intro _ _; simp
  | cons x xs ih =>
    intro hnodup huniq
    have hx : x ∉ xs := (List.nodup_cons.1 hnodup).1
    have hxs := ih (List.nodup_cons.1 hnodup).2
      (fun a ha b hb => huniq a (List.mem_cons_of_mem _ ha) b (List.mem_cons_of_mem _ hb))
    by_cases hp : p x = true
    · have hnone : xs.filter p = [] := by
        rw [List.filter_eq_nil_iff]
        intro a ha hpa
        have := huniq a (List.mem_cons_of_mem _ ha) x (List.mem_cons_self _ _) hpa hp
        exact hx (this ▸ ha)
      rw [List.filter_cons_of_pos hp, hnone]
      simp
    · rw [List.filter_cons_of_neg hp]
      exact hxs

theorem queries_overloads :
    ∀ q1 ∈ queries, ∀ q2 ∈ queries, q1.name = q2.name → q1 ≠ q2 →
      q1.fixedValue.isSome = true ∧ q2.fixedValue.isSome = true ∧
      q1.fixedValue ≠ q2.fixedValue := by
  decide

theorem queries_nodup : queries.Nodup := by
  decide

theorem selects_unique (args : List JSString) (isSubQuery : Bool) :
    ∀ q1 ∈ queries, ∀ q2 ∈ queries, selects args isSubQuery q1 = true →
      selects args isSubQuery q2 = true → q1 = q2 := by
  intro q1 h1 q2 h2 hs1 hs2
  by_contra hne
  obtain ⟨hn1, _, hv1⟩ := (selects_iff args isSubQuery q1).1 hs1
  obtain ⟨hn2, _, hv2⟩ := (selects_iff args isSubQuery q2).1 hs2
  have hname : q1.name = q2.name := Option.some.inj (hn1.symm.trans hn2)
  obtain ⟨ha, hb, hc⟩ := queries_overloads q1 h1 q2 h2 hname hne
  obtain ⟨v1, e1⟩ := Option.isSome_iff_exists.1 ha
  obtain ⟨v2, e2⟩ := Option.isSome_iff_exists.1 hb
  have a1 := hv1 v1 e1
  have a2 := hv2 v2 e2
  rw [a1] at a2
  apply hc
  rw [e1, e2, Option.some.inj a2]

/-- C22: in the registry, two distinct queries that share a name both have a fixed enum
value on their first parameter, and these values differ; so among the queries of one name
at most one has no fixed value, the fixed values are pairwise distinct, and for every
token list at most one query satisfies the selection predicate of `validateInput` (for
either value of `isSubQuery`) and the one of `sendRequest`. -/
theorem queries_selection_unique :
    (∀ q1 ∈ queries, ∀ q2 ∈ queries, q1.name = q2.name → q1.fixedValue = none →
      q2.fixedValue = none → q1 = q2) ∧
    (∀ q1 ∈ queries, ∀ q2 ∈ queries, q1.name = q2.name → q1.fixedValue = q2.fixedValue →
      q1 = q2) ∧
    (∀ q1 ∈ queries, ∀ q2 ∈ queries, q1.name = q2.name → q1 ≠ q2 →
      q1.fixedValue.isSome = true ∧ q2.fixedValue.isSome = true) ∧
    (∀ (args : List JSString) (isSubQuery : Bool),
      (queries.filter (selects args isSubQuery)).length ≤ 1) ∧
    (∀ (args : List JSString), (queries.filter (sendRequestSelects args)).length ≤ 1) := by
  refine ⟨?_, ?_, ?_, ?_, ?_⟩
  · intro q1 h1 q2 h2 hname hv1 hv2
    by_contra hne
    have := (queries_overloads q1 h1 q2 h2 hname hne).1
    rw [hv1] at this
    cases this
  · intro q1 h1 q2 h2 hname hv
    by_contra hne
    exact (queries_overloads q1 h1 q2 h2 hname hne).2.2 hv
  · intro q1 h1 q2 h2 hname hne
    exact ⟨(queries_overloads q1 h1 q2 h2 hname hne).1,
      (queries_overloads q1 h1 q2 h2 hname hne).2.1⟩
  · intro args isSubQuery
    exact filter_length_le_one _ queries queries_nodup (selects_unique args isSubQuery)
  · intro args
    rw [sendRequestSelects_eq]
    exact filter_length_le_one _ queries queries_nodup (selects_unique args false)

/-! ## Theorems: a segment between two double quotes -/

/-- C23 (counterexample): with the flag set, the one-character segment `"` and the segment
`"b"` both clear the flag: it is not left as it was. -/
theorem quoteAfter_true_counterexample :
    quoteAfter true "\"".toList = false ∧ quoteAfter true "\"b\"".toList = false ∧
    getArgs "\"a \"b\" c\"".toList = ["\"a \"b\"".toList, "c\"".toList] ∧
    getArgs "\"Kansas City \" 1".toList = ["\"Kansas City \"".toList, "1".toList] := by
  decide

/-- C23 (amended): a segment that ends with `"`, and so every segment that both starts and
ends with `"`, leaves the flag cleared whatever it was before: the two tests of the loop
set the flag and then clear it.  The flag is unchanged when it was clear, and a quoted
span that was open is closed. -/
theorem quoteAfter_quoted_segment (quoteOpen : Bool) (possibleArg : JSString)
    (st : ArgsState) (hend : endsWith possibleArg '"' = true) :
    quoteAfter quoteOpen possibleArg = false ∧
    quoteAfter false possibleArg = false ∧
    quoteAfter true possibleArg = false ∧
    (getArgsStep st possibleArg).quoteOpen = false := by
  simp [quoteAfter, getArgsStep, hend]

theorem quoteAfter_quoted_segment_witness :
    startsWith "\"b\"".toList '"' = true ∧
    quoteAfter true "\"b\"".toList = false ∧
    quoteAfter false "\"b\"".toList = false ∧
    quoteAfter true "\"b\"".toList = false ∧
    (getArgsStep { resultValue := ["\"a".toList], quoteOpen := true }
      "\"b\"".toList).quoteOpen = false :=
  ⟨by decide, quoteAfter_quoted_segment true "\"b\"".toList
    { resultValue := ["\"a".toList], quoteOpen := true } (by decide)⟩

/-! ## Theorems: the types of the registry are all implemented -/

theorem queries_param_types :
    ∀ q ∈ queries, ∀ p ∈ q.params,
      p.type ∈ [ParamType.int, ParamType.number, ParamType.row, ParamType.string,
        ParamType.date, ParamType.enum, ParamType.subquery] := by
  decide

theorem checkDate_not_unimplemented {dateValues : List JSString} {b : Bool}
    {q : Option JSString} {p : String} {a : JSString} {d : Diag}
    (h : checkDate dateValues b q p a = some d) : d.isUnimplemented = false := by
  unfold checkDate at h
  split at h
  · split at h
    · cases h; rfl
    · split at h
      · cases h; rfl
      · cases h
  · split at h
    · split at h
      · cases h; rfl
      · cases h
    · cases h; rfl

theorem checkArg_not_unimplemented {dateValues : List JSString} {b : Bool}
    {q : Option JSString} {p : Param} {a : JSString} {d : Diag}
    (hp : ∀ t, p.type ≠ ParamType.other t)
    (h : checkArg dateValues b q p a = some d) : d.isUnimplemented = false := by
  unfold checkArg at h
  split at h
  · split at h
    · cases h; rfl
    · cases h
  · split at h
    · cases h; rfl
    · cases h
  · split at h
    · cases h; rfl
    · cases h
  · split at h
    · cases h; rfl
    · cases h
  · exact checkDate_not_unimplemented h
  · cases h
  · cases h
  · rename_i t ht
    exact absurd ht (hp t)

theorem forEachArg_not_unimplemented {dateValues : List JSString} {b : Bool}
    {q : Option JSString} {params : List Param}
    (hp : ∀ p ∈ params, ∀ t, p.type ≠ ParamType.other t) (args : List JSString) :
    ∀ (idx : Nat) (d : Diag), forEachArg dateValues b q params args idx = some d →
      d.isUnimplemented = false := by
  induction args with
  | nil => intro idx d h; simp [forEachArg] at h
  | cons a rest ih =>
    intro idx d h
    simp only [forEachArg] at h
    split at h
    · exact ih _ _ h
    · rename_i param hparam
      split at h
      · cases h
        exact checkArg_not_unimplemented (hp param (List.getElem?_mem hparam)) (by assumption)
      · exact ih _ _ h

theorem validateInputBody_not_unimplemented (dateValues : List JSString)
    (validateSub : JSString → Option Outcome)
    (hsub : ∀ line r errs, validateSub line = some (r, errs) →
      ∀ d ∈ errs, d.isUnimplemented = false)
    (inpValue : JSString) (isSubQuery : Bool) (r : Bool) (errs : List Diag)
    (h : validateInputBody dateValues validateSub inpValue isSubQuery = some (r, errs)) :
    ∀ d ∈ errs, d.isUnimplemented = false := by
  unfold validateInputBody at h
  dsimp only at h
  cases hq : queries.find? (selects (getArgs inpValue) isSubQuery) with
  | none =>
    rw [hq] at h
    cases h
    intro d hd
    rw [List.mem_singleton.1 hd]
    rfl
  | some q =>
    rw [hq] at h
    dsimp only at h
    have htypes : ∀ p ∈ q.params, ∀ t, p.type ≠ ParamType.other t := by
      intro p hp t ht
      have := queries_param_types q (List.mem_of_find?_eq_some hq) p hp
      rw [ht] at this
      simp at this
    have htc : ∀ d ∈ (match forEachArg dateValues isSubQuery (getArgs inpValue)[0]? q.params
          (slice (getArgs inpValue) 1 none) 0 with
        | some d => ((false, [d]) : Outcome)
        | none => (true, [])).2, d.isUnimplemented = false := by
      intro d hd
      cases hf : forEachArg dateValues isSubQuery (getArgs inpValue)[0]? q.params
          (slice (getArgs inpValue) 1 none) 0 with
      | none => rw [hf] at hd; cases hd
      | some d2 =>
        rw [hf] at hd
        rw [List.mem_singleton.1 hd]
        exact forEachArg_not_unimplemented htypes _ _ _ hf
    revert htc
    generalize (match forEachArg dateValues isSubQuery (getArgs inpValue)[0]? q.params
          (slice (getArgs inpValue) 1 none) 0 with
        | some d => ((false, [d]) : Outcome)
        | none => (true, [])) = typeChecks at h
    intro htc
    have hone : ∀ (d0 : Diag), d0.isUnimplemented = false →
        ∀ d ∈ [d0], d.isUnimplemented = false := by
      intro d0 h0 d hd
      rw [List.mem_singleton.1 hd]
      exact h0
    by_cases hfew : ((getArgs inpValue).length : Int) - 1
        < ((q.params.filter (fun param => !param.optional)).length : Int)
    · rw [if_pos hfew] at h
      cases h
      exact hone _ rfl
    rw [if_neg hfew] at h
    by_cases hlast : q.params.getLast?.map (fun param => param.type) = some ParamType.subquery
    · rw [if_pos hlast] at h
      by_cases htwo : (q.params.filter (fun param => param.type = .subquery)).length = 2
      · rw [if_pos htwo] at h
        cases h1 : validateSub (firstSubQuery q inpValue) with
        | none => rw [h1] at h; cases h
        | some o1 =>
          obtain ⟨b1, e1⟩ := o1
          rw [h1] at h
          cases b1 with
          | false =>
            cases h
            exact hsub _ _ _ h1
          | true =>
            dsimp only at h
            cases h2 : validateSub (secondSubQuery inpValue) with
            | none => rw [h2] at h; cases h
            | some o2 =>
              obtain ⟨b2, e2⟩ := o2
              rw [h2] at h
              cases b2 with
              | false =>
                cases h
                intro d hd
                rcases List.mem_append.1 hd with hd | hd
                · exact hsub _ _ _ h1 d hd
                · exact hsub _ _ _ h2 d hd
              | true =>
                cases h
                intro d hd
                rcases List.mem_append.1 hd with hd | hd
                · rcases List.mem_append.1 hd with hd | hd
                  · exact hsub _ _ _ h1 d hd
                  · exact hsub _ _ _ h2 d hd
                · exact htc d hd
      · rw [if_neg htwo] at h
        cases h1 : validateSub (subQueryInput q inpValue) with
        | none => rw [h1] at h; cases h
        | some o1 =>
          obtain ⟨b1, e1⟩ := o1
          rw [h1] at h
          cases b1 with
          | false =>
            cases h
            exact hsub _ _ _ h1
          | true =>
            cases h
            intro d hd
            rcases List.mem_append.1 hd with hd | hd
            · exact hsub _ _ _ h1 d hd
            · exact htc d hd
    · rw [if_neg hlast] at h
      by_cases hmany : ((getArgs inpValue).length : Int) - 1 > (q.params.length : Int)
      · rw [if_pos hmany] at h
        cases h
        exact hone _ rfl
      · rw [if_neg hmany] at h
        cases h
        exact htc

theorem validateInputFuel_not_unimplemented (dateValues : List JSString) :
    ∀ (fuel : Nat) (inpValue : JSString) (isSubQuery : Bool) (r : Bool) (errs : List Diag),
      validateInputFuel dateValues fuel inpValue isSubQuery = some (r, errs) →
      ∀ d ∈ errs, d.isUnimplemented = false := by
  intro fuel
  induction fuel with
  | zero => intro inpValue isSubQuery r errs h; cases h
  | succ fuel ih =>
    intro inpValue isSubQuery r errs h
    exact validateInputBody_not_unimplemented dateValues _
      (fun line r2 errs2 h2 => ih line true r2 errs2 h2) inpValue isSubQuery r errs h

/-- C24: every parameter of every query of the registry has one of the seven types that
the type check knows, and no call of `validateInput`, for any dataset, line and
`isSubQuery`, produces the diagnostic "Unexpected argument type ... was not implemented",
its recursive calls included; the call returns. -/
theorem validateInput_never_unimplemented (dateValues : List JSString) (inpValue : JSString)
    (isSubQuery : Bool) :
    (∀ q ∈ queries, ∀ p ∈ q.params,
      p.type ∈ [ParamType.int, ParamType.number, ParamType.row, ParamType.string,
        ParamType.date, ParamType.enum, ParamType.subquery]) ∧
    ∃ r errs, validateInput dateValues inpValue isSubQuery = some (r, errs) ∧
      ∀ d ∈ errs, d.isUnimplemented = false := by
  refine ⟨queries_param_types, ?_⟩
  have hsome := validateInput_isSome dateValues inpValue isSubQuery
  cases h : validateInput dateValues inpValue isSubQuery with
  | none => rw [h] at hsome; cases hsome
  | some o =>
    exact ⟨o.1, o.2, rfl,
      validateInputFuel_not_unimplemented dateValues 2 inpValue isSubQuery o.1 o.2 h⟩

/-! ## Theorems: the tokens of the joined tokens -/

/-- C26: for every line `x`, the tokens of the tokens of `x` joined by one space are the
tokens of `x`: `getArgs(getArgs(x).join(" ")) = getArgs(x)`. -/
theorem getArgs_idempotent (x : JSString) : getArgs (join ' ' (getArgs x)) = getArgs x :=
  getArgs_join_getArgs x

/-! ## Theorems: what `Tab` reads in the command-name slot -/

/-- C29: on the line `zzz`, which no command name starts with, the candidates are none and
a `Tab` keydown reads `closeQueryNames[0]`, which is `undefined`, for either value of
`isSubQuery`; the property `name` is read of it next.  On the line `h` with the index 3
left by earlier calls the lookup is `undefined` too, there being two candidates, while
with the index 1 it is `histogram`. -/
theorem handleAutoComplete_tab_undefined (rowValues dateValues : List JSString)
    (isSubQuery : Bool) :
    handleAutoComplete rowValues dateValues true false "keydown" "Tab" 0 "zzz".toList
        isSubQuery
      = some { selectedAutoCompleteIdx := 0, view := .queryNames [],
               tabLookup := .query none } ∧
    handleAutoComplete rowValues dateValues true false "keydown" "Tab" 3 "h".toList false
      = some { selectedAutoCompleteIdx := 3,
               view := .queryNames
                 [{ name := "help".toList, canSubQuery := false, params := [] },
                  { name := "histogram".toList, canSubQuery := false,
                    params := rangeParams }],
               tabLookup := .query none } ∧
    (handleAutoComplete rowValues dateValues true false "keydown" "Tab" 1 "h".toList
        false).map (fun r => r.tabLookup)
      = some (.query (some { name := "histogram".toList, canSubQuery := false,
                             params := rangeParams })) ∧
    (handleAutoComplete rowValues dateValues true false "keydown" "ArrowUp" 0 "zzz".toList
        false).map (fun r => r.selectedAutoCompleteIdx) = some (-1) := by
  refine ⟨?_, by rfl, by rfl, by rfl⟩
  cases isSubQuery <;> rfl

/-! ## Theorems: what is shown does not depend on the event either -/

theorem chooseSlot_congr (inputActive autocompleteActive inputActive2 autocompleteActive2 : Bool)
    (evtName key evtName2 key2 : String) (i j : Int) (inpValue : JSString)
    (isSubQuery : Bool)
    (g1 : (evtName = "blur" ∧ autocompleteActive = true) ↔
      (evtName2 = "blur" ∧ autocompleteActive2 = true))
    (g2 : (inputActive = true ∨ evtName = "keydown") ↔
      (inputActive2 = true ∨ evtName2 = "keydown"))
    (g3 : (evtName = "keydown" ∧ key = "Escape") ↔ (evtName2 = "keydown" ∧ key2 = "Escape")) :
    (∀ r, chooseSlot inputActive autocompleteActive evtName key i inpValue isSubQuery
        = .done r →
      ∃ r2, chooseSlot inputActive2 autocompleteActive2 evtName2 key2 j inpValue isSubQuery
        = .done r2 ∧ r2.view = r.view) ∧
    (∀ q, chooseSlot inputActive autocompleteActive evtName key i inpValue isSubQuery
        = .parameter q →
      chooseSlot inputActive2 autocompleteActive2 evtName2 key2 j inpValue isSubQuery
        = .parameter q) := by
  unfold chooseSlot
  dsimp only
  by_cases c1 : evtName = "blur" ∧ autocompleteActive = true
  · rw [if_pos c1, if_pos (g1.1 c1)]
    exact ⟨fun r h => (by cases h; exact ⟨_, rfl, rfl⟩), fun q h => (by cases h)⟩
  rw [if_neg c1, if_neg (fun h => c1 (g1.2 h))]
  by_cases c2 : inputActive = true ∨ evtName = "keydown"
  swap
  · rw [if_neg c2, if_neg (fun h => c2 (g2.2 h))]
    exact ⟨fun r h => (by cases h; exact ⟨_, rfl, rfl⟩), fun q h => (by cases h)⟩
  rw [if_pos c2, if_pos (g2.1 c2)]
  by_cases c3 : evtName = "keydown" ∧ key = "Escape"
  · rw [if_pos c3, if_pos (g3.1 c3)]
    exact ⟨fun r h => (by cases h; exact ⟨_, rfl, rfl⟩), fun q h => (by cases h)⟩
  rw [if_neg c3, if_neg (fun h => c3 (g3.2 h))]
  generalize (queries.filter (fun query => query.canSubQuery || !isSubQuery)).filter
      (fun query => some query.name == (getArgs inpValue)[0]?) = enumed
  split_ifs
  all_goals first
    | exact ⟨fun r h => (by cases h; exact ⟨_, rfl, rfl⟩), fun q h => (by cases h)⟩
    | (cases enumed with
       | nil => exact ⟨fun r h => (by cases h; exact ⟨_, rfl, rfl⟩), fun q h => (by cases h)⟩
       | cons first rest =>
         dsimp only
         first
           | exact ⟨fun r h => (by cases h; exact ⟨_, rfl, rfl⟩), fun q h => (by cases h)⟩
           | exact ⟨fun r h => (by cases h), fun q h => h⟩
           | (split
              · exact ⟨fun r h => (by cases h; exact ⟨_, rfl, rfl⟩), fun q h => (by cases h)⟩
              · exact ⟨fun r h => (by cases h), fun q h => h⟩))

theorem parameterSlot_view_congr {rowValues dateValues : List JSString}
    {sub sub2 : JSString → Option AutoComplete} (evtName key evtName2 key2 : String)
    (i j : Int) (inpValue : JSString) (query : Query)
    (hsub : ∀ line, (sub line).map (fun r => r.view) = (sub2 line).map (fun r => r.view)) :
    (parameterSlot rowValues dateValues sub evtName key i inpValue query).map
        (fun r => r.view)
      = (parameterSlot rowValues dateValues sub2 evtName2 key2 j inpValue query).map
        (fun r => r.view) := by
  unfold parameterSlot
  dsimp only
  cases possibleParameterValues rowValues dateValues
      (arrayIndex query.params (currentIdx query (getArgs inpValue) inpValue))
      ((arrayIndex (getArgs inpValue)
        (currentIdx query (getArgs inpValue) inpValue + 1)).getD []) with
  | none => rfl
  | some values =>
    dsimp only
    split_ifs
    all_goals first
      | rfl
      | (have h := hsub (autoCompleteSubQueryInput query inpValue)
         cases h1 : sub (autoCompleteSubQueryInput query inpValue) <;>
           cases h2 : sub2 (autoCompleteSubQueryInput query inpValue) <;>
           rw [h1, h2] at h <;> simp at h ⊢
         rw [h])

theorem handleAutoCompleteBody_view_congr {rowValues dateValues : List JSString}
    {sub sub2 : JSString → Option AutoComplete}
    (inputActive autocompleteActive inputActive2 autocompleteActive2 : Bool)
    (evtName key evtName2 key2 : String) (i j : Int) (inpValue : JSString)
    (isSubQuery : Bool)
    (g1 : (evtName = "blur" ∧ autocompleteActive = true) ↔
      (evtName2 = "blur" ∧ autocompleteActive2 = true))
    (g2 : (inputActive = true ∨ evtName = "keydown") ↔
      (inputActive2 = true ∨ evtName2 = "keydown"))
    (g3 : (evtName = "keydown" ∧ key = "Escape") ↔ (evtName2 = "keydown" ∧ key2 = "Escape"))
    (hsub : ∀ line, (sub line).map (fun r => r.view) = (sub2 line).map (fun r => r.view)) :
    (handleAutoCompleteBody rowValues dateValues sub inputActive autocompleteActive evtName
        key i inpValue isSubQuery).map (fun r => r.view)
      = (handleAutoCompleteBody rowValues dateValues sub2 inputActive2 autocompleteActive2
          evtName2 key2 j inpValue isSubQuery).map (fun r => r.view) := by
  obtain ⟨hdone, hparam⟩ := chooseSlot_congr inputActive autocompleteActive inputActive2
    autocompleteActive2 evtName key evtName2 key2 i j inpValue isSubQuery g1 g2 g3
  unfold handleAutoCompleteBody
  cases hc : chooseSlot inputActive autocompleteActive evtName key i inpValue isSubQuery with
  | done r =>
    obtain ⟨r2, hr2, hview⟩ := hdone r hc
    rw [hr2]
    simp [hview]
  | parameter q =>
    rw [hparam q hc]
    exact parameterSlot_view_congr evtName key evtName2 key2 i j inpValue q hsub

/-- What a call of `handleAutoComplete` shows is the same for two events that its three
guards treat alike, whatever the selection index of each call. -/
theorem handleAutoComplete_view_congr (rowValues dateValues : List JSString)
    (inputActive autocompleteActive inputActive2 autocompleteActive2 : Bool)
    (evtName key evtName2 key2 : String) (i j : Int) (inpValue : JSString)
    (isSubQuery : Bool)
    (g1 : (evtName = "blur" ∧ autocompleteActive = true) ↔
      (evtName2 = "blur" ∧ autocompleteActive2 = true))
    (g2 : (inputActive = true ∨ evtName = "keydown") ↔
      (inputActive2 = true ∨ evtName2 = "keydown"))
    (g3 : (evtName = "keydown" ∧ key = "Escape") ↔ (evtName2 = "keydown" ∧ key2 = "Escape")) :
    (handleAutoComplete rowValues dateValues inputActive autocompleteActive evtName key i
        inpValue isSubQuery).map (fun r => r.view)
      = (handleAutoComplete rowValues dateValues inputActive2 autocompleteActive2 evtName2
          key2 j inpValue isSubQuery).map (fun r => r.view) := by
  have g1f : (evtName = "blur" ∧ false = true) ↔ (evtName2 = "blur" ∧ false = true) :=
    ⟨fun h => (by cases h.2), fun h => (by cases h.2)⟩
  rw [handleAutoComplete_eq_body, handleAutoComplete_eq_body]
  apply handleAutoCompleteBody_view_congr _ _ _ _ _ _ _ _ _ _ _ _ g1 g2 g3
  intro line
  rw [handleAutoComplete_eq_body, handleAutoComplete_eq_body]
  apply handleAutoCompleteBody_view_congr _ _ _ _ _ _ _ _ _ _ _ _ g1f g2 g3
  intro line2
  rw [handleAutoComplete_eq_body, handleAutoComplete_eq_body,
    (handleAutoCompleteBody_sub rowValues dateValues _ (fun _ => none) inputActive false
      evtName key i line2).1,
    (handleAutoCompleteBody_sub rowValues dateValues _ (fun _ => none) inputActive2 false
      evtName2 key2 j line2).1]
  exact handleAutoCompleteBody_view_congr _ _ _ _ _ _ _ _ _ _ _ _ g1f g2 g3 (fun _ => rfl)

theorem selectIndex_idem (evtName key : String) (count : Nat) (idx : Int)
    (h : ¬ (evtName = "keydown" ∧ (key = "ArrowUp" ∨ key = "ArrowDown"))) :
    selectIndex evtName key count (selectIndex evtName key count idx)
      = selectIndex evtName key count idx := by
  unfold selectIndex keySwitch
  by_cases he : evtName = "keydown"
  · have hup : key ≠ "ArrowUp" := fun hk => h ⟨he, Or.inl hk⟩
    have hdown : key ≠ "ArrowDown" := fun hk => h ⟨he, Or.inr hk⟩
    simp only [if_pos he, if_neg hup, if_neg hdown]
    split_ifs <;> rfl
  · simp only [if_neg he]

/-- C21 (counterexample): two `ArrowDown` keydowns in a row on the line `c`, the second
starting from the index the first has left, give the indices 1 and 2; and on that line a
focus event shows the five candidates while an `Escape` keydown and a blur with the input
not active show none. -/
theorem handleAutoComplete_twice_counterexample :
    (handleAutoComplete exampleRows twoDates true false "keydown" "ArrowDown" 0 "c".toList
        false).map (fun r => r.selectedAutoCompleteIdx) = some 1 ∧
    (handleAutoComplete exampleRows twoDates true false "keydown" "ArrowDown" 1 "c".toList
        false).map (fun r => r.selectedAutoCompleteIdx) = some 2 ∧
    (handleAutoComplete exampleRows twoDates true false "focus" "" 0 "c".toList
        false).map (fun r => r.view.candidateCount) = some (some 5) ∧
    (handleAutoComplete exampleRows twoDates true false "keydown" "Escape" 0 "c".toList
        false).map (fun r => r.view) = some .escaped ∧
    (handleAutoComplete exampleRows twoDates false false "blur" "" 0 "c".toList
        false).map (fun r => r.view) = some .hidden := by
  decide

/-- C21 (amended): two calls of `handleAutoComplete` in a row with the same line, event
and `isSubQuery`, the second starting from the selection index the first has left, show
the same candidates, and leave the same selection index unless the event is an `ArrowUp`
or `ArrowDown` keydown, which moves the selection at each call.  What is shown does not
depend on the selection index the call starts with, and it is the same for all the events
on which candidates are computed: those that are not a blur into the autocomplete, come
with the input active or are a keydown, and are not an `Escape` keydown. -/
theorem handleAutoComplete_twice (rowValues dateValues : List JSString)
    (inputActive autocompleteActive : Bool) (evtName key : String) (idx : Int)
    (inpValue : JSString) (isSubQuery : Bool) :
    ∃ r1 r2,
      handleAutoComplete rowValues dateValues inputActive autocompleteActive evtName key idx
        inpValue isSubQuery = some r1 ∧
      handleAutoComplete rowValues dateValues inputActive autocompleteActive evtName key
        r1.selectedAutoCompleteIdx inpValue isSubQuery = some r2 ∧
      r2.view = r1.view ∧
      (¬ (evtName = "keydown" ∧ (key = "ArrowUp" ∨ key = "ArrowDown")) →
        r2.selectedAutoCompleteIdx = r1.selectedAutoCompleteIdx) ∧
      (∀ j, (handleAutoComplete rowValues dateValues inputActive autocompleteActive evtName
        key j inpValue isSubQuery).map (fun r => r.view) = some r1.view) ∧
      (∀ (evtName2 key2 : String) (j : Int),
        ¬ (evtName = "blur" ∧ autocompleteActive = true) →
        (inputActive = true ∨ evtName = "keydown") →
        ¬ (evtName = "keydown" ∧ key = "Escape") →
        ¬ (evtName2 = "blur" ∧ autocompleteActive = true) →
        (inputActive = true ∨ evtName2 = "keydown") →
        ¬ (evtName2 = "keydown" ∧ key2 = "Escape") →
        (handleAutoComplete rowValues dateValues inputActive autocompleteActive evtName2 key2
          j inpValue isSubQuery).map (fun r => r.view) = some r1.view) := by
  have hsome1 := handleAutoComplete_isSome rowValues dateValues inputActive autocompleteActive
    evtName key idx inpValue isSubQuery
  cases h1 : handleAutoComplete rowValues dateValues inputActive autocompleteActive evtName
      key idx inpValue isSubQuery with
  | none => rw [h1] at hsome1; cases hsome1
  | some r1 =>
    have hsome2 := handleAutoComplete_isSome rowValues dateValues inputActive
      autocompleteActive evtName key r1.selectedAutoCompleteIdx inpValue isSubQuery
    cases h2 : handleAutoComplete rowValues dateValues inputActive autocompleteActive evtName
        key r1.selectedAutoCompleteIdx inpValue isSubQuery with
    | none => rw [h2] at hsome2; cases hsome2
    | some r2 =>
      have hsame : ∀ j, (handleAutoComplete rowValues dateValues inputActive
          autocompleteActive evtName key j inpValue isSubQuery).map (fun r => r.view)
          = some r1.view := by
        intro j
        have := handleAutoComplete_view_congr rowValues dateValues inputActive
          autocompleteActive inputActive autocompleteActive evtName key evtName key j idx
          inpValue isSubQuery Iff.rfl Iff.rfl Iff.rfl
        rw [this, h1]
        rfl
      have hview : r2.view = r1.view := by
        have := hsame r1.selectedAutoCompleteIdx
        rw [h2] at this
        exact Option.some.inj this
      refine ⟨r1, r2, rfl, h2, hview, ?_, hsame, ?_⟩
      · intro hnav
        have hi1 := handleAutoComplete_index h1
        have hi2 := handleAutoComplete_index h2
        rw [hview] at hi2
        cases hc : r1.view.candidateCount with
        | none =>
          rw [hc] at hi2
          exact hi2
        | some count =>
          rw [hc] at hi1 hi2
          dsimp only at hi1 hi2
          rw [hi2, hi1]
          exact selectIndex_idem evtName key count idx hnav
      · intro evtName2 key2 j a1 a2 a3 b1 b2 b3
        have := handleAutoComplete_view_congr rowValues dateValues inputActive
          autocompleteActive inputActive autocompleteActive evtName2 key2 evtName key j idx
          inpValue isSubQuery
          ⟨fun h => absurd h b1, fun h => absurd h a1⟩
          ⟨fun _ => a2, fun _ => b2⟩
          ⟨fun h => absurd h b3, fun h => absurd h a3⟩
        rw [this, h1]
        rfl

theorem handleAutoComplete_twice_witness :
    ∃ r1 r2,
      handleAutoComplete exampleRows twoDates true false "keydown" "x" 3 "c".toList false
        = some r1 ∧
      handleAutoComplete exampleRows twoDates true false "keydown" "x"
        r1.selectedAutoCompleteIdx "c".toList false = some r2 ∧
      r2.view = r1.view ∧ r2.selectedAutoCompleteIdx = r1.selectedAutoCompleteIdx := by
  obtain ⟨r1, r2, h1, h2, hv, hi, _, _⟩ := handleAutoComplete_twice exampleRows twoDates true
    false "keydown" "x" 3 "c".toList false
  exact ⟨r1, r2, h1, h2, hv, hi (by decide)⟩

/-! ## Theorems: the sub-query lines of `sendRequest` -/

theorem queries_compare :
    ∀ q ∈ queries, q.name = "compare".toList →
      q = compareCoord ∨ q = compareDataset ∨ q = compareZip ∨ q = compareCity := by
  decide

theorem selects_fixedValue {args : List JSString} {isSubQuery : Bool} {q : Query}
    {v : JSString} (h : selects args isSubQuery q = true)
    (hv : q.params.head?.bind (fun p => p.value) = some v) : args[1]? = some v :=
  ((selects_iff args isSubQuery q).1 h).2.2 v hv

/-- The lines of the sentence are the lines `validateInput` passes to its recursive calls,
for every line whose command is found and is `compare`. -/
theorem sentenceQueries_eq {line : JSString} {q : Query}
    (hq : queries.find? (selects (getArgs line) false) = some q)
    (hname : q.name = "compare".toList) :
    sentenceQueries line = subQueryLines q line ∧
    ((q = compareCoord ∧
        sentenceQueries line = [join ' ' (slice (getArgs line) 4 none)]) ∨
     (q = compareZip ∧
        sentenceQueries line = [join ' ' (slice (getArgs line) 3 none)]) ∨
     (q = compareCity ∧
        sentenceQueries line = [join ' ' (slice (getArgs line) 3 none)]) ∨
     (q = compareDataset ∧
        sentenceQueries line =
          [join ' ' (slice (getArgs line) 2
              (some (findLastIndex isQueryName (getArgs line)))),
           join ' ' (slice (getArgs line) (findLastIndex isQueryName (getArgs line))
              none)])) := by
  have hsel := List.find?_some hq
  rcases queries_compare q (List.mem_of_find?_eq_some hq) hname with rfl | rfl | rfl | rfl
  · have h1 : (getArgs line)[1]? = some "coord".toList := selects_fixedValue hsel rfl
    have hs : sentenceQueries line = [join ' ' (slice (getArgs line) 4 none)] := by
      simp [sentenceQueries, sendRequestSubQueryInput, h1]
    exact ⟨hs, Or.inl ⟨rfl, hs⟩⟩
  · have h1 : (getArgs line)[1]? = some "dataset".toList := selects_fixedValue hsel rfl
    have hs : sentenceQueries line =
        [join ' ' (slice (getArgs line) 2
            (some (findLastIndex isQueryName (getArgs line)))),
         join ' ' (slice (getArgs line) (findLastIndex isQueryName (getArgs line))
            none)] := by
      simp [sentenceQueries, sendRequestFirstQuery, sendRequestSecondQuery, h1]
    exact ⟨hs, Or.inr (Or.inr (Or.inr ⟨rfl, hs⟩))⟩
  · have h1 : (getArgs line)[1]? = some "zip".toList := selects_fixedValue hsel rfl
    have hs : sentenceQueries line = [join ' ' (slice (getArgs line) 3 none)] := by
      simp [sentenceQueries, sendRequestSubQueryInput, h1]
    exact ⟨hs, Or.inr (Or.inl ⟨rfl, hs⟩)⟩
  · have h1 : (getArgs line)[1]? = some "city".toList := selects_fixedValue hsel rfl
    have hs : sentenceQueries line = [join ' ' (slice (getArgs line) 3 none)] := by
      simp [sentenceQueries, sendRequestSubQueryInput, h1]
    exact ⟨hs, Or.inr (Or.inr (Or.inl ⟨rfl, hs⟩))⟩

theorem compare_last_subquery :
    ∀ q ∈ queries, q.name = "compare".toList →
      q.params.getLast?.map (fun param => param.type) = some ParamType.subquery := by
  decide

theorem sendRequestBranch_of_find {line : JSString} {q : Query}
    (hq : queries.find? (selects (getArgs line) false) = some q) :
    sendRequestBranch line = dispatch q.name := by
  unfold sendRequestBranch
  rw [sendRequestSelects_eq, hq]

/-- C27: for every line that `validateInput(line, false)` accepts and whose command is
`compare`, the lines whose results `sendRequest` puts into its sentence are the lines that
`validateInput` passed to its recursive calls, and these were accepted: for `coord` the
line of the tokens from index 4 on, for `zip` and `city` from index 3 on, and for
`dataset` the two lines of the tokens from index 2 up to the last token that is a query
name, and from that token on. -/
theorem sendRequest_sentence_lines (dateValues : List JSString) (line : JSString)
    (q : Query) (errs : List Diag)
    (h : validateInput dateValues line false = some (true, errs))
    (hq : queries.find? (selects (getArgs line) false) = some q)
    (hname : q.name = "compare".toList) :
    sendRequestBranch line = Branch.compare ∧
    sentenceQueries line = subQueryLines q line ∧
    (∀ sub ∈ sentenceQueries line, validateInput dateValues sub true = some (true, [])) ∧
    ((q = compareCoord ∧
        sentenceQueries line = [join ' ' (slice (getArgs line) 4 none)]) ∨
     (q = compareZip ∧
        sentenceQueries line = [join ' ' (slice (getArgs line) 3 none)]) ∨
     (q = compareCity ∧
        sentenceQueries line = [join ' ' (slice (getArgs line) 3 none)]) ∨
     (q = compareDataset ∧
        sentenceQueries line =
          [join ' ' (slice (getArgs line) 2
              (some (findLastIndex isQueryName (getArgs line)))),
           join ' ' (slice (getArgs line) (findLastIndex isQueryName (getArgs line))
              none)])) := by
  obtain ⟨hs, hcases⟩ := sentenceQueries_eq hq hname
  refine ⟨?_, hs, ?_, hcases⟩
  · rw [sendRequestBranch_of_find hq, hname]
    rfl
  · rw [hs]
    exact validateInput_accept_subQueryLines h hq
      (compare_last_subquery q (List.mem_of_find?_eq_some hq) hname)

theorem sendRequest_sentence_lines_witness :
    sendRequestBranch "compare zip 66213 min `temperature_max`".toList = Branch.compare ∧
    sentenceQueries "compare zip 66213 min `temperature_max`".toList
      = subQueryLines compareZip "compare zip 66213 min `temperature_max`".toList ∧
    (∀ sub ∈ sentenceQueries "compare zip 66213 min `temperature_max`".toList,
      validateInput twoDates sub true = some (true, [])) :=
  have h := sendRequest_sentence_lines twoDates
    "compare zip 66213 min `temperature_max`".toList compareZip [] (by decide) (by decide)
    (by decide)
  ⟨h.1, h.2.1, h.2.2.1⟩

/-- The recursive calls of `sendRequest` outside the dataset branch: for an accepted line
whose command is `compare coord`, `compare zip` or `compare city` the one line passed to
the recursive call was accepted by `validateInput(., true)`, and the call finds a query. -/
theorem sendRequestCalls_validated (dateValues : List JSString) (line : JSString)
    (q : Query) (errs : List Diag)
    (h : validateInput dateValues line false = some (true, errs))
    (hq : queries.find? (selects (getArgs line) false) = some q)
    (hname : q.name = "compare".toList) (hdataset : q ≠ compareDataset) :
    sendRequestCalls line = subQueryLines q line ∧
    ∀ sub ∈ sendRequestCalls line,
      validateInput dateValues sub true = some (true, []) ∧
      sendRequestBranch sub = Branch.aggregate := by
  have hbranch : sendRequestBranch line = Branch.compare := by
    rw [sendRequestBranch_of_find hq, hname]; rfl
  have hsel := List.find?_some hq
  have hnot : ((getArgs line)[1]? == some "dataset".toList) = false := by
    rcases queries_compare q (List.mem_of_find?_eq_some hq) hname with rfl | rfl | rfl | rfl
    · have h1 : (getArgs line)[1]? = some "coord".toList := selects_fixedValue hsel rfl
      rw [h1]; decide
    · exact absurd rfl hdataset
    · have h1 : (getArgs line)[1]? = some "zip".toList := selects_fixedValue hsel rfl
      rw [h1]; decide
    · have h1 : (getArgs line)[1]? = some "city".toList := selects_fixedValue hsel rfl
      rw [h1]; decide
  have hcalls : sendRequestCalls line = sentenceQueries line := by
    unfold sendRequestCalls sentenceQueries
    rw [if_pos hbranch, hnot]
    rfl
  have hs := (sentenceQueries_eq hq hname).1
  refine ⟨hcalls.trans hs, ?_⟩
  intro sub hsub
  rw [hcalls, hs] at hsub
  have hv := validateInput_accept_subQueryLines h hq
    (compare_last_subquery q (List.mem_of_find?_eq_some hq) hname) sub hsub
  refine ⟨hv, ?_⟩
  obtain ⟨q2, hq2⟩ := validateInput_accept_found hv
  have hmem := List.mem_of_find?_eq_some hq2
  have hsel2 := (selects_iff _ _ _).1 (List.find?_some hq2)
  have hq3 : queries.find? (selects (getArgs sub) false) = some q2 := by
    have hcan : q2.canSubQuery = true := hsel2.2.1 rfl
    have hsel3 : selects (getArgs sub) false q2 = true :=
      (selects_iff _ _ _).2 ⟨hsel2.1, fun hf => (by cases hf), hsel2.2.2⟩
    cases hf : queries.find? (selects (getArgs sub) false) with
    | none =>
      have := List.find?_eq_none.1 hf q2 hmem
      exact absurd hsel3 this
    | some q4 =>
      have := selects_unique (getArgs sub) false q4 (List.mem_of_find?_eq_some hf) q2 hmem
        (List.find?_some hf) hsel3
      rw [this]
  rw [sendRequestBranch_of_find hq3]
  have hnames := canSubQuery_names q2 hmem (hsel2.2.1 rfl)
  simp only [List.mem_cons, List.mem_singleton, List.not_mem_nil, or_false] at hnames
  rcases hnames with hn | hn | hn | hn <;> rw [hn] <;> rfl

/-- C28: for the accepted line `compare dataset min `temperature_max` max
`temperature_max``, the first line that `sendRequest` passes to a recursive call is
`subQueryInput`, the tokens from index 3 on: its first token is the row of the first
sub-query, `validateInput(., true)` rejects it, and the recursive call finds no query and
takes the branch "type checking passed, but no query was found".  The two other lines,
`firstQuery` and `secondQuery`, are accepted. -/
theorem sendRequest_dataset_calls (dateValues : List JSString) :
    validateInput dateValues
        "compare dataset min `temperature_max` max `temperature_max`".toList false
      = some (true, []) ∧
    sendRequestCalls "compare dataset min `temperature_max` max `temperature_max`".toList
      = ["`temperature_max` max `temperature_max`".toList, "min `temperature_max`".toList,
         "max `temperature_max`".toList] ∧
    validateInput dateValues "`temperature_max` max `temperature_max`".toList true
      = some (false, [.unknownQuery true (some "`temperature_max`".toList)]) ∧
    sendRequestBranch "`temperature_max` max `temperature_max`".toList = Branch.noQuery ∧
    validateInput dateValues "min `temperature_max`".toList true = some (true, []) ∧
    validateInput dateValues "max `temperature_max`".toList true = some (true, []) :=
  ⟨by rfl, by decide, by rfl, by decide, by rfl, by rfl⟩

/-! ## Theorems: the case `external` of the server -/

/-- C25: for every kind among `min`, `max`, `avg` and `value` and every non-empty series,
the case `external` returns the first element of the series: the cases of its switch fall
through to `result = results[0]`.  On the series 3, 1, 2 the answer for `min` is 3, while
the minimum is 1. -/
theorem externalSwitch_first (numLe : JSNumber → JSNumber → Bool)
    (add : JSNumber → JSNumber → JSNumber) (divide : JSNumber → Nat → JSNumber)
    (kind lat long row : JSString) (first : JSNumber) (rest : List JSNumber)
    (hkind : kind ∈ ["min".toList, "max".toList, "avg".toList, "value".toList]) :
    Server.externalSwitch numLe add divide (some kind) (first :: rest) = some (some first) ∧
    Server.externalResponse add divide ["external".toList, lat, long, kind, row]
      (first :: rest) = .ok (.num first) ∧
    Server.externalSwitch JSNumber.le add divide (some "min".toList)
      [.finite false 3 0, .finite false 1 0, .finite false 2 0]
      = some (some (.finite false 3 0)) ∧
    Server.min JSNumber.le [JSNumber.finite false 3 0, .finite false 1 0, .finite false 2 0]
      = some (.finite false 1 0) := by
  have key : ∀ (le : JSNumber → JSNumber → Bool),
      Server.externalSwitch le add divide (some kind) (first :: rest)
        = some (some first) := by
    intro le
    simp only [List.mem_cons, List.mem_singleton, List.not_mem_nil, or_false] at hkind
    rcases hkind with rfl | rfl | rfl | rfl <;>
      simp +decide [Server.externalSwitch, Server.min, Server.max, Server.avg, reduce]
  refine ⟨key numLe, ?_, by rfl, by decide⟩
  have h3 : ["external".toList, lat, long, kind, row][3]? = some kind := rfl
  unfold Server.externalResponse
  rw [h3, key JSNumber.le]

theorem externalSwitch_first_witness :
    Server.externalSwitch JSNumber.le (fun a _ => a) (fun a _ => a) (some "max".toList)
      [JSNumber.finite false 1 0, .finite false 7 0] = some (some (.finite false 1 0)) :=
  (externalSwitch_first JSNumber.le (fun a _ => a) (fun a _ => a) "max".toList
    "39".toList "-94".toList "temperature_max".toList (.finite false 1 0)
    [.finite false 7 0] (by decide)).1

/-! ## Theorems: the dataset written to the file and read again -/

/-- C30: the dataset of one record whose only key is `constructor`, with the value `1`, is
not read back from the text written for it.  The object `body` of `toDataset` inherits a
property `constructor`, so `body[property] == undefined` is false, the text of the
inherited function is what ` 1` is appended to, and the three lines written hold no
`": "`: `parseDataset` reads an empty dataset from them.  That dataset is what
`parseDataset` reads from the file `constructor: 1`.  A record with the own key `__proto__`
is written as the empty text, and the dataset of the end-to-end example is read back as it
was.  For keys that an empty object does not inherit, `parseDataset_toDataset` below proves
that the dataset is read back. -/
theorem toDataset_inherited_key :
    Server.toDataset [[("constructor".toList, "1".toList)]]
      = "constructor:function Object() \x7b\n    [native code]\n\x7d 1".toList ∧
    Server.parseDataset (Server.toDataset [[("constructor".toList, "1".toList)]]) = [] ∧
    Server.parseDataset "constructor: 1".toList
      = [[("constructor".toList, "1".toList)]] ∧
    Server.toDataset [[("__proto__".toList, "1".toList)]] = [] ∧
    Server.toDataset exampleData
      = "date: 2024-04-24 2024-04-25\ntemperature_max: 70 75".toList ∧
    Server.parseDataset (Server.toDataset exampleData) = exampleData := by
  decide

/-! ## Theorems: objects with ordinary keys -/

theorem Record.get_eq_none {obj : Record} {key : JSString}
    (h : key ∉ obj.map Prod.fst) : obj.get key = none := by
  unfold Record.get
  rw [Option.map_eq_none', List.find?_eq_none]
  intro e he
  simp only [beq_iff_eq]
  intro hk
  exact h (List.mem_map.2 ⟨e, he, hk⟩)

theorem Record.get_append_self {obj : Record} {key value : JSString} (rest : Record)
    (h : key ∉ obj.map Prod.fst) : (obj ++ (key, value) :: rest).get key = some value := by
  unfold Record.get
  induction obj with
  | nil => simp
  | cons e es ih =>
    have hne : ¬ e.1 = key := fun hk => h (by simp [hk])
    have hes : key ∉ es.map Prod.fst := fun hm => h (by simp at hm ⊢; exact Or.inr hm)
    have hb : (e.1 == key) = false := by simpa using hne
    simp only [List.cons_append, List.find?_cons, hb]
    exact ih hes

theorem Record.insertKey_append {key : JSString} (value : JSString)
    (h : isArrayIndex key = false) :
    ∀ obj : Record, obj.insertKey key value = obj ++ [(key, value)] := by
  intro obj
  induction obj with
  | nil => rfl
  | cons e es ih =>
    obtain ⟨k, v⟩ := e
    simp only [Record.insertKey, h, Bool.false_eq_true, false_and, if_false, ih,
      List.cons_append]

theorem objectPrototype_proto {key : JSString}
    (h : objectPrototype.find? (fun entry => entry.1 == key) = none) :
    key ≠ "__proto__".toList := by
  intro hk
  rw [hk] at h
  revert h
  decide

theorem Record.set_new {obj : Record} {key : JSString} (value : JSString)
    (hnot : key ∉ obj.map Prod.fst) (hindex : isArrayIndex key = false)
    (hproto : key ≠ "__proto__".toList) :
    obj.set key value = obj ++ [(key, value)] := by
  unfold Record.set
  rw [Record.get_eq_none hnot]
  simp only [hproto, if_false]
  exact Record.insertKey_append value hindex obj

theorem Record.set_existing {obj : Record} {key : JSString} (old value : JSString)
    (rest : Record) (hnot : key ∉ obj.map Prod.fst) (hrest : key ∉ rest.map Prod.fst) :
    (obj ++ (key, old) :: rest).set key value = obj ++ (key, value) :: rest := by
  unfold Record.set
  rw [Record.get_append_self rest hnot]
  simp only [List.map_append, List.map_cons, beq_self_eq_true, if_true]
  have h1 : obj.map (fun entry => if (entry.1 == key) = true then (key, value) else entry)
      = obj := by
    conv_rhs => rw [← List.map_id obj]
    apply List.map_congr_left
    intro e he
    have : ¬ e.1 = key := fun hk => hnot (List.mem_map.2 ⟨e, he, hk⟩)
    simp [this]
  have h2 : rest.map (fun entry => if (entry.1 == key) = true then (key, value) else entry)
      = rest := by
    conv_rhs => rw [← List.map_id rest]
    apply List.map_congr_left
    intro e he
    have : ¬ e.1 = key := fun hk => hrest (List.mem_map.2 ⟨e, he, hk⟩)
    simp [this]
  rw [h1, h2]

theorem Record.read_own {obj : Record} {key value : JSString} (rest : Record)
    (h : key ∉ obj.map Prod.fst) : (obj ++ (key, value) :: rest).read key = some value := by
  unfold Record.read
  rw [Record.get_append_self rest h]

theorem Record.read_none {obj : Record} {key : JSString}
    (hnot : key ∉ obj.map Prod.fst)
    (hproto : objectPrototype.find? (fun entry => entry.1 == key) = none) :
    obj.read key = none := by
  unfold Record.read
  rw [Record.get_eq_none hnot, hproto]
  rfl

/-- The two statements of `toDataset` on a key that `body` does not hold yet and does not
inherit: the property is created with the value ` ` followed by the cell. -/
theorem addToBody_new {body : Record} {key : JSString} (value : JSString)
    (hnot : key ∉ body.map Prod.fst) (hindex : isArrayIndex key = false)
    (hproto : objectPrototype.find? (fun entry => entry.1 == key) = none) :
    Server.addToBody body key value = body ++ [(key, ' ' :: value)] := by
  unfold Server.addToBody
  dsimp only
  rw [Record.read_none hnot hproto]
  simp only [Option.isNone_none, if_true]
  rw [Record.set_new [] hnot hindex (objectPrototype_proto hproto),
    Record.read_own [] hnot, Record.set_existing [] _ [] hnot (by simp)]
  rfl

/-- The two statements of `toDataset` on a key that `body` holds: the cell is appended to
its value after a space. -/
theorem addToBody_existing {body : Record} {key : JSString} (old value : JSString)
    (rest : Record) (hnot : key ∉ body.map Prod.fst) (hrest : key ∉ rest.map Prod.fst) :
    Server.addToBody (body ++ (key, old) :: rest) key value
      = body ++ (key, old ++ ' ' :: value) :: rest := by
  unfold Server.addToBody
  dsimp only
  rw [Record.read_own rest hnot]
  simp only [Option.isNone_some, Bool.false_eq_true, if_false]
  rw [Record.read_own rest hnot, Record.set_existing old _ rest hnot hrest]
  rfl

theorem mem_zip_keys {keys : List JSString} {values : List JSString} {key : JSString}
    (h : key ∈ (keys.zip values).map Prod.fst) : key ∈ keys := by
  obtain ⟨e, he, rfl⟩ := List.mem_map.1 h
  exact (List.of_mem_zip he).1

/-- A record whose keys are new to `body` adds them in order, each cell after a space. -/
theorem addToBody_fold_new :
    ∀ (keys values : List JSString) (body : Record), keys.Nodup →
      (∀ k ∈ keys, k ∉ body.map Prod.fst ∧ isArrayIndex k = false
        ∧ objectPrototype.find? (fun entry => entry.1 == k) = none) →
      (keys.zip values).foldl (fun body entry => Server.addToBody body entry.1 entry.2) body
        = body ++ (keys.zip values).map (fun entry => (entry.1, ' ' :: entry.2))
  | [], _, body, _, _ => by simp
  | _ :: _, [], body, _, _ => by simp
  | k :: ks, v :: vs, body, hnodup, hkeys => by
    obtain ⟨hnot, hindex, hproto⟩ := hkeys k (List.mem_cons_self _ _)
    rw [List.nodup_cons] at hnodup
    simp only [List.zip_cons_cons, List.foldl_cons, List.map_cons]
    rw [addToBody_new v hnot hindex hproto,
      addToBody_fold_new ks vs _ hnodup.2 (fun k' hk' => by
        obtain ⟨h1, h2, h3⟩ := hkeys k' (List.mem_cons_of_mem _ hk')
        refine ⟨?_, h2, h3⟩
        simp only [List.map_append, List.map_cons, List.map_nil, List.mem_append,
          List.mem_singleton, not_or]
        exact ⟨h1, fun hkk => hnodup.1 (hkk ▸ hk')⟩)]
    simp

/-- A record whose keys `body` holds already appends its cells to their values. -/
theorem addToBody_fold_existing :
    ∀ (keys texts values : List JSString) (body : Record), keys.Nodup →
      (∀ k ∈ keys, k ∉ body.map Prod.fst) →
      texts.length = keys.length → values.length = keys.length →
      (keys.zip values).foldl (fun body entry => Server.addToBody body entry.1 entry.2)
          (body ++ keys.zip texts)
        = body ++ keys.zip (List.zipWith (fun t v => t ++ ' ' :: v) texts values)
  | [], _, _, body, _, _, _, _ => by simp
  | _ :: _, [], _, _, _, _, ht, _ => by simp at ht
  | _ :: _, _ :: _, [], _, _, _, _, hv => by simp at hv
  | k :: ks, t :: ts, v :: vs, body, hnodup, hkeys, ht, hv => by
    rw [List.nodup_cons] at hnodup
    simp only [List.zip_cons_cons, List.foldl_cons, List.zipWith_cons_cons]
    rw [addToBody_existing t v (ks.zip ts) (hkeys k (List.mem_cons_self _ _))
      (fun hm => hnodup.1 (mem_zip_keys hm))]
    have hstep := addToBody_fold_existing ks ts vs (body ++ [(k, t ++ ' ' :: v)]) hnodup.2
      (fun k' hk' => by
        simp only [List.map_append, List.map_cons, List.map_nil, List.mem_append,
          List.mem_singleton, not_or]
        exact ⟨hkeys k' (List.mem_cons_of_mem _ hk'), fun hkk => hnodup.1 (hkk ▸ hk')⟩)
      (by simpa using ht) (by simpa using hv)
    simp only [List.append_assoc, List.singleton_append] at hstep
    exact hstep

/-! ## Theorems: the lines of the dataset file -/

theorem join_cons_flatMap (sep : Char) :
    ∀ (x : JSString) (xs : List JSString),
      join sep (x :: xs) = x ++ xs.flatMap (fun y => sep :: y)
  | x, [] => by simp [join]
  | x, y :: ys => by
    simp only [join, join_cons_flatMap sep y ys, List.flatMap_cons, List.cons_append,
      List.append_assoc]

theorem mem_join {sep c : Char} :
    ∀ {xs : List JSString}, c ∈ join sep xs → c = sep ∨ ∃ x ∈ xs, c ∈ x
  | [], h => by simp [join] at h
  | [x], h => Or.inr ⟨x, List.mem_singleton_self x, by simpa [join] using h⟩
  | x :: y :: rest, h => by
    simp only [join, List.mem_append, List.mem_cons] at h
    rcases h with h | h | h
    · exact Or.inr ⟨x, List.mem_cons_self _ _, h⟩
    · exact Or.inl h
    · rcases mem_join h with h | ⟨z, hz, hc⟩
      · exact Or.inl h
      · exact Or.inr ⟨z, List.mem_cons_of_mem _ hz, hc⟩

theorem split_join_words (sep : Char) (words : List JSString) (hne : words ≠ [])
    (h : ∀ w ∈ words, sep ∉ w) : split sep (join sep words) = words := by
  rw [split_join sep words hne]
  induction words with
  | nil => rfl
  | cons w ws ih =>
    rw [List.flatMap_cons, split_of_not_mem sep w (h w (List.mem_cons_self _ _))]
    cases ws with
    | nil => rfl
    | cons u us =>
      rw [ih (by simp) (fun x hx => h x (List.mem_cons_of_mem _ hx))]
      rfl

theorem split2_of_not_mem (a b : Char) :
    ∀ w : JSString, a ∉ w → split2 a b w = [w]
  | [], _ => rfl
  | [_], _ => rfl
  | c :: d :: rest, h => by
    have hc : ¬ c = a := fun hc => h (by simp [hc])
    have hrest : a ∉ d :: rest := fun hm => h (List.mem_cons_of_mem _ hm)
    simp only [split2, hc, false_and, if_false, split2_of_not_mem a b (d :: rest) hrest]

theorem split2_key (a b : Char) (w : JSString) :
    ∀ k : JSString, a ∉ k → split2 a b (k ++ a :: b :: w) = k :: split2 a b w
  | [], _ => by simp [split2]
  | [c], h => by
    have hc : ¬ c = a := fun hc => h (by simp [hc])
    simp [split2, hc]
  | c :: d :: rest, h => by
    have hc : ¬ c = a := fun hc => h (by simp [hc])
    have hrest : a ∉ d :: rest := fun hm => h (List.mem_cons_of_mem _ hm)
    have ih := split2_key a b w (d :: rest) hrest
    simp only [List.cons_append] at ih ⊢
    simp only [split2, hc, false_and, if_false, ih]

/-- A line `key: cells` is split at its `": "` into the key and the cells. -/
theorem split2_line (key cells : JSString) (hkey : ':' ∉ key) (hcells : ':' ∉ cells) :
    split2 ':' ' ' (key ++ ':' :: ' ' :: cells) = [key, cells] := by
  rw [split2_key ':' ' ' cells key hkey, split2_of_not_mem ':' ' ' cells hcells]

theorem foldl_lines (body : Record) :
    ∀ acc : JSString,
      body.foldl (fun prev entry => prev ++ '\n' :: entry.1 ++ ':' :: entry.2) acc
        = acc ++ body.flatMap (fun entry => '\n' :: (entry.1 ++ ':' :: entry.2)) := by
  induction body with
  | nil => intro acc; simp
  | cons e es ih =>
    intro acc
    rw [List.foldl_cons, ih, List.flatMap_cons]
    simp

/-- The text written for a non-empty `body`: one line `key:value` per property. -/
theorem lines_of_body (body : Record) (hne : body ≠ []) :
    (body.foldl (fun prev entry => prev ++ '\n' :: entry.1 ++ ':' :: entry.2)
        ([] : JSString)).erase '\n'
      = join '\n' (body.map (fun entry => entry.1 ++ ':' :: entry.2)) := by
  obtain ⟨e, es, rfl⟩ := List.exists_cons_of_ne_nil hne
  rw [foldl_lines, List.map_cons, join_cons_flatMap]
  simp [List.flatMap_def, List.map_map, Function.comp_def]

/-! ## Theorems: the records built from the columns -/

theorem setCells_length_nil (key : JSString) :
    ∀ cells : List JSString, (Server.setCells [] key cells).length = cells.length
  | [] => rfl
  | _ :: cells => by simp [Server.setCells, setCells_length_nil key cells]

theorem setCells_length (key : JSString) :
    ∀ (response : List Record) (cells : List JSString), cells.length = response.length →
      (Server.setCells response key cells).length = response.length
  | [], [], _ => rfl
  | [], _ :: _, h => by simp at h
  | _ :: _, [], h => by simp at h
  | _ :: rest, _ :: cells, h => by
    simp [Server.setCells, setCells_length key rest cells (by simpa using h)]

theorem setCells_nil_snoc (key cell : JSString) :
    ∀ cells : List JSString,
      Server.setCells [] key (cells ++ [cell])
        = Server.setCells [] key cells ++ [Record.set [] key cell]
  | [] => rfl
  | _ :: cells => by simp [Server.setCells, setCells_nil_snoc key cell cells]

theorem setCells_snoc (key cell : JSString) (last : Record) :
    ∀ (response : List Record) (cells : List JSString), cells.length = response.length →
      Server.setCells (response ++ [last]) key (cells ++ [cell])
        = Server.setCells response key cells ++ [last.set key cell]
  | [], [], _ => rfl
  | [], _ :: _, h => by simp at h
  | _ :: _, [], h => by simp at h
  | _ :: rest, _ :: cells, h => by
    simp [Server.setCells, setCells_snoc key cell last rest cells (by simpa using h)]

/-- One more cell in every column gives one more record, when the response has a record
for every cell the columns had. -/
theorem setCells_fold_snoc :
    ∀ (keys : List JSString) (cols : List (List JSString)) (values : List JSString)
      (response : List Record) (last : Record), keys.Nodup →
      (∀ k ∈ keys, k ∉ last.map Prod.fst ∧ isArrayIndex k = false
        ∧ k ≠ "__proto__".toList) →
      cols.length = keys.length → values.length = keys.length →
      (∀ c ∈ cols, c.length = response.length) →
      (keys.zip (List.zipWith (fun c v => c ++ [v]) cols values)).foldl
          (fun response row => Server.setCells response row.1 row.2) (response ++ [last])
        = (keys.zip cols).foldl (fun response row => Server.setCells response row.1 row.2)
            response ++ [last ++ keys.zip values]
  | [], _, _, _, _, _, _, _, _, _ => by simp
  | _ :: _, [], _, _, _, _, _, hc, _, _ => by simp at hc
  | _ :: _, _ :: _, [], _, _, _, _, _, hv, _ => by simp at hv
  | k :: ks, c :: cs, v :: vs, response, last, hnodup, hkeys, hc, hv, hlen => by
    rw [List.nodup_cons] at hnodup
    obtain ⟨hnot, hindex, hproto⟩ := hkeys k (List.mem_cons_self _ _)
    have hclen : c.length = response.length := hlen c (List.mem_cons_self _ _)
    simp only [List.zipWith_cons_cons, List.zip_cons_cons, List.foldl_cons]
    rw [setCells_snoc k v last response c hclen, Record.set_new v hnot hindex hproto,
      setCells_fold_snoc ks cs vs (Server.setCells response k c) (last ++ [(k, v)]) hnodup.2
        (fun k' hk' => by
          obtain ⟨h1, h2, h3⟩ := hkeys k' (List.mem_cons_of_mem _ hk')
          refine ⟨?_, h2, h3⟩
          simp only [List.map_append, List.map_cons, List.map_nil, List.mem_append,
            List.mem_singleton, not_or]
          exact ⟨h1, fun hkk => hnodup.1 (hkk ▸ hk')⟩)
        (by simpa using hc) (by simpa using hv)
        (fun c' hc' => by
          rw [setCells_length k response c hclen]
          exact hlen c' (List.mem_cons_of_mem _ hc'))]
    simp

/-- The records built from columns that all got one more cell: the records built from the
columns as they were, and one record of the new cells. -/
theorem setCells_columns_snoc (keys : List JSString) (cols : List (List JSString))
    (values : List JSString) (n : Nat) (hne : keys ≠ []) (hnodup : keys.Nodup)
    (hkeys : ∀ k ∈ keys, isArrayIndex k = false ∧ k ≠ "__proto__".toList)
    (hc : cols.length = keys.length) (hv : values.length = keys.length)
    (hlen : ∀ c ∈ cols, c.length = n) :
    (keys.zip (List.zipWith (fun c v => c ++ [v]) cols values)).foldl
        (fun response row => Server.setCells response row.1 row.2) []
      = (keys.zip cols).foldl (fun response row => Server.setCells response row.1 row.2) []
          ++ [keys.zip values] := by
  match keys, cols, values, hne, hnodup, hkeys, hc, hv, hlen with
  | [], _, _, hne, _, _, _, _, _ => exact absurd rfl hne
  | _ :: _, [], _, _, _, _, hc, _, _ => simp at hc
  | _ :: _, _ :: _, [], _, _, _, _, hv, _ => simp at hv
  | k :: ks, c :: cs, v :: vs, _, hnodup, hkeys, hc, hv, hlen =>
    rw [List.nodup_cons] at hnodup
    obtain ⟨hindex, hproto⟩ := hkeys k (List.mem_cons_self _ _)
    simp only [List.zipWith_cons_cons, List.zip_cons_cons, List.foldl_cons]
    rw [setCells_nil_snoc k v c, Record.set_new v (by simp) hindex hproto,
      setCells_fold_snoc ks cs vs (Server.setCells [] k c) ([] ++ [(k, v)]) hnodup.2
        (fun k' hk' => by
          obtain ⟨h2, h3⟩ := hkeys k' (List.mem_cons_of_mem _ hk')
          refine ⟨?_, h2, h3⟩
          simp only [List.nil_append, List.map_cons, List.map_nil, List.mem_singleton]
          exact fun hkk => hnodup.1 (hkk ▸ hk'))
        (by simpa using hc) (by simpa using hv)
        (fun c' hc' => by
          rw [setCells_length_nil k c, hlen c (List.mem_cons_self _ _)]
          exact hlen c' (List.mem_cons_of_mem _ hc'))]
    simp

/-! ## Theorems: the dataset read back from its file -/

theorem mem_zipWith_snoc {c : List JSString} :
    ∀ {cols : List (List JSString)} {values : List JSString},
      c ∈ List.zipWith (fun c v => c ++ [v]) cols values →
      ∃ c0 ∈ cols, ∃ v ∈ values, c = c0 ++ [v]
  | [], _, h => by simp at h
  | _ :: _, [], h => by simp at h
  | c0 :: cs, v :: vs, h => by
    simp only [List.zipWith_cons_cons, List.mem_cons] at h
    rcases h with h | h
    · exact ⟨c0, List.mem_cons_self _ _, v, List.mem_cons_self _ _, h⟩
    · obtain ⟨c1, h1, v1, hv1, h2⟩ := mem_zipWith_snoc h
      exact ⟨c1, List.mem_cons_of_mem _ h1, v1, List.mem_cons_of_mem _ hv1, h2⟩

theorem zipWith_text_snoc :
    ∀ (cols : List (List JSString)) (values : List JSString),
      List.zipWith (fun t v => t ++ ' ' :: v)
          (cols.map (fun c => c.flatMap (fun v => ' ' :: v))) values
        = (List.zipWith (fun c v => c ++ [v]) cols values).map
            (fun c => c.flatMap (fun v => ' ' :: v))
  | [], _ => by simp
  | _ :: _, [] => by simp
  | c :: cs, v :: vs => by
    simp only [List.map_cons, List.zipWith_cons_cons, zipWith_text_snoc cs vs,
      List.flatMap_append, List.flatMap_cons, List.flatMap_nil, List.append_nil]

theorem setCells_no_cells (key : JSString) :
    ∀ response : List Record, Server.setCells response key [] = response
  | [] => rfl
  | _ :: _ => rfl

theorem setCells_fold_empty_columns :
    ∀ keys : List JSString,
      (keys.zip (keys.map (fun _ => ([] : List JSString)))).foldl
        (fun response row => Server.setCells response row.1 row.2) [] = []
  | [] => rfl
  | k :: ks => by
    simp only [List.map_cons, List.zip_cons_cons, List.foldl_cons, setCells_no_cells]
    exact setCells_fold_empty_columns ks

theorem zipWith_snoc_empty_columns :
    ∀ (keys values : List JSString), values.length = keys.length →
      List.zipWith (fun c v => c ++ [v]) (keys.map (fun _ => ([] : List JSString))) values
        = values.map (fun v => [v])
  | [], [], _ => rfl
  | [], _ :: _, h => by simp at h
  | _ :: _, [], h => by simp at h
  | _ :: ks, _ :: vs, h => by
    simp only [List.map_cons, List.zipWith_cons_cons, List.nil_append,
      zipWith_snoc_empty_columns ks vs (by simpa using h)]

/-- The columns of a dataset whose records hold the keys `keys` in this order: `body` of
`toDataset` holds for every key its column, each cell after a space, and the loops of
`parseDataset` build the dataset from the columns. -/
theorem dataset_columns (keys : List JSString) (hne : keys ≠ []) (hnodup : keys.Nodup)
    (hkeys : ∀ k ∈ keys, isArrayIndex k = false
      ∧ objectPrototype.find? (fun entry => entry.1 == k) = none)
    (first : List JSString) :
    ∀ rest : List (List JSString), (∀ vs ∈ first :: rest, vs.length = keys.length) →
      ∃ cols : List (List JSString), cols.length = keys.length ∧
        (∀ c ∈ cols, c.length = (first :: rest).length ∧
          ∀ v ∈ c, ∃ vs ∈ first :: rest, v ∈ vs) ∧
        ((first :: rest).map (fun vs => keys.zip vs)).foldl (fun body record =>
            record.foldl (fun body entry => Server.addToBody body entry.1 entry.2) body) []
          = keys.zip (cols.map (fun c => c.flatMap (fun v => ' ' :: v))) ∧
        (keys.zip cols).foldl (fun response row => Server.setCells response row.1 row.2) []
          = (first :: rest).map (fun vs => keys.zip vs) := by
  have hkeys2 : ∀ k ∈ keys, isArrayIndex k = false ∧ k ≠ "__proto__".toList :=
    fun k hk => ⟨(hkeys k hk).1, objectPrototype_proto (hkeys k hk).2⟩
  intro rest
  induction rest using List.reverseRecOn with
  | nil =>
    intro hrows
    have hfirst : first.length = keys.length := hrows first (List.mem_cons_self _ _)
    refine ⟨first.map (fun v => [v]), by simpa using hfirst, ?_, ?_, ?_⟩
    · intro c hc
      obtain ⟨v, hv, rfl⟩ := List.mem_map.1 hc
      refine ⟨rfl, fun w hw => ⟨first, List.mem_cons_self _ _, ?_⟩⟩
      rw [List.mem_singleton] at hw
      exact hw ▸ hv
    · simp only [List.map_cons, List.map_nil, List.foldl_cons, List.foldl_nil]
      rw [addToBody_fold_new keys first [] hnodup
        (fun k hk => ⟨by simp, (hkeys k hk).1, (hkeys k hk).2⟩)]
      simp [List.zip_map_right, List.map_map, Function.comp_def]
    · have h := setCells_columns_snoc keys (keys.map (fun _ => [])) first 0 hne hnodup hkeys2
        (by simp) hfirst (fun c hc => by
          obtain ⟨_, _, rfl⟩ := List.mem_map.1 hc
          rfl)
      rw [zipWith_snoc_empty_columns keys first hfirst, setCells_fold_empty_columns] at h
      simpa using h
  | append_singleton rest values ih =>
    intro hrows
    obtain ⟨cols, hlen, hcols, hbody, hbuild⟩ := ih (fun vs hvs => hrows vs (by
      rcases List.mem_cons.1 hvs with h | h
      · exact h ▸ List.mem_cons_self _ _
      · exact List.mem_cons_of_mem _ (List.mem_append_left _ h)))
    have hvalues : values.length = keys.length :=
      hrows values (List.mem_cons_of_mem _ (by simp))
    refine ⟨List.zipWith (fun c v => c ++ [v]) cols values, by simp [hlen, hvalues],
      ?_, ?_, ?_⟩
    · intro c hc
      obtain ⟨c0, hc0, v, hv, rfl⟩ := mem_zipWith_snoc hc
      refine ⟨by simp [(hcols c0 hc0).1], fun w hw => ?_⟩
      rcases List.mem_append.1 hw with h | h
      · obtain ⟨vs, hvs, hwvs⟩ := (hcols c0 hc0).2 w h
        refine ⟨vs, ?_, hwvs⟩
        rcases List.mem_cons.1 hvs with h | h
        · exact h ▸ List.mem_cons_self _ _
        · exact List.mem_cons_of_mem _ (List.mem_append_left _ h)
      · rw [List.mem_singleton] at h
        exact ⟨values, List.mem_cons_of_mem _ (by simp), h ▸ hv⟩
    · rw [← List.cons_append, List.map_append, List.foldl_append, hbody]
      have h := addToBody_fold_existing keys
        (cols.map (fun c => c.flatMap (fun v => ' ' :: v))) values [] hnodup
        (fun _ _ => by simp) (by simpa using hlen) hvalues
      simp only [List.nil_append] at h
      simp only [List.map_cons, List.map_nil, List.foldl_cons, List.foldl_nil]
      rw [h, zipWith_text_snoc]
    · rw [setCells_columns_snoc keys cols values (first :: rest).length hne hnodup hkeys2
        hlen hvalues (fun c hc => (hcols c hc).1), hbuild]
      simp

theorem text_of_column :
    ∀ c : List JSString, c ≠ [] → c.flatMap (fun v => ' ' :: v) = ' ' :: join ' ' c
  | [], h => absurd rfl h
  | v :: vs, _ => by rw [join_cons_flatMap, List.flatMap_cons, List.cons_append]

/-- The lines `key: cell cell ...` are read back as their keys and columns. -/
theorem parseDataset_lines (table : List (JSString × List JSString)) (hne : table ≠ [])
    (htable : ∀ e ∈ table, ':' ∉ e.1 ∧ '\n' ∉ e.1 ∧ e.2 ≠ [] ∧
      ∀ v ∈ e.2, ' ' ∉ v ∧ '\n' ∉ v ∧ ':' ∉ v) :
    Server.parseDataset
        (join '\n' (table.map (fun e => e.1 ++ ':' :: ' ' :: join ' ' e.2)))
      = table.foldl (fun response row => Server.setCells response row.1 row.2) [] := by
  have hjoin : ∀ e ∈ table, ∀ ch : Char, ch ≠ ' ' → (∀ v ∈ e.2, ch ∉ v) →
      ch ∉ join ' ' e.2 := by
    intro e _ ch hch hv hmem
    rcases mem_join hmem with h | ⟨v, hv1, hv2⟩
    · exact hch h
    · exact hv v hv1 hv2
  have hsplit : split '\n' (join '\n' (table.map
      (fun e => e.1 ++ ':' :: ' ' :: join ' ' e.2)))
      = table.map (fun e => e.1 ++ ':' :: ' ' :: join ' ' e.2) := by
    apply split_join_words '\n' _ (by simpa using hne)
    intro w hw
    obtain ⟨e, he, rfl⟩ := List.mem_map.1 hw
    obtain ⟨_, h2, _, h4⟩ := htable e he
    intro hmem
    simp only [List.mem_append, List.mem_cons] at hmem
    rcases hmem with h | h | h | h
    · exact h2 h
    · exact absurd h (by decide)
    · exact absurd h (by decide)
    · exact hjoin e he '\n' (by decide) (fun v hv => (h4 v hv).2.1) h
  unfold Server.parseDataset
  dsimp only
  rw [hsplit, List.map_map, List.map_map, List.zip_map']
  have hself : ∀ f : JSString × List JSString → JSString × List JSString,
      (∀ e ∈ table, f e = e) → List.map f table = table := by
    intro f hf
    conv_rhs => rw [← List.map_id table]
    exact List.map_congr_left hf
  rw [hself]
  intro e he
  obtain ⟨h1, _, h3, h4⟩ := htable e he
  have hline := split2_line e.1 (join ' ' e.2) h1
    (hjoin e he ':' (by decide) (fun v hv => (h4 v hv).2.2))
  have hcells : split ' ' (join ' ' e.2) = e.2 :=
    split_join_words ' ' e.2 h3 (fun v hv => (h4 v hv).1)
  simp only [Function.comp_apply, hline, List.headD_cons]
  simp [hcells]

/-- The dataset is read back from the text written for it when its records hold the same
keys in the same order, no key is inherited by an empty object or is an array index, the
keys hold no colon and no newline, and the values hold no space, newline or colon. -/
theorem parseDataset_toDataset (keys : List JSString) (rows : List (List JSString))
    (hne : keys ≠ []) (hnodup : keys.Nodup)
    (hkeys : ∀ k ∈ keys, ':' ∉ k ∧ '\n' ∉ k ∧ isArrayIndex k = false
      ∧ objectPrototype.find? (fun entry => entry.1 == k) = none)
    (hrows : ∀ vs ∈ rows, vs.length = keys.length
      ∧ ∀ v ∈ vs, ' ' ∉ v ∧ '\n' ∉ v ∧ ':' ∉ v) :
    Server.parseDataset (Server.toDataset (rows.map (fun vs => keys.zip vs)))
      = rows.map (fun vs => keys.zip vs) := by
  cases rows with
  | nil =>
    show Server.parseDataset (Server.toDataset []) = []
    decide
  | cons first rest =>
    obtain ⟨cols, hlen, hcols, hbody, hbuild⟩ := dataset_columns keys hne hnodup
      (fun k hk => ⟨(hkeys k hk).2.2.1, (hkeys k hk).2.2.2⟩) first rest
      (fun vs hvs => (hrows vs hvs).1)
    have hcne : ∀ c ∈ cols, c ≠ [] := fun c hc h0 => by
      have := (hcols c hc).1
      rw [h0] at this
      simp at this
    have htable : keys.zip cols ≠ [] := by
      cases keys with
      | nil => exact absurd rfl hne
      | cons k ks =>
        cases cols with
        | nil => simp at hlen
        | cons c cs => simp
    have htext : keys.zip (cols.map (fun c => c.flatMap (fun v => ' ' :: v)))
        = (keys.zip cols).map (fun e => (e.1, ' ' :: join ' ' e.2)) := by
      rw [List.zip_map_right]
      apply List.map_congr_left
      intro e he
      rw [Prod.map_apply, id, text_of_column e.2 (hcne e.2 (List.of_mem_zip he).2)]
    unfold Server.toDataset
    dsimp only
    rw [hbody, htext, lines_of_body _ (by simpa using htable), List.map_map]
    have hparse := parseDataset_lines (keys.zip cols) htable (fun e he => by
      obtain ⟨hk, hc⟩ := List.of_mem_zip he
      refine ⟨(hkeys e.1 hk).1, (hkeys e.1 hk).2.1, hcne e.2 hc, fun v hv => ?_⟩
      obtain ⟨vs, hvs, hv2⟩ := (hcols e.2 hc).2 v hv
      exact (hrows vs hvs).2 v hv2)
    rw [← hbuild, ← hparse]
    rfl

theorem parseDataset_toDataset_example :
    Server.parseDataset (Server.toDataset
        ([["2024-04-24".toList, "70".toList], ["2024-04-25".toList, "75".toList]].map
          (fun vs => ["date".toList, "temperature_max".toList].zip vs)))
      = [["2024-04-24".toList, "70".toList], ["2024-04-25".toList, "75".toList]].map
          (fun vs => ["date".toList, "temperature_max".toList].zip vs) :=
  parseDataset_toDataset ["date".toList, "temperature_max".toList]
    [["2024-04-24".toList, "70".toList], ["2024-04-25".toList, "75".toList]]
    (by decide) (by decide) (by decide) (by decide)


/-! ## Theorems: the path of a request -/

theorem dropWhile_of_all_false {α : Type} (p : α → Bool) :
    ∀ l : List α, (∀ x ∈ l, p x = false) → l.dropWhile p = l
  | [], _ => rfl
  | x :: xs, h => by simp [List.dropWhile, h x (List.mem_cons_self _ _)]

theorem takeWhile_of_all_true {α : Type} (p : α → Bool) :
    ∀ l : List α, (∀ x ∈ l, p x = true) → l.takeWhile p = l
  | [], _ => rfl
  | x :: xs, h => by
    simp only [List.takeWhile, h x (List.mem_cons_self _ _)]
    rw [takeWhile_of_all_true p xs (fun y hy => h y (List.mem_cons_of_mem _ hy))]

theorem split_slash_segments :
    ∀ (segs : List JSString) (seg : JSString), '/' ∉ seg → (∀ s ∈ segs, '/' ∉ s) →
      split '/' (seg ++ segs.flatMap (fun s => '/' :: s)) = seg :: segs
  | [], seg, h, _ => by simpa using split_of_not_mem '/' seg h
  | s :: rest, seg, h, hrest => by
    rw [List.flatMap_cons, List.cons_append, split_append, split_of_not_mem '/' seg h,
      split_slash_segments rest s (hrest s (List.mem_cons_self _ _))
        (fun t ht => hrest t (List.mem_cons_of_mem _ ht))]
    rfl

theorem isPlainSegment_iff (seg : JSString) :
    Server.isPlainSegment seg = true ↔
      (∀ c ∈ seg, Server.inPathPercentEncodeSet c = false ∧ c ≠ '/' ∧ c ≠ '\\') ∧
      Server.isSingleDotSegment seg = false ∧ Server.isDoubleDotSegment seg = false := by
  simp [Server.isPlainSegment, List.all_eq_true, and_assoc]

theorem pathState_plain :
    ∀ (segs path : List JSString), (∀ s ∈ segs, Server.isPlainSegment s = true) →
      Server.pathState path segs = path ++ segs
  | [], path, _ => by simp [Server.pathState]
  | [seg], path, h => by
    obtain ⟨_, h1, h2⟩ := (isPlainSegment_iff seg).1 (h seg (List.mem_cons_self _ _))
    simp [Server.pathState, h1, h2]
  | seg :: next :: rest, path, h => by
    obtain ⟨_, h1, h2⟩ := (isPlainSegment_iff seg).1 (h seg (List.mem_cons_self _ _))
    simp only [Server.pathState, h1, h2, Bool.false_eq_true, if_false]
    rw [pathState_plain (next :: rest) (path ++ [seg])
      (fun s hs => h s (List.mem_cons_of_mem _ hs))]
    simp

theorem percentEncode_plain (seg : JSString)
    (h : ∀ c ∈ seg, Server.inPathPercentEncodeSet c = false) :
    seg.flatMap Server.percentEncode = seg := by
  induction seg with
  | nil => rfl
  | cons c cs ih =>
    rw [List.flatMap_cons, ih (fun d hd => h d (List.mem_cons_of_mem _ hd))]
    simp [Server.percentEncode, h c (List.mem_cons_self _ _)]

/-- A path whose segments are all plain is its own `pathname`. -/
theorem pathname_plain (seg : JSString) (segs : List JSString)
    (h : ∀ s ∈ seg :: segs, Server.isPlainSegment s = true) :
    Server.pathname ((seg :: segs).flatMap (fun s => '/' :: s))
      = (seg :: segs).flatMap (fun s => '/' :: s) := by
  have hchar : ∀ c ∈ (seg :: segs).flatMap (fun s => '/' :: s),
      c = '/' ∨ (Server.inPathPercentEncodeSet c = false ∧ c ≠ '/' ∧ c ≠ '\\') := by
    intro c hc
    obtain ⟨s, hs, hcs⟩ := List.mem_flatMap.1 hc
    rcases List.mem_cons.1 hcs with h1 | h1
    · exact Or.inl h1
    · exact Or.inr (((isPlainSegment_iff s).1 (h s hs)).1 c h1)
  have hset : ∀ c : Char, Server.inPathPercentEncodeSet c = false →
      ¬ c.toNat ≤ 0x20 ∧ c ≠ '\t' ∧ c ≠ '\n' ∧ c ≠ '\r' ∧ c ≠ '?' ∧ c ≠ '#' := by
    intro c hc
    simp only [Server.inPathPercentEncodeSet, Bool.or_eq_false_iff, decide_eq_false_iff_not,
      List.mem_cons, List.mem_singleton, not_or, List.not_mem_nil, or_false] at hc
    refine ⟨by omega, ?_, ?_, ?_, ?_, ?_⟩ <;> (intro hcc; subst hcc; revert hc; decide)
  have hslash : ∀ s ∈ seg :: segs, '/' ∉ s := fun s hs hm =>
    (((isPlainSegment_iff s).1 (h s hs)).1 '/' hm).2.1 rfl
  unfold Server.pathname
  dsimp only
  have h1 : (((seg :: segs).flatMap (fun s => '/' :: s)).reverse.dropWhile
      (fun c => decide (c.toNat ≤ 0x20))).reverse
      = (seg :: segs).flatMap (fun s => '/' :: s) := by
    rw [dropWhile_of_all_false, List.reverse_reverse]
    intro c hc
    rcases hchar c (List.mem_reverse.1 hc) with h2 | h2
    · subst h2; decide
    · simpa using (hset c h2.1).1
  rw [h1]
  have h2 : ((seg :: segs).flatMap (fun s => '/' :: s)).filter
      (fun c => decide (c ≠ '\t' ∧ c ≠ '\n' ∧ c ≠ '\r'))
      = (seg :: segs).flatMap (fun s => '/' :: s) := by
    rw [List.filter_eq_self]
    intro c hc
    rcases hchar c hc with h2 | h2
    · subst h2; decide
    · have := hset c h2.1
      simp [this.2.1, this.2.2.1, this.2.2.2.1]
  rw [h2]
  have h3 : ((seg :: segs).flatMap (fun s => '/' :: s)).takeWhile
      (fun c => decide (c ≠ '?' ∧ c ≠ '#'))
      = (seg :: segs).flatMap (fun s => '/' :: s) := by
    apply takeWhile_of_all_true
    intro c hc
    rcases hchar c hc with h2 | h2
    · subst h2; decide
    · have := hset c h2.1
      simp [this.2.2.2.2.1, this.2.2.2.2.2]
  rw [h3]
  have h4 : ((seg :: segs).flatMap (fun s => '/' :: s)).map
      (fun c => if c = '\\' then '/' else c)
      = (seg :: segs).flatMap (fun s => '/' :: s) := by
    conv_rhs => rw [← List.map_id ((seg :: segs).flatMap (fun s => '/' :: s))]
    apply List.map_congr_left
    intro c hc
    rcases hchar c hc with h2 | h2
    · subst h2; decide
    · simp [h2.2.2]
  rw [h4]
  have h5 : ((seg :: segs).flatMap (fun s => '/' :: s)).drop 1
      = seg ++ segs.flatMap (fun s => '/' :: s) := by
    simp
  rw [h5, split_slash_segments segs seg (hslash seg (List.mem_cons_self _ _))
    (fun s hs => hslash s (List.mem_cons_of_mem _ hs))]
  have h6 : (seg :: segs).map (fun s => s.flatMap Server.percentEncode) = seg :: segs := by
    conv_rhs => rw [← List.map_id (seg :: segs)]
    apply List.map_congr_left
    intro s hs
    exact percentEncode_plain s (fun c hc => (((isPlainSegment_iff s).1 (h s hs)).1 c hc).1)
  rw [h6, pathState_plain (seg :: segs) [] h]
  rfl

/-- The server gets the segments of a request as they are written, when all are plain. -/
theorem requestArgs_plain (seg : JSString) (segs : List JSString)
    (h : ∀ s ∈ seg :: segs, Server.isPlainSegment s = true) :
    Server.requestArgs (seg :: segs) = seg :: segs := by
  have hapi : Server.isPlainSegment "api".toList = true := by decide
  have hall : ∀ s ∈ "api".toList :: seg :: segs, Server.isPlainSegment s = true := by
    intro s hs
    rcases List.mem_cons.1 hs with h1 | h1
    · rw [h1]; exact hapi
    · exact h s h1
  have hslash : ∀ s ∈ "api".toList :: seg :: segs, '/' ∉ s := fun s hs hm =>
    (((isPlainSegment_iff s).1 (hall s hs)).1 '/' hm).2.1 rfl
  have htarget : "/api/".toList ++ join '/' (seg :: segs)
      = ("api".toList :: seg :: segs).flatMap (fun s => '/' :: s) := by
    rw [join_cons_flatMap]
    simp
  unfold Server.requestArgs Server.apiArgs
  rw [htarget, pathname_plain _ _ hall]
  have hsplit := split_slash_segments ("api".toList :: seg :: segs) [] (by simp) hslash
  rw [List.nil_append] at hsplit
  rw [hsplit]
  rfl

theorem isDigit_toNat {c : Char} (h : c.isDigit = true) : 48 ≤ c.toNat ∧ c.toNat ≤ 57 := by
  simp only [Char.isDigit, Bool.and_eq_true, decide_eq_true_eq] at h
  exact ⟨h.1, h.2⟩

theorem isPlainSegment_of_isDigit (seg : JSString) (h : ∀ c ∈ seg, c.isDigit = true) :
    Server.isPlainSegment seg = true := by
  rw [isPlainSegment_iff]
  have hno : ∀ c : Char, c.isDigit = false → c ∉ seg := fun c hc hm => by
    rw [h c hm] at hc
    cases hc
  refine ⟨fun c hc => ?_, ?_, ?_⟩
  · obtain ⟨h1, h2⟩ := isDigit_toNat (h c hc)
    refine ⟨?_, ?_, ?_⟩
    · simp only [Server.inPathPercentEncodeSet, Bool.or_eq_false_iff,
        decide_eq_false_iff_not, List.mem_cons, List.mem_singleton, not_or,
        List.not_mem_nil, or_false]
      omega
    · intro hcc; subst hcc; revert h1; decide
    · intro hcc; subst hcc; revert h2; decide
  · simp only [Server.isSingleDotSegment, decide_eq_false_iff_not, List.mem_cons,
      List.mem_singleton, List.not_mem_nil, or_false]
    intro hseg
    rcases hseg with h1 | h1 | h1 <;>
      first
      | exact hno '.' (by decide) (by rw [h1]; decide)
      | exact hno '%' (by decide) (by rw [h1]; decide)
  · simp only [Server.isDoubleDotSegment, decide_eq_false_iff_not, List.mem_cons,
      List.mem_singleton, List.not_mem_nil, or_false]
    intro hseg
    rcases hseg with h1 | h1 | h1 | h1 | h1 | h1 | h1 | h1 | h1 <;>
      first
      | exact hno '.' (by decide) (by rw [h1]; decide)
      | exact hno '%' (by decide) (by rw [h1]; decide)

/-! ## Theorems: the range requests, from the URL to the answer -/

/-- The rounding at doubles next to `2^53`, at `0.1`, at `-75`, at the largest double and
above it, and at the smallest double and below it. -/
theorem toDouble_examples :
    (JSNumber.finite false 9007199254740993 0).toDouble
      = .finite false 9007199254740992 0 ∧
    (JSNumber.finite false 9007199254740995 0).toDouble
      = .finite false 9007199254740996 0 ∧
    (JSNumber.finite false 1 (-1)).toDouble
      = .finite false (7205759403792794 * 5 ^ 56) (-56) ∧
    (JSNumber.finite true 75 0).toDouble = .finite true (5277655813324800 * 5 ^ 46) (-46) ∧
    (JSNumber.finite false 17976931348623157 292).toDouble
      = .finite false ((2 ^ 53 - 1) * 2 ^ 971) 0 ∧
    (JSNumber.finite false 17976931348623159 292).toDouble = .infinity false ∧
    (JSNumber.finite false 1 309).toDouble = .infinity false ∧
    (JSNumber.finite false 5 (-324)).toDouble = .finite false (1 * 5 ^ 1074) (-1074) ∧
    (JSNumber.finite false 2 (-324)).toDouble = .finite false (0 * 5 ^ 1074) (-1074) := by
  decide!

/-- C15 (amended): for every dataset of `N` records with pairwise distinct, non-empty
dates and numeric cells in column `c`, where `c` is a non-empty name that the URL path
carries unchanged (the server does not decode the path), and index tokens `s`, `e` with
`0 <= s <= e < N` and `e < 100`, the `max` request for `(c, s, e)` returns a cell of the
records `s .. e` whose numeric value, the double `Number(cell)`, is at least that of every
cell of `c` in these records, and `min` one whose value is at most that of every such
cell; with the start omitted the range starts at the first record, and with the end
omitted it ends at the last record.  The request is the URL `/api/max/c/s/e`, read
through `new URL(req.url).pathname` and `path.split("/").slice(2)`. -/
theorem handleMax_handleMin_range (data : Dataset) (c : JSString) (s e : Nat)
    (hse : s ≤ e) (heN : e < data.length) (he : e < 100) (hc : c ≠ [])
    (hurl : Server.isPlainSegment c = true)
    (hdate : ∀ a ∈ column data "date".toList, truthy a = true)
    (hdistinct : (column data "date".toList).Nodup)
    (hnum : ∀ a ∈ column data c, ((a.map Number).getD .nan).isNaN = false) :
    IsMaxOfRows numberLe data c s e
      (Server.handleMax numberLe data
        (Server.requestArgs ["max".toList, c, natToString s, natToString e])) ∧
    IsMaxOfRows numberLe data c s (data.length - 1)
      (Server.handleMax numberLe data
        (Server.requestArgs ["max".toList, c, natToString s])) ∧
    IsMaxOfRows numberLe data c 0 e
      (Server.handleMax numberLe data
        (Server.requestArgs ["max".toList, c, [], natToString e])) ∧
    IsMaxOfRows numberLe data c 0 (data.length - 1)
      (Server.handleMax numberLe data (Server.requestArgs ["max".toList, c])) ∧
    IsMinOfRows numberLe data c s e
      (Server.handleMin numberLe data
        (Server.requestArgs ["min".toList, c, natToString s, natToString e])) ∧
    IsMinOfRows numberLe data c s (data.length - 1)
      (Server.handleMin numberLe data
        (Server.requestArgs ["min".toList, c, natToString s])) ∧
    IsMinOfRows numberLe data c 0 e
      (Server.handleMin numberLe data
        (Server.requestArgs ["min".toList, c, [], natToString e])) ∧
    IsMinOfRows numberLe data c 0 (data.length - 1)
      (Server.handleMin numberLe data (Server.requestArgs ["min".toList, c])) := by
  have hmax : Server.isPlainSegment "max".toList = true := by decide
  have hmin : Server.isPlainSegment "min".toList = true := by decide
  have hnil : Server.isPlainSegment [] = true := by decide
  have hs := isPlainSegment_of_isDigit _ (natToString_isDigit s)
  have he2 := isPlainSegment_of_isDigit _ (natToString_isDigit e)
  have h0 : ∀ x ∈ ([] : List JSString), Server.isPlainSegment x = true :=
    fun _ hx => absurd hx (List.not_mem_nil _)
  have plain := fun (x : JSString) (xs : List JSString)
      (hx : Server.isPlainSegment x = true)
      (hxs : ∀ y ∈ xs, Server.isPlainSegment y = true) =>
    (List.forall_mem_cons.2 ⟨hx, hxs⟩ : ∀ y ∈ x :: xs, Server.isPlainSegment y = true)
  rw [requestArgs_plain "max".toList [c, natToString s, natToString e]
      (plain _ _ hmax (plain _ _ hurl (plain _ _ hs (plain _ _ he2 h0)))),
    requestArgs_plain "max".toList [c, natToString s]
      (plain _ _ hmax (plain _ _ hurl (plain _ _ hs h0))),
    requestArgs_plain "max".toList [c, [], natToString e]
      (plain _ _ hmax (plain _ _ hurl (plain _ _ hnil (plain _ _ he2 h0)))),
    requestArgs_plain "max".toList [c] (plain _ _ hmax (plain _ _ hurl h0)),
    requestArgs_plain "min".toList [c, natToString s, natToString e]
      (plain _ _ hmin (plain _ _ hurl (plain _ _ hs (plain _ _ he2 h0)))),
    requestArgs_plain "min".toList [c, natToString s]
      (plain _ _ hmin (plain _ _ hurl (plain _ _ hs h0))),
    requestArgs_plain "min".toList [c, [], natToString e]
      (plain _ _ hmin (plain _ _ hurl (plain _ _ hnil (plain _ _ he2 h0)))),
    requestArgs_plain "min".toList [c] (plain _ _ hmin (plain _ _ hurl h0))]
  exact handleMax_handleMin_range_of_order numberLe data c s e hse heN he hc hdate hdistinct
    (numberLe_numeric _ hnum).1 (numberLe_numeric _ hnum).2.1 (numberLe_numeric _ hnum).2.2

theorem handleMax_handleMin_range_witness :
    Server.handleMax numberLe exampleData
        (Server.requestArgs ["max".toList, "temperature_max".toList])
      = .ok (.str "75".toList) ∧
    (IsMaxOfRows numberLe exampleData "temperature_max".toList 0 1
      (Server.handleMax numberLe exampleData
        (Server.requestArgs
          ["max".toList, "temperature_max".toList, natToString 0, natToString 1])) ∧
    IsMaxOfRows numberLe exampleData "temperature_max".toList 0 (exampleData.length - 1)
      (Server.handleMax numberLe exampleData
        (Server.requestArgs ["max".toList, "temperature_max".toList, natToString 0])) ∧
    IsMaxOfRows numberLe exampleData "temperature_max".toList 0 1
      (Server.handleMax numberLe exampleData
        (Server.requestArgs ["max".toList, "temperature_max".toList, [], natToString 1])) ∧
    IsMaxOfRows numberLe exampleData "temperature_max".toList 0 (exampleData.length - 1)
      (Server.handleMax numberLe exampleData
        (Server.requestArgs ["max".toList, "temperature_max".toList])) ∧
    IsMinOfRows numberLe exampleData "temperature_max".toList 0 1
      (Server.handleMin numberLe exampleData
        (Server.requestArgs
          ["min".toList, "temperature_max".toList, natToString 0, natToString 1])) ∧
    IsMinOfRows numberLe exampleData "temperature_max".toList 0 (exampleData.length - 1)
      (Server.handleMin numberLe exampleData
        (Server.requestArgs ["min".toList, "temperature_max".toList, natToString 0])) ∧
    IsMinOfRows numberLe exampleData "temperature_max".toList 0 1
      (Server.handleMin numberLe exampleData
        (Server.requestArgs ["min".toList, "temperature_max".toList, [], natToString 1])) ∧
    IsMinOfRows numberLe exampleData "temperature_max".toList 0 (exampleData.length - 1)
      (Server.handleMin numberLe exampleData
        (Server.requestArgs ["min".toList, "temperature_max".toList]))) :=
  ⟨by decide,
   handleMax_handleMin_range exampleData "temperature_max".toList 0 1
    (by decide) (by decide) (by decide) (by decide) (by decide) (by decide) (by decide)
    (by decide)⟩

/-- C15 (counterexample): the dataset of 101 records with pairwise distinct dates and
numeric cells, and the index tokens `s = e = 100`, an index of the last record.  The
token has three characters and does not start with `-`, so `parseDate` throws and the
`max` request returns no cell; the validator refuses such a token before it is sent. -/
theorem handleMax_index_100_counterexample :
    centuryData.length = 101 ∧
    (column centuryData "date".toList).Nodup ∧
    (∀ a ∈ column centuryData "temperature_max".toList,
      ((a.map Number).getD .nan).isNaN = false) ∧
    natToString 100 = "100".toList ∧
    Server.requestArgs ["max".toList, "temperature_max".toList, "100".toList, "100".toList]
      = ["max".toList, "temperature_max".toList, "100".toList, "100".toList] ∧
    Server.handleMax numberLe centuryData
      ["max".toList, "temperature_max".toList, "100".toList, "100".toList] = .thrown ∧
    validateInput (centuryData.map (fun row => (row.get "date".toList).getD []))
      "max `temperature_max` 100 100".toList false
      = some (false, [.dateBadLength false (some "max".toList) "start" "100".toList 3]) := by
  refine ⟨by decide, by decide, by decide, by decide, by decide, by decide, by rfl⟩

/-- The datasets and requests that the statement on the range requests leaves out, and the
ties of doubles.  A record whose date is the empty string is read as "no date given": the request
for the records `1 .. 1` answers with the cell `99` of record `0`.  The empty column name
is answered with "No row provided".  A column name with a space reaches the server
percent-encoded and is not found, the server decoding nothing.  The cells
`9007199254740992` and `9007199254740993` round to the same double, so `max` and `min`
both keep the first of them. -/
theorem handleMax_outside_the_range_statement :
    Server.handleMax numberLe
        [[("date".toList, "2024-04-24".toList), ("t".toList, "99".toList)],
         [("date".toList, []), ("t".toList, "1".toList)]]
        (Server.requestArgs ["max".toList, "t".toList, "1".toList, "1".toList])
      = .ok (.str "99".toList) ∧
    Server.handleMax numberLe [[("date".toList, "2024-04-24".toList), ([], "1".toList)]]
        (Server.requestArgs ["max".toList, [], "0".toList, "0".toList])
      = .badRequest "No row provided" ∧
    Server.requestArgs ["max".toList, "temp max".toList, "0".toList, "0".toList]
      = ["max".toList, "temp%20max".toList, "0".toList, "0".toList] ∧
    Server.handleMax numberLe
        [[("date".toList, "2024-04-24".toList), ("temp max".toList, "70".toList)]]
        (Server.requestArgs ["max".toList, "temp max".toList, "0".toList, "0".toList])
      = .badRequest "Row not found" ∧
    Server.handleMax numberLe
        [[("date".toList, "2024-04-24".toList), ("t".toList, "9007199254740992".toList)],
         [("date".toList, "2024-04-25".toList), ("t".toList, "9007199254740993".toList)]]
        (Server.requestArgs ["max".toList, "t".toList])
      = .ok (.str "9007199254740992".toList) ∧
    Server.handleMin numberLe
        [[("date".toList, "2024-04-24".toList), ("t".toList, "9007199254740992".toList)],
         [("date".toList, "2024-04-25".toList), ("t".toList, "9007199254740993".toList)]]
        (Server.requestArgs ["min".toList, "t".toList])
      = .ok (.str "9007199254740992".toList) := by
  decide

end WeatherQuery
